import Mathlib

/-!
# calcRoiCovg: coverage of regions of interest in two BAM files

A shallow embedding of `calcRoiCovg.c`.  The two pileup callbacks and the
ROI loop of `main` are translated into pure functions over the record
`pileup_data_t`; the alignment and sequence libraries (samtools pileup,
faidx, the BAM header hash) are the fields of `Env`.

Conventions of the embedding:
* `int` values are `Int` and are not wrapped.  The embedding agrees with the
  code as long as every value fits in 32 bits; the statements about the length
  and the counters of an ROI assume `ref_len < 2^31` and an ROI inside its
  chromosome, which bounds them.
* the callback position `uint32_t pos` is a `Nat`; BAM coordinates are
  non-negative 32-bit signed values, so the conversion `(int)pos` keeps the
  value.  The neighbour indices `pos-1` and `pos+1` are computed in
  `uint32_t`, hence modulo `2^32`.
* C arrays are lists; a read outside an array yields a default value and a
  write outside it is dropped, where the behaviour of the C code is undefined.
  The embedding agrees with the code only on runs without such an access: the
  statements about the second pass assume ROIs with
  `1 ≤ start ≤ stop ≤ ref_len` (`roi_on`), and the safety theorems show that
  for these no such access occurs.
-/

namespace CalcRoiCovg

/-! ## Data model -/

/-- Values that represent the different refseq bp-classes (`enum bp_class_t`). -/
inductive bp_class_t where
  | AT
  | CG
  | CpG
  | IUB
  | UNKNOWN
  deriving DecidableEq, Repr

/-- The fields of one `bam_pileup1_t` read by the callbacks: the deletion flag
and the mapping quality `b->core.qual` of the alignment. -/
structure bam_pileup1_t where
  is_del : Bool
  qual : Nat
  deriving DecidableEq, Repr

/-- One invocation of a pileup callback: the position `pos` and the array `pl`
of the `n` alignments that cover it (`n` is the length of `pl`). -/
structure Column where
  pos : Nat
  pl : List bam_pileup1_t
  deriving DecidableEq, Repr

/-- An array `int [4]` indexed by the bp-classes AT, CG, CpG, IUB. -/
structure base_cnt_t where
  AT : Int
  CG : Int
  CpG : Int
  IUB : Int
  deriving DecidableEq, Repr

/-- Read of `cnt[class]`. -/
def base_cnt_t.get (cnt : base_cnt_t) : bp_class_t → Int
  | .AT => cnt.AT
  | .CG => cnt.CG
  | .CpG => cnt.CpG
  | .IUB => cnt.IUB
  | .UNKNOWN => 0

/-- The statement `++cnt[class]`.  The callbacks only execute it with one of
the four proper classes. -/
def base_cnt_t.incr (cnt : base_cnt_t) : bp_class_t → base_cnt_t
  | .AT => { cnt with AT := cnt.AT + 1 }
  | .CG => { cnt with CG := cnt.CG + 1 }
  | .CpG => { cnt with CpG := cnt.CpG + 1 }
  | .IUB => { cnt with IUB := cnt.IUB + 1 }
  | .UNKNOWN => cnt

/-- The record `pileup_data_t` shared by `main` and the callbacks (without the
two file handles, which are part of `Env`).  `ref_seq` is `none` for the
`NULL` pointer. -/
structure pileup_data_t where
  beg : Int
  end_ : Int
  min_mapq : Int
  min_depth_bam1 : Int
  min_depth_bam2 : Int
  bam1_cvg : List Bool
  covd_bases : Int
  base_cnt : base_cnt_t
  tot_covd_bases : Int
  tot_base_cnt : base_cnt_t
  ref_seq : Option (List Char)
  bp_class : List bp_class_t
  ref_id : Int
  ref_len : Int
  deriving DecidableEq, Repr

/-- The external collaborators of `main`.
* `hdr_hash name` is the lookup `kh_get` in the header hash of bam1
  (`none` when the iterator is `kh_end`), giving the chromosome id;
* `fai_fetch id` is the reference sequence `fai_fetch` returns for
  `target_name[id]`;
* `plp1 id beg end` and `plp2 id beg end` are the columns the pileup buffer
  hands to the callback, in order, for `bam_fetch` over that region of the
  first and the second BAM file. -/
structure Env where
  hdr_hash : String → Option Int
  fai_fetch : Int → List Char
  plp1 : Int → Int → Int → List Column
  plp2 : Int → Int → Int → List Column

/-- A line of the ROI file on which `sscanf` found its four fields. -/
structure roi_t where
  ref_name : String
  start : Int
  stop : Int
  gene_name : String
  deriving DecidableEq, Repr

/-- The values printed in the row of one ROI. -/
structure roi_row where
  gene_name : String
  ref_name : String
  start : Int
  stop : Int
  bases : Int
  covd_bases : Int
  AT : Int
  CG : Int
  CpG : Int
  deriving DecidableEq, Repr

/-- The lines `main` writes to the output file. -/
inductive out_line where
  | note
  | header
  | roi (row : roi_row)
  | totals (covd_bases AT CG CpG : Int)
  deriving DecidableEq, Repr

/-! ## The pileup callbacks -/

/-- The counting loop of both callbacks: the number of reads of the column
that are not deletions and pass the mapping quality threshold. -/
def mapq_n (min_mapq : Int) (pl : List bam_pileup1_t) : Int :=
  pl.foldl (fun n base => if !base.is_del && decide ((base.qual : Int) ≥ min_mapq) then n + 1 else n) 0

/-- Callback of the pileup on bam1 (`pileup_func_1`). -/
def pileup_func_1 (pos : Nat) (pl : List bam_pileup1_t) (tmp : pileup_data_t) : pileup_data_t :=
  if (pos : Int) ≥ tmp.beg ∧ (pos : Int) < tmp.end_ then
    { tmp with bam1_cvg :=
        tmp.bam1_cvg.set ((pos : Int) - tmp.beg).toNat (decide (mapq_n tmp.min_mapq pl ≥ tmp.min_depth_bam1)) }
  else tmp

/-- The character `ref_seq[i]`; the string `fai_fetch` returns ends with NUL.
For `i > ref_len` the C expression reads outside the string (in particular
`ref_seq[pos-1]` at `pos = 0`, index `2^32 - 1`); the value NUL returned here
is meaningful only for `i ≤ ref_len`. -/
def ref_at (tmp : pileup_data_t) (i : Nat) : Char :=
  (tmp.ref_seq.getD []).getD i (Char.ofNat 0)

/-- The bp-class of a base given its two neighbours (the `if` chain of
`pileup_func_2`). -/
def classify (base prev_base next_base : Char) : bp_class_t :=
  if base = 'a' ∨ base = 'A' ∨ base = 't' ∨ base = 'T' then .AT
  else if ((base = 'c' ∨ base = 'C') ∧ (next_base = 'g' ∨ next_base = 'G')) ∨
          ((base = 'g' ∨ base = 'G') ∧ (prev_base = 'c' ∨ prev_base = 'C')) then .CpG
  else if base = 'c' ∨ base = 'C' ∨ base = 'g' ∨ base = 'G' then .CG
  else .IUB

/-- The index `pos-1` in `uint32_t` arithmetic. -/
def pos_prev (pos : Nat) : Nat := (pos + 4294967295) % 4294967296

/-- The index `pos+1` in `uint32_t` arithmetic. -/
def pos_next (pos : Nat) : Nat := (pos + 1) % 4294967296

/-- The class `pileup_func_2` computes for an untagged position from
`ref_seq[pos]`, `ref_seq[pos-1]` and `ref_seq[pos+1]`. -/
def class_at (tmp : pileup_data_t) (pos : Nat) : bp_class_t :=
  classify (ref_at tmp pos) (ref_at tmp (pos_prev pos)) (ref_at tmp (pos_next pos))

/-- The classification step of `pileup_func_2`: the body of
`if( mapq_n >= tmp->min_depth_bam2 )`.  For `pos ≥ ref_len` the C code reads
and writes `bp_class[pos]` outside the array; the embedding agrees with the
code only for `pos < ref_len`, which holds for ROIs with `stop ≤ ref_len`. -/
def count_base (pos : Nat) (tmp : pileup_data_t) : pileup_data_t :=
  let cls := tmp.bp_class.getD pos .UNKNOWN
  if cls = .UNKNOWN then
    let cls := class_at tmp pos
    { tmp with
      covd_bases := tmp.covd_bases + 1
      base_cnt := tmp.base_cnt.incr cls
      tot_covd_bases := tmp.tot_covd_bases + 1
      tot_base_cnt := tmp.tot_base_cnt.incr cls
      bp_class := tmp.bp_class.set pos cls }
  else
    { tmp with
      covd_bases := tmp.covd_bases + 1
      base_cnt := tmp.base_cnt.incr cls }

/-- The outer condition of `pileup_func_2`: the position is inside the ROI
and was tagged by the pileup on bam1. -/
def in_tagged_roi (pos : Nat) (tmp : pileup_data_t) : Bool :=
  decide ((pos : Int) ≥ tmp.beg) && decide ((pos : Int) < tmp.end_) &&
    tmp.bam1_cvg.getD ((pos : Int) - tmp.beg).toNat false

/-- Callback of the pileup on bam2 (`pileup_func_2`). -/
def pileup_func_2 (pos : Nat) (pl : List bam_pileup1_t) (tmp : pileup_data_t) : pileup_data_t :=
  if in_tagged_roi pos tmp then
    if mapq_n tmp.min_mapq pl ≥ tmp.min_depth_bam2 then count_base pos tmp
    else tmp
  else tmp

/-- A pileup run: the buffer calls the callback once per column, in order. -/
def bam_plbuf (func : Nat → List bam_pileup1_t → pileup_data_t → pileup_data_t)
    (cols : List Column) (data : pileup_data_t) : pileup_data_t :=
  cols.foldl (fun d c => func c.pos c.pl d) data

/-! ## The ROI loop of `main` -/

/-- Start of the processing of a valid ROI: the start locus becomes 0-based,
the per-ROI counters AT, CG, CpG and `covd_bases` are zeroed and the coverage
mask is allocated with `calloc`.  The difference `end - beg` is taken in `Int`;
it is the value of the C `int` when `-2^31 < beg` and `end - beg < 2^31`, as
for an ROI with `1 ≤ start ≤ stop ≤ ref_len < 2^31`. -/
def begin_roi (data : pileup_data_t) : pileup_data_t :=
  let beg := data.beg - 1
  let bases := data.end_ - beg
  { data with
    beg := beg
    covd_bases := 0
    base_cnt := { data.base_cnt with AT := 0, CG := 0, CpG := 0 }
    bam1_cvg := List.replicate bases.toNat false }

/-- Load the refseq of the whole chromosome unless already loaded for the
previous ROI; a load also resets all tags of `bp_class` to UNKNOWN. -/
def load_ref (env : Env) (ref_id : Int) (data : pileup_data_t) : pileup_data_t :=
  if data.ref_seq = none ∨ ref_id ≠ data.ref_id then
    let seq := env.fai_fetch ref_id
    { data with
      ref_seq := some seq
      ref_len := seq.length
      bp_class := List.replicate seq.length .UNKNOWN
      ref_id := ref_id }
  else data

/-- If the ROI is at a chromosome tip, it is edited so that the neighbours of
every base exist. -/
def clamp_roi (data : pileup_data_t) : pileup_data_t :=
  let data := if data.beg = 0 then { data with beg := data.beg + 1 } else data
  if data.end_ = data.ref_len then { data with end_ := data.end_ - 1 } else data

/-- The state in which the two pileups of a valid ROI start. -/
def setup_roi (env : Env) (ref_id : Int) (data : pileup_data_t) : pileup_data_t :=
  clamp_roi (load_ref env ref_id (begin_roi data))

/-- The pileup on bam1 over the ROI. -/
def pass1 (env : Env) (ref_id : Int) (data : pileup_data_t) : pileup_data_t :=
  bam_plbuf pileup_func_1 (env.plp1 ref_id data.beg data.end_) data

/-- The pileup on bam2 over the ROI. -/
def pass2 (env : Env) (ref_id : Int) (data : pileup_data_t) : pileup_data_t :=
  bam_plbuf pileup_func_2 (env.plp2 ref_id data.beg data.end_) data

/-- The row printed for the ROI; `bases` is the length computed before the
ROI was edited at a chromosome tip. -/
def row_of (r : roi_t) (bases : Int) (data : pileup_data_t) : roi_row :=
  { gene_name := r.gene_name
    ref_name := r.ref_name
    start := data.beg + 1
    stop := data.end_
    bases := bases
    covd_bases := data.covd_bases
    AT := data.base_cnt.AT
    CG := data.base_cnt.CG
    CpG := data.base_cnt.CpG }

/-- The body of the loop for a line with four fields: `sscanf` has stored the
start and the stop in `data`; an ROI with an unknown chromosome or with
`beg > end` is skipped, otherwise the two pileups run and a row is printed. -/
def process_roi (env : Env) (data : pileup_data_t) (r : roi_t) : pileup_data_t × Option roi_row :=
  let data := { data with beg := r.start, end_ := r.stop }
  match env.hdr_hash r.ref_name with
  | none => (data, none)
  | some ref_id =>
    if data.beg > data.end_ then (data, none)
    else
      let bases := data.end_ - (data.beg - 1)
      let data := pass2 env ref_id (pass1 env ref_id (setup_roi env ref_id data))
      (data, some (row_of r bases data))

/-- The `while` loop over the lines of the ROI file; `none` is a line on which
`sscanf` does not find four fields.  The result is the exit code, the final
record and the lines written. -/
def roi_loop (env : Env) : List (Option roi_t) → pileup_data_t → List out_line →
    Int × pileup_data_t × List out_line
  | [], data, out =>
    (0, data, out ++ [out_line.totals data.tot_covd_bases data.tot_base_cnt.AT
      data.tot_base_cnt.CG data.tot_base_cnt.CpG])
  | none :: _, data, out => (1, data, out)
  | some r :: rest, data, out =>
    let res := process_roi env data r
    roi_loop env rest res.1 (out ++ (res.2.map out_line.roi).toList)

/-- The initialisations `main` performs before the loop.  `stack` holds the
contents of the uninitialised local `data`; the three thresholds are the
optional command line arguments (6, 8 and 20 when absent). -/
def init_data (stack : pileup_data_t) (min_depth_bam1 min_depth_bam2 min_mapq : Int) : pileup_data_t :=
  { stack with
    ref_id := -1
    ref_seq := none
    bp_class := []
    min_mapq := min_mapq
    min_depth_bam1 := min_depth_bam1
    min_depth_bam2 := min_depth_bam2
    tot_covd_bases := 0
    tot_base_cnt := { stack.tot_base_cnt with AT := 0, CG := 0, CpG := 0 } }

/-- The program after all files were opened. -/
def main (env : Env) (stack : pileup_data_t) (min_depth_bam1 min_depth_bam2 min_mapq : Int)
    (lines : List (Option roi_t)) : Int × pileup_data_t × List out_line :=
  roi_loop env lines (init_data stack min_depth_bam1 min_depth_bam2 min_mapq)
    [out_line.note, out_line.header]

/-! ## Specification vocabulary -/

/-- The pileup `cols` delivers a column for position `p`. -/
def reported (cols : List Column) (p : Nat) : Bool :=
  cols.any (fun c => decide (c.pos = p))

/-- The pileup `cols` delivers for position `p` a column with at least
`min_depth` reads that are not deletions and have mapping quality at least
`min_mapq`. -/
def meets (min_mapq min_depth : Int) (cols : List Column) (p : Nat) : Bool :=
  cols.any (fun c => decide (c.pos = p) && decide (mapq_n min_mapq c.pl ≥ min_depth))

/-! ## Auxiliary notions of the proofs and of the statements -/

/-- The tag `bp_class[pos]`. -/
def tag (d : pileup_data_t) (pos : Nat) : bp_class_t :=
  d.bp_class.getD pos .UNKNOWN

/-- The class under which `pileup_func_2` counts a position in the ROI: the
stored tag, or the class computed from the reference when there is none. -/
def eff_class (d : pileup_data_t) (pos : Nat) : bp_class_t :=
  if tag d pos = .UNKNOWN then class_at d pos else tag d pos

/-- The positions, in callback order, at which the pileup on bam2 reaches the
classification step: both conditions of `pileup_func_2` hold. -/
def hits (d : pileup_data_t) (cols : List Column) : List Nat :=
  (cols.filter (fun c => in_tagged_roi c.pos d &&
    decide (mapq_n d.min_mapq c.pl ≥ d.min_depth_bam2))).map Column.pos

/-- The classification step executed at each position of a list, in order. -/
def count_all (ps : List Nat) (d : pileup_data_t) : pileup_data_t :=
  ps.foldl (fun d p => count_base p d) d

/-- The length of the chromosome `id`, as `int`. -/
def chrom_len (env : Env) (id : Int) : Int := ((env.fai_fetch id).length : Nat)

/-- The 0-based start of the ROI after the edit at the chromosome tip. -/
def roi_beg (r : roi_t) : Int :=
  if r.start - 1 = 0 then 1 else r.start - 1

/-- The end of the ROI after the edit at the chromosome tip. -/
def roi_end (env : Env) (id : Int) (r : roi_t) : Int :=
  if r.stop = chrom_len env id then r.stop - 1 else r.stop

/-- The cache of `data` holds the chromosome `id`: its sequence, its length
and one tag per base. -/
def loaded (env : Env) (d : pileup_data_t) (id : Int) : Prop :=
  d.ref_seq = some (env.fai_fetch id) ∧ d.ref_id = id ∧ d.ref_len = chrom_len env id ∧
    d.bp_class.length = (env.fai_fetch id).length

/-- The chromosome cache is empty or holds the chromosome `ref_id`. -/
def cache_ok (env : Env) (d : pileup_data_t) : Prop :=
  d.ref_seq = none ∨ loaded env d d.ref_id

/-- The columns of the pileup on bam1 over the edited ROI. -/
def roi_plp1 (env : Env) (id : Int) (r : roi_t) : List Column :=
  env.plp1 id (roi_beg r) (roi_end env id r)

/-- The columns of the pileup on bam2 over the edited ROI. -/
def roi_plp2 (env : Env) (id : Int) (r : roi_t) : List Column :=
  env.plp2 id (roi_beg r) (roi_end env id r)

/-- Position `p` is counted in the ROI `r` of chromosome `id`: it lies in the
edited range of the ROI and each of the two pileups delivers for it a column
with at least the required number of reads (`meets`).  A position for which a
pileup delivers no column is not counted, whatever the threshold; for
thresholds of at least 1 and pileups that report a position at most once this
is `depth_covered`, the condition on the depth alone. -/
def jointly_covered (env : Env) (min_mapq min_depth_bam1 min_depth_bam2 : Int) (id : Int)
    (r : roi_t) (p : Nat) : Bool :=
  decide (roi_beg r ≤ (p : Int)) && decide ((p : Int) < roi_end env id r) &&
    meets min_mapq min_depth_bam1 (roi_plp1 env id r) p &&
    meets min_mapq min_depth_bam2 (roi_plp2 env id r) p

/-- The positions of the ROI counted by the second pass, in callback order,
described without the coverage mask. -/
def roi_hits (env : Env) (min_mapq min_depth_bam1 min_depth_bam2 : Int) (id : Int)
    (r : roi_t) : List Nat :=
  ((roi_plp2 env id r).filter (fun c =>
    decide (roi_beg r ≤ (c.pos : Int)) && decide ((c.pos : Int) < roi_end env id r) &&
      meets min_mapq min_depth_bam1 (roi_plp1 env id r) c.pos &&
      decide (mapq_n min_mapq c.pl ≥ min_depth_bam2))).map Column.pos

/-- Each position occurs in at most one column of the pileup. -/
def once (cols : List Column) : Prop := (cols.map Column.pos).Nodup

instance (cols : List Column) : Decidable (once cols) := by
  unfold once; infer_instance

/-- The state in which the pileups of the ROI `r` start when the loop body is
entered with `d`. -/
def roi_start (env : Env) (d : pileup_data_t) (r : roi_t) (id : Int) : pileup_data_t :=
  setup_roi env id { d with beg := r.start, end_ := r.stop }

/-- The depth of a BAM at position `p` as the specification defines it: the
number of reads of the column at `p` with `is_del` false and mapping quality
at least `min_mapq`; it is 0 when the pileup delivers no column for `p`. -/
def depth (min_mapq : Int) (cols : List Column) (p : Nat) : Int :=
  match cols.find? (fun c => decide (c.pos = p)) with
  | some c => ((c.pl.filter (fun b => !b.is_del && decide (min_mapq ≤ (b.qual : Int)))).length : Nat)
  | none => 0

/-- The class of position `p` of chromosome `id` computed from the reference
sequence alone. -/
def ref_class (env : Env) (id : Int) (p : Nat) : bp_class_t :=
  classify ((env.fai_fetch id).getD p (Char.ofNat 0))
    ((env.fai_fetch id).getD (pos_prev p) (Char.ofNat 0))
    ((env.fai_fetch id).getD (pos_next p) (Char.ofNat 0))

/-- The tag with which the pileups of an ROI on chromosome `id` start when the
loop body is entered with `d`: a load of the chromosome clears all tags. -/
def start_tag (d : pileup_data_t) (id : Int) (p : Nat) : bp_class_t :=
  if d.ref_seq = none ∨ id ≠ d.ref_id then .UNKNOWN else tag d p

/-- Invariant of the ROI loop: the thresholds are the configured ones, the
chromosome cache is consistent and every tag that is set is the class of its
position. -/
def state_ok (env : Env) (min_mapq min_depth_bam1 min_depth_bam2 : Int) (d : pileup_data_t) : Prop :=
  d.min_mapq = min_mapq ∧ d.min_depth_bam1 = min_depth_bam1 ∧ d.min_depth_bam2 = min_depth_bam2 ∧
    cache_ok env d ∧ ∀ p, tag d p = .UNKNOWN ∨ tag d p = ref_class env d.ref_id p

/-- A valid ROI that lies on chromosome `id`: the name is that of `id` and
`1 ≤ start ≤ stop ≤ ref_len`. -/
def roi_on (env : Env) (id : Int) (r : roi_t) : Prop :=
  env.hdr_hash r.ref_name = some id ∧ 1 ≤ r.start ∧ r.start ≤ r.stop ∧ r.stop ≤ chrom_len env id

instance (env : Env) (id : Int) (r : roi_t) : Decidable (roi_on env id r) := by
  unfold roi_on; infer_instance

/-- The record after the loop body has run for each ROI of a list. -/
def run_rois (env : Env) (d : pileup_data_t) (rois : List roi_t) : pileup_data_t :=
  rois.foldl (fun d r => (process_roi env d r).1) d

/-- The rows printed while the loop body runs for each ROI of a list. -/
def run_rows (env : Env) : pileup_data_t → List roi_t → List roi_row
  | _, [] => []
  | d, r :: rs => (process_roi env d r).2.toList ++ run_rows env (process_roi env d r).1 rs

/-- The chromosome id of an ROI whose name is in the header of bam1. -/
def roi_id (env : Env) (r : roi_t) : Int := (env.hdr_hash r.ref_name).getD (-1)

/-- The positions of chromosome `id` that are counted (`jointly_covered`) in the
ROI `r`. -/
def covered_positions (env : Env) (min_mapq min_depth_bam1 min_depth_bam2 : Int) (id : Int)
    (r : roi_t) : Finset Nat :=
  (Finset.range (env.fai_fetch id).length).filter
    (fun p => jointly_covered env min_mapq min_depth_bam1 min_depth_bam2 id r p = true)

/-- The pairs (chromosome, position) that are counted (`jointly_covered`) in at
least one ROI of the list. -/
def covered_pairs (env : Env) (min_mapq min_depth_bam1 min_depth_bam2 : Int)
    (rois : List roi_t) : Finset (Int × Nat) :=
  rois.toFinset.biUnion (fun r =>
    (covered_positions env min_mapq min_depth_bam1 min_depth_bam2 (roi_id env r) r).image
      (fun p => (roi_id env r, p)))

/-- Equal elements of the list are consecutive: an element that occurs again
later is repeated by its successor. -/
def grouped {α : Type} [DecidableEq α] : List α → Prop
  | [] => True
  | c :: cs => (c ∈ cs → cs.head? = some c) ∧ grouped cs

/-- A valid ROI on a chromosome of the header whose two pileups report each
position at most once. -/
def roi_good (env : Env) (r : roi_t) : Prop :=
  roi_on env (roi_id env r) r ∧ once (roi_plp1 env (roi_id env r) r) ∧
    once (roi_plp2 env (roi_id env r) r)

instance (env : Env) (r : roi_t) : Decidable (roi_good env r) := by
  unfold roi_good; infer_instance

/-- The number of counted positions (`roi_hits`) of class `x` in the ROI `r`. -/
def roi_class_count (env : Env) (min_mapq min_depth_bam1 min_depth_bam2 : Int) (r : roi_t)
    (x : bp_class_t) : Nat :=
  (roi_hits env min_mapq min_depth_bam1 min_depth_bam2 (roi_id env r) r).countP
    (fun p => decide (ref_class env (roi_id env r) p = x))

/-- The row of the ROI `r` as a function of the inputs alone. -/
def roi_row_spec (env : Env) (min_mapq min_depth_bam1 min_depth_bam2 : Int) (r : roi_t) : roi_row :=
  { gene_name := r.gene_name
    ref_name := r.ref_name
    start := roi_beg r + 1
    stop := roi_end env (roi_id env r) r
    bases := r.stop - (r.start - 1)
    covd_bases := ((roi_hits env min_mapq min_depth_bam1 min_depth_bam2 (roi_id env r) r).length : Nat)
    AT := (roi_class_count env min_mapq min_depth_bam1 min_depth_bam2 r .AT : Nat)
    CG := (roi_class_count env min_mapq min_depth_bam1 min_depth_bam2 r .CG : Nat)
    CpG := (roi_class_count env min_mapq min_depth_bam1 min_depth_bam2 r .CpG : Nat) }

/-- Two ROIs share no (chromosome, position): they lie on different
chromosomes or their ranges of 1-based positions do not meet. -/
def roi_disjoint (env : Env) (r r' : roi_t) : Prop :=
  roi_id env r ≠ roi_id env r' ∨ r.stop < r'.start ∨ r'.stop < r.start

instance (env : Env) (r r' : roi_t) : Decidable (roi_disjoint env r r') := by
  unfold roi_disjoint; infer_instance

/-- The ROI rows among the lines of the output. -/
def out_rows (out : List out_line) : List roi_row :=
  out.filterMap (fun l => match l with
    | out_line.roi row => some row
    | _ => none)

/-- The other-case letter of a character: the lower case letter of an upper case
one and the upper case letter of a lower case one; any other character is
left as it is. -/
def other_case (c : Char) : Char :=
  if c.isUpper then c.toLower else c.toUpper

/-- The classifier as the specification words it, on characters compared
without regard to case: A or T is AT; otherwise C before G, or G after C, is
CpG; otherwise C or G is CG; anything else is IUB. -/
def classify_spec (base prev_base next_base : Char) : bp_class_t :=
  if base.toUpper = 'A' ∨ base.toUpper = 'T' then .AT
  else if (base.toUpper = 'C' ∧ next_base.toUpper = 'G') ∨
      (base.toUpper = 'G' ∧ prev_base.toUpper = 'C') then .CpG
  else if base.toUpper = 'C' ∨ base.toUpper = 'G' then .CG
  else .IUB

/-! ## Example inputs -/

/-- A pileup column at `pos` with `n` reads of mapping quality `qual`, none of
them a deletion. -/
def ex_col (pos n qual : Nat) : Column :=
  { pos := pos, pl := List.replicate n { is_del := false, qual := qual } }

/-- Example pileup: positions 0 to 5, each with 8 reads of mapping quality 30. -/
def ex_cols : List Column := (List.range 6).map (fun p => ex_col p 8 30)

/-- Example collaborators: chromosome "1" is `ACGTT` (id 0), chromosome "2" is
`ANGTTA` (id 1); both BAMs deliver `ex_cols` for every region. -/
def ex_env : Env :=
  { hdr_hash := fun name => if name = "1" then some 0 else if name = "2" then some 1 else none
    fai_fetch := fun id => if id = 0 then ['A', 'C', 'G', 'T', 'T'] else ['A', 'N', 'G', 'T', 'T', 'A']
    plp1 := fun _ _ _ => ex_cols
    plp2 := fun _ _ _ => ex_cols }

/-- Example contents of the uninitialised local `data`: all zero. -/
def ex_stack : pileup_data_t :=
  { beg := 0, end_ := 0, min_mapq := 0, min_depth_bam1 := 0, min_depth_bam2 := 0, bam1_cvg := []
    covd_bases := 0, base_cnt := ⟨0, 0, 0, 0⟩, tot_covd_bases := 0, tot_base_cnt := ⟨0, 0, 0, 0⟩
    ref_seq := none, bp_class := [], ref_id := 0, ref_len := 0 }

/-- Two overlapping ROIs on chromosome "1". -/
def ex_rois_overlap : List roi_t := [⟨"1", 1, 5, "geneA"⟩, ⟨"1", 2, 4, "geneB"⟩]

/-- ROIs of chromosome "1" separated by an ROI of chromosome "2". -/
def ex_rois_mixed : List roi_t := [⟨"1", 1, 5, "geneA"⟩, ⟨"2", 1, 6, "geneC"⟩, ⟨"1", 2, 4, "geneB"⟩]

/-- The ROIs of `ex_rois_mixed` grouped by chromosome. -/
def ex_rois_grouped : List roi_t := [⟨"1", 1, 5, "geneA"⟩, ⟨"1", 2, 4, "geneB"⟩, ⟨"2", 1, 6, "geneC"⟩]

/-- Two ROIs on chromosome "2" (`ANGTTA`); both cover the base `N` at position 1. -/
def ex_rois_iub : List roi_t := [⟨"2", 1, 6, "geneC"⟩, ⟨"2", 2, 3, "geneD"⟩]

/-- Example pileup with 5 reads of mapping quality 30 at positions 0 to 5. -/
def ex_cols_low : List Column := (List.range 6).map (fun p => ex_col p 5 30)

/-- Example collaborators as `ex_env`, except that bam1 has depth 5 everywhere
on chromosome "2". -/
def ex_env_low : Env :=
  { ex_env with plp1 := fun id _ _ => if id = 0 then ex_cols else ex_cols_low }

/-- One ROI of chromosome "1". -/
def ex_rois_A : List roi_t := [⟨"1", 1, 3, "geneA"⟩]

/-- An ROI of chromosome "1" and an ROI of chromosome "2", both disjoint from
the ROI of `ex_rois_A`. -/
def ex_rois_B : List roi_t := [⟨"1", 4, 5, "geneB"⟩, ⟨"2", 1, 6, "geneC"⟩]

/-- Example pileup with columns at the positions 1 and 3 only. -/
def ex_cols_gap : List Column := [ex_col 1 8 30, ex_col 3 8 30]

/-- Example collaborators as `ex_env`, except that bam1 has no read at the
positions 0, 2, 4 and 5. -/
def ex_env_gap : Env :=
  { ex_env with plp1 := fun _ _ _ => ex_cols_gap }

/-- The number of tags of `bp_class` that are not UNKNOWN. -/
def tagged_count (d : pileup_data_t) : Nat :=
  d.bp_class.countP (fun t => decide (t ≠ .UNKNOWN))

/-- The positions counted by the second pass of the ROI `r` when the loop body
is entered with `d`. -/
def roi_hit_list (env : Env) (d : pileup_data_t) (r : roi_t) (id : Int) : List Nat :=
  hits (pass1 env id (roi_start env d r id))
    (env.plp2 id (roi_start env d r id).beg (roi_start env d r id).end_)

/-- Position `p` is jointly covered in the ROI `r` of chromosome `id` as the
specification words it: `p` lies in the edited range `[beg,end)` of the ROI and
the depth at `p` (0 where the pileup delivers no column) is at least the
threshold in both BAMs. -/
def depth_covered (env : Env) (min_mapq min_depth_bam1 min_depth_bam2 : Int) (id : Int)
    (r : roi_t) (p : Nat) : Bool :=
  decide (roi_beg r ≤ (p : Int)) && decide ((p : Int) < roi_end env id r) &&
    decide (min_depth_bam1 ≤ depth min_mapq (roi_plp1 env id r) p) &&
    decide (min_depth_bam2 ≤ depth min_mapq (roi_plp2 env id r) p)

/-- Position `p` is covered by depth in the ROI and both pileups deliver a column
for it. -/
def column_covered (env : Env) (min_mapq min_depth_bam1 min_depth_bam2 : Int) (id : Int)
    (r : roi_t) (p : Nat) : Bool :=
  depth_covered env min_mapq min_depth_bam1 min_depth_bam2 id r p &&
    reported (roi_plp1 env id r) p && reported (roi_plp2 env id r) p

/-- The pairs (chromosome, position), with the position inside the chromosome,
for which `cov` holds in at least one ROI of the list. -/
def pairs_where (env : Env) (cov : Int → roi_t → Nat → Bool) (rois : List roi_t) :
    Finset (Int × Nat) :=
  rois.toFinset.biUnion (fun r =>
    ((Finset.range (env.fai_fetch (roi_id env r)).length).filter
      (fun p => cov (roi_id env r) r p = true)).image (fun p => (roi_id env r, p)))

/-! # Verification -/

/-! ## The counting loop and the first pass -/


theorem mapq_n_loop (min_mapq : Int) (pl : List bam_pileup1_t) (n : Int) :
    pl.foldl (fun n base => if !base.is_del && decide ((base.qual : Int) ≥ min_mapq) then n + 1 else n) n
      = n + (pl.countP (fun base => !base.is_del && decide (min_mapq ≤ (base.qual : Int))) : Nat) := by
  induction pl generalizing n with
  | nil => simp
  | cons b bs ih =>
    simp only [List.foldl_cons, ih, List.countP_cons]
    by_cases h : (!b.is_del && decide (min_mapq ≤ (b.qual : Int))) = true
    · have h' : (!b.is_del && decide ((b.qual : Int) ≥ min_mapq)) = true := by simpa using h
      rw [if_pos h', if_pos h]; push_cast; ring
    · have h' : ¬ (!b.is_del && decide ((b.qual : Int) ≥ min_mapq)) = true := by simpa using h
      rw [if_neg h', if_neg h]; simp

theorem mapq_n_eq_countP (min_mapq : Int) (pl : List bam_pileup1_t) :
    mapq_n min_mapq pl = (pl.countP (fun base => !base.is_del && decide (min_mapq ≤ (base.qual : Int))) : Nat) := by
  unfold mapq_n; rw [mapq_n_loop]; simp

theorem pileup_func_1_frame (pos : Nat) (pl : List bam_pileup1_t) (d : pileup_data_t) :
    pileup_func_1 pos pl d = { d with bam1_cvg := (pileup_func_1 pos pl d).bam1_cvg } := by
  unfold pileup_func_1; split <;> rfl

theorem pileup_func_1_length (pos : Nat) (pl : List bam_pileup1_t) (d : pileup_data_t) :
    (pileup_func_1 pos pl d).bam1_cvg.length = d.bam1_cvg.length := by
  unfold pileup_func_1; split <;> simp

theorem plbuf1_frame (cols : List Column) (d : pileup_data_t) :
    bam_plbuf pileup_func_1 cols d = { d with bam1_cvg := (bam_plbuf pileup_func_1 cols d).bam1_cvg } := by
  induction cols generalizing d with
  | nil => rfl
  | cons c cs ih =>
    have h := ih (pileup_func_1 c.pos c.pl d)
    simp only [bam_plbuf, List.foldl_cons] at h ⊢
    rw [h, pileup_func_1_frame c.pos c.pl d]

theorem plbuf1_length (cols : List Column) (d : pileup_data_t) :
    (bam_plbuf pileup_func_1 cols d).bam1_cvg.length = d.bam1_cvg.length := by
  induction cols generalizing d with
  | nil => rfl
  | cons c cs ih =>
    have h := ih (pileup_func_1 c.pos c.pl d)
    simp only [bam_plbuf, List.foldl_cons] at h ⊢
    rw [h, pileup_func_1_length]

theorem reported_of_meets {q m : Int} {cols : List Column} {p : Nat} (h : meets q m cols p = true) :
    reported cols p = true := by
  simp only [meets, reported, List.any_eq_true, Bool.and_eq_true, decide_eq_true_eq] at h ⊢
  obtain ⟨c, hc, h1, _⟩ := h
  exact ⟨c, hc, h1⟩

theorem reported_iff_mem {cols : List Column} {p : Nat} :
    reported cols p = true ↔ p ∈ cols.map Column.pos := by
  simp [reported, List.mem_map]

theorem getD_set_self {α : Type} (l : List α) (i : Nat) (v d : α) (h : i < l.length) :
    (l.set i v).getD i d = v := by
  simp [List.getD_eq_getElem?_getD, List.getElem?_set, h]

theorem getD_set_ne {α : Type} (l : List α) (i j : Nat) (v d : α) (h : j ≠ i) :
    (l.set j v).getD i d = l.getD i d := by
  simp [List.getD_eq_getElem?_getD, List.getElem?_set, h]

theorem plbuf1_mask (cols : List Column) (hnd : (cols.map Column.pos).Nodup) (d : pileup_data_t)
    (p : Nat) (hb : d.beg ≤ (p : Int))
    (hlen : ((p : Int) - d.beg).toNat < d.bam1_cvg.length) :
    (bam_plbuf pileup_func_1 cols d).bam1_cvg.getD ((p : Int) - d.beg).toNat false =
      if reported cols p then
        decide ((p : Int) < d.end_) && meets d.min_mapq d.min_depth_bam1 cols p
          || !decide ((p : Int) < d.end_) && d.bam1_cvg.getD ((p : Int) - d.beg).toNat false
      else d.bam1_cvg.getD ((p : Int) - d.beg).toNat false := by
  induction cols generalizing d with
  | nil => simp [bam_plbuf, reported]
  | cons c cs ih =>
    simp only [List.map_cons, List.nodup_cons] at hnd
    obtain ⟨hc, hnd'⟩ := hnd
    have hfr := pileup_func_1_frame c.pos c.pl d
    have hl := pileup_func_1_length c.pos c.pl d
    have ih' := ih hnd' (pileup_func_1 c.pos c.pl d)
    have e1 : (pileup_func_1 c.pos c.pl d).beg = d.beg := by rw [hfr]
    have e2 : (pileup_func_1 c.pos c.pl d).end_ = d.end_ := by rw [hfr]
    have e3 : (pileup_func_1 c.pos c.pl d).min_mapq = d.min_mapq := by rw [hfr]
    have e4 : (pileup_func_1 c.pos c.pl d).min_depth_bam1 = d.min_depth_bam1 := by rw [hfr]
    rw [e1, e2, e3, e4, hl] at ih'
    have ih'' := ih' hb hlen
    have hfold : bam_plbuf pileup_func_1 (c :: cs) d = bam_plbuf pileup_func_1 cs (pileup_func_1 c.pos c.pl d) := rfl
    rw [hfold, ih'']
    by_cases hp : c.pos = p
    · have hnr : reported cs p = false := by
        rw [Bool.eq_false_iff]; intro h; rw [reported_iff_mem] at h; exact hc (hp ▸ h)
      have hnm : meets d.min_mapq d.min_depth_bam1 cs p = false := by
        rw [Bool.eq_false_iff]; intro h; rw [reported_of_meets h] at hnr; exact absurd hnr (by simp)
      have hr : reported (c :: cs) p = true := by simp [reported, hp]
      have hm : meets d.min_mapq d.min_depth_bam1 (c :: cs) p
          = decide (mapq_n d.min_mapq c.pl ≥ d.min_depth_bam1) := by
        have := hnm
        simp only [meets] at this
        simp only [meets, List.any_cons, this, hp]; simp
      rw [hnr, hr, hm]
      simp only [Bool.false_eq_true, if_false, if_true]
      unfold pileup_func_1
      by_cases he : (p : Int) < d.end_
      · rw [if_pos (by rw [hp]; exact ⟨hb, he⟩)]
        simp only [hp]
        rw [getD_set_self _ _ _ _ hlen]; simp [he]
      · rw [if_neg (by rw [hp]; exact fun h => he h.2)]; simp [he]
    · have hr : reported (c :: cs) p = reported cs p := by simp [reported, hp]
      have hm : meets d.min_mapq d.min_depth_bam1 (c :: cs) p = meets d.min_mapq d.min_depth_bam1 cs p := by
        simp [meets, hp]
      have hM : (pileup_func_1 c.pos c.pl d).bam1_cvg.getD ((p : Int) - d.beg).toNat false
          = d.bam1_cvg.getD ((p : Int) - d.beg).toNat false := by
        unfold pileup_func_1
        split
        · rename_i hin
          apply getD_set_ne
          intro h
          apply hp
          have h1 := hin.1
          omega
        · rfl
      rw [hr, hm, hM]

/-! ## The second pass -/

theorem classify_ne_UNKNOWN (b p n : Char) : classify b p n ≠ .UNKNOWN := by
  unfold classify; split_ifs <;> simp

theorem class_at_ne_UNKNOWN (d : pileup_data_t) (p : Nat) : class_at d p ≠ .UNKNOWN :=
  classify_ne_UNKNOWN _ _ _

theorem eff_class_ne_UNKNOWN (d : pileup_data_t) (p : Nat) : eff_class d p ≠ .UNKNOWN := by
  unfold eff_class; split_ifs with h
  · exact class_at_ne_UNKNOWN d p
  · exact h

theorem incr_get (cnt : base_cnt_t) (c x : bp_class_t) (hc : c ≠ .UNKNOWN) :
    (cnt.incr c).get x = cnt.get x + if c = x then 1 else 0 := by
  cases c <;> cases x <;> simp [base_cnt_t.incr, base_cnt_t.get] at hc ⊢

theorem count_base_frame (p : Nat) (d : pileup_data_t) :
    count_base p d = { d with
      covd_bases := (count_base p d).covd_bases
      base_cnt := (count_base p d).base_cnt
      tot_covd_bases := (count_base p d).tot_covd_bases
      tot_base_cnt := (count_base p d).tot_base_cnt
      bp_class := (count_base p d).bp_class } := by
  unfold count_base; simp only; split <;> rfl

theorem count_base_covd (p : Nat) (d : pileup_data_t) :
    (count_base p d).covd_bases = d.covd_bases + 1 := by
  unfold count_base; simp only; split <;> rfl

theorem count_base_base_cnt (p : Nat) (d : pileup_data_t) :
    (count_base p d).base_cnt = d.base_cnt.incr (eff_class d p) := by
  unfold count_base eff_class tag; simp only; split <;> rfl

theorem count_base_tot (p : Nat) (d : pileup_data_t) :
    (count_base p d).tot_covd_bases = d.tot_covd_bases + if tag d p = .UNKNOWN then 1 else 0 := by
  unfold count_base tag; simp only; split <;> simp

theorem count_base_tot_cnt (p : Nat) (d : pileup_data_t) :
    (count_base p d).tot_base_cnt =
      if tag d p = .UNKNOWN then d.tot_base_cnt.incr (class_at d p) else d.tot_base_cnt := by
  unfold count_base tag; simp only; split <;> rfl

theorem count_base_length (p : Nat) (d : pileup_data_t) :
    (count_base p d).bp_class.length = d.bp_class.length := by
  unfold count_base; simp only; split <;> simp

theorem count_base_tag (p : Nat) (d : pileup_data_t) (hp : p < d.bp_class.length) (q : Nat) :
    tag (count_base p d) q = if q = p then eff_class d p else tag d q := by
  unfold count_base eff_class tag; simp only
  by_cases hq : q = p
  · subst hq
    split
    · simp only [if_true]; rw [getD_set_self _ _ _ _ hp]
    · simp
  · split
    · simp only [if_neg hq]; exact getD_set_ne _ _ _ _ _ (Ne.symm hq)
    · simp [hq]

theorem count_base_class_at (p : Nat) (d : pileup_data_t) (q : Nat) :
    class_at (count_base p d) q = class_at d q := by
  have h : (count_base p d).ref_seq = d.ref_seq := by rw [count_base_frame]
  simp only [class_at, ref_at, h]

theorem count_base_eff_class (p : Nat) (d : pileup_data_t) (hp : p < d.bp_class.length) (q : Nat) :
    eff_class (count_base p d) q = eff_class d q := by
  have ht := count_base_tag p d hp q
  unfold eff_class at ht ⊢
  rw [count_base_class_at, ht]
  by_cases hq : q = p
  · subst hq
    simp only [if_true]
    have := eff_class_ne_UNKNOWN d q
    unfold eff_class at this
    rw [if_neg this]
  · simp only [if_neg hq]

theorem count_all_cons (p : Nat) (ps : List Nat) (d : pileup_data_t) :
    count_all (p :: ps) d = count_all ps (count_base p d) := rfl

theorem count_all_frame (ps : List Nat) (d : pileup_data_t) :
    count_all ps d = { d with
      covd_bases := (count_all ps d).covd_bases
      base_cnt := (count_all ps d).base_cnt
      tot_covd_bases := (count_all ps d).tot_covd_bases
      tot_base_cnt := (count_all ps d).tot_base_cnt
      bp_class := (count_all ps d).bp_class } := by
  induction ps generalizing d with
  | nil => rfl
  | cons p ps ih =>
    rw [count_all_cons, ih (count_base p d), count_base_frame p d]

theorem count_all_length (ps : List Nat) (d : pileup_data_t) :
    (count_all ps d).bp_class.length = d.bp_class.length := by
  induction ps generalizing d with
  | nil => rfl
  | cons p ps ih => rw [count_all_cons, ih, count_base_length]

theorem count_all_covd (ps : List Nat) (d : pileup_data_t) :
    (count_all ps d).covd_bases = d.covd_bases + (ps.length : Nat) := by
  induction ps generalizing d with
  | nil => simp [count_all]
  | cons p ps ih =>
    rw [count_all_cons, ih, count_base_covd]; simp only [List.length_cons]; push_cast; ring

theorem count_all_base_cnt (ps : List Nat) (d : pileup_data_t)
    (hb : ∀ p ∈ ps, p < d.bp_class.length) (x : bp_class_t) :
    (count_all ps d).base_cnt.get x =
      d.base_cnt.get x + (ps.countP (fun p => decide (eff_class d p = x)) : Nat) := by
  induction ps generalizing d with
  | nil => simp [count_all]
  | cons p ps ih =>
    have hp := hb p (List.mem_cons_self _ _)
    have hb' : ∀ q ∈ ps, q < (count_base p d).bp_class.length := by
      intro q hq; rw [count_base_length]; exact hb q (List.mem_cons_of_mem _ hq)
    rw [count_all_cons, ih _ hb', count_base_base_cnt, incr_get _ _ _ (eff_class_ne_UNKNOWN d p)]
    have hc : ps.countP (fun q => decide (eff_class (count_base p d) q = x))
        = ps.countP (fun q => decide (eff_class d q = x)) := by
      apply List.countP_congr
      intro q _
      rw [count_base_eff_class p d hp q]
    rw [hc, List.countP_cons]
    by_cases h : eff_class d p = x
    · simp [h]; ring
    · simp [h]

theorem count_all_tag (ps : List Nat) (d : pileup_data_t)
    (hb : ∀ p ∈ ps, p < d.bp_class.length) (q : Nat) :
    tag (count_all ps d) q = if q ∈ ps then eff_class d q else tag d q := by
  induction ps generalizing d with
  | nil => simp [count_all]
  | cons p ps ih =>
    have hp := hb p (List.mem_cons_self _ _)
    have hb' : ∀ q ∈ ps, q < (count_base p d).bp_class.length := by
      intro q hq; rw [count_base_length]; exact hb q (List.mem_cons_of_mem _ hq)
    rw [count_all_cons, ih _ hb', count_base_eff_class p d hp, count_base_tag p d hp]
    by_cases h1 : q ∈ ps
    · simp [h1]
    · by_cases h2 : q = p
      · simp [h2]
      · simp [h1, h2]

theorem count_all_tot (ps : List Nat) (hnd : ps.Nodup) (d : pileup_data_t)
    (hb : ∀ p ∈ ps, p < d.bp_class.length) :
    (count_all ps d).tot_covd_bases =
      d.tot_covd_bases + (ps.countP (fun p => decide (tag d p = .UNKNOWN)) : Nat) := by
  induction ps generalizing d with
  | nil => simp [count_all]
  | cons p ps ih =>
    have hp := hb p (List.mem_cons_self _ _)
    have hb' : ∀ q ∈ ps, q < (count_base p d).bp_class.length := by
      intro q hq; rw [count_base_length]; exact hb q (List.mem_cons_of_mem _ hq)
    rw [List.nodup_cons] at hnd
    rw [count_all_cons, ih hnd.2 _ hb', count_base_tot]
    have hc : ps.countP (fun q => decide (tag (count_base p d) q = .UNKNOWN))
        = ps.countP (fun q => decide (tag d q = .UNKNOWN)) := by
      apply List.countP_congr
      intro q hq
      have hne : q ≠ p := fun h => hnd.1 (h ▸ hq)
      rw [count_base_tag p d hp q, if_neg hne]
    rw [hc, List.countP_cons]
    by_cases h : tag d p = .UNKNOWN
    · simp [h]; ring
    · simp [h]

theorem count_all_tot_cnt (ps : List Nat) (hnd : ps.Nodup) (d : pileup_data_t)
    (hb : ∀ p ∈ ps, p < d.bp_class.length) (x : bp_class_t) :
    (count_all ps d).tot_base_cnt.get x =
      d.tot_base_cnt.get x +
        (ps.countP (fun p => decide (tag d p = .UNKNOWN) && decide (class_at d p = x)) : Nat) := by
  induction ps generalizing d with
  | nil => simp [count_all]
  | cons p ps ih =>
    have hp := hb p (List.mem_cons_self _ _)
    have hb' : ∀ q ∈ ps, q < (count_base p d).bp_class.length := by
      intro q hq; rw [count_base_length]; exact hb q (List.mem_cons_of_mem _ hq)
    rw [List.nodup_cons] at hnd
    rw [count_all_cons, ih hnd.2 _ hb', count_base_tot_cnt]
    have hc : ps.countP (fun q => decide (tag (count_base p d) q = .UNKNOWN) &&
          decide (class_at (count_base p d) q = x))
        = ps.countP (fun q => decide (tag d q = .UNKNOWN) && decide (class_at d q = x)) := by
      apply List.countP_congr
      intro q hq
      have hne : q ≠ p := fun h => hnd.1 (h ▸ hq)
      rw [count_base_tag p d hp q, if_neg hne, count_base_class_at]
    rw [hc, List.countP_cons]
    by_cases h : tag d p = .UNKNOWN
    · rw [if_pos h, incr_get _ _ _ (class_at_ne_UNKNOWN d p)]
      by_cases h2 : class_at d p = x
      · simp [h, h2]; ring
      · simp [h, h2]
    · simp [h]

/-- The pileup on bam2 is the classification step at the positions of `hits`. -/
theorem plbuf2_eq_count_all (cols : List Column) (d : pileup_data_t) :
    bam_plbuf pileup_func_2 cols d = count_all (hits d cols) d := by
  induction cols generalizing d with
  | nil => rfl
  | cons c cs ih =>
    have hfold : bam_plbuf pileup_func_2 (c :: cs) d
        = bam_plbuf pileup_func_2 cs (pileup_func_2 c.pos c.pl d) := rfl
    rw [hfold, ih]
    by_cases h : (in_tagged_roi c.pos d && decide (mapq_n d.min_mapq c.pl ≥ d.min_depth_bam2)) = true
    · have hpf : pileup_func_2 c.pos c.pl d = count_base c.pos d := by
        simp only [Bool.and_eq_true, decide_eq_true_eq] at h
        unfold pileup_func_2; rw [if_pos h.1, if_pos h.2]
      have hh : hits (count_base c.pos d) cs = hits d cs := by
        unfold hits in_tagged_roi
        rw [count_base_frame c.pos d]
      have hh2 : hits d (c :: cs) = c.pos :: hits d cs := by
        unfold hits; rw [List.filter_cons, if_pos h]; rfl
      rw [hpf, hh, hh2, count_all_cons]
    · have hpf : pileup_func_2 c.pos c.pl d = d := by
        simp only [Bool.and_eq_true, decide_eq_true_eq, not_and] at h
        unfold pileup_func_2
        split
        · rename_i h1; rw [if_neg (h h1)]
        · rfl
      have hh2 : hits d (c :: cs) = hits d cs := by
        unfold hits; rw [List.filter_cons, if_neg h]
      rw [hpf, hh2]

/-! ## One ROI -/

theorem process_roi_skip_unknown (env : Env) (d : pileup_data_t) (r : roi_t)
    (h : env.hdr_hash r.ref_name = none) :
    process_roi env d r = ({ d with beg := r.start, end_ := r.stop }, none) := by
  unfold process_roi; simp only [h]

theorem process_roi_skip_inverted (env : Env) (d : pileup_data_t) (r : roi_t)
    (h : r.start > r.stop) :
    process_roi env d r = ({ d with beg := r.start, end_ := r.stop }, none) := by
  unfold process_roi; simp only
  split
  · rfl
  · rw [if_pos h]

theorem process_roi_valid (env : Env) (d : pileup_data_t) (r : roi_t) (id : Int)
    (hid : env.hdr_hash r.ref_name = some id) (hle : r.start ≤ r.stop) :
    process_roi env d r =
      (pass2 env id (pass1 env id (setup_roi env id { d with beg := r.start, end_ := r.stop })),
       some (row_of r (r.stop - (r.start - 1))
        (pass2 env id (pass1 env id (setup_roi env id { d with beg := r.start, end_ := r.stop }))))) := by
  unfold process_roi; simp only [hid]
  rw [if_neg (by omega)]

theorem setup_roi_eq (env : Env) (d : pileup_data_t) (r : roi_t) (id : Int)
    (hc : cache_ok env d) :
    setup_roi env id { d with beg := r.start, end_ := r.stop } =
      { d with
        beg := roi_beg r
        end_ := roi_end env id r
        covd_bases := 0
        base_cnt := { d.base_cnt with AT := 0, CG := 0, CpG := 0 }
        bam1_cvg := List.replicate (r.stop - (r.start - 1)).toNat false
        ref_seq := some (env.fai_fetch id)
        ref_len := chrom_len env id
        ref_id := id
        bp_class := if d.ref_seq = none ∨ id ≠ d.ref_id
          then List.replicate (env.fai_fetch id).length .UNKNOWN else d.bp_class } := by
  unfold setup_roi begin_roi load_ref clamp_roi roi_beg roi_end chrom_len
  by_cases hl : d.ref_seq = none ∨ id ≠ d.ref_id
  · simp only [hl, if_true]
    by_cases h1 : r.start - 1 = 0 <;> by_cases h2 : r.stop = ((env.fai_fetch id).length : Int) <;>
      simp [h1, h2]
  · simp only [hl, if_false]
    rw [not_or, not_not] at hl
    obtain ⟨hs, hi⟩ := hl
    rcases hc with hc | hc
    · exact absurd hc hs
    · subst hi
      obtain ⟨c1, _, c3, _⟩ := hc
      unfold chrom_len at c3
      by_cases h1 : r.start - 1 = 0 <;>
        by_cases h2 : r.stop = ((env.fai_fetch d.ref_id).length : Int) <;>
        simp [h1, h2, c3, c1]

theorem roi_beg_ge (r : roi_t) : r.start - 1 ≤ roi_beg r := by
  unfold roi_beg; split <;> omega

theorem roi_end_le (env : Env) (id : Int) (r : roi_t) : roi_end env id r ≤ r.stop := by
  unfold roi_end; split <;> omega

theorem mask_after_pass1 (cols : List Column) (hnd : once cols) (s : pileup_data_t) (n : Nat)
    (hm : s.bam1_cvg = List.replicate n false) (hn : s.end_ - s.beg ≤ (n : Int))
    (p : Nat) (hb : s.beg ≤ (p : Int)) (he : (p : Int) < s.end_) :
    (bam_plbuf pileup_func_1 cols s).bam1_cvg.getD ((p : Int) - s.beg).toNat false
      = meets s.min_mapq s.min_depth_bam1 cols p := by
  have hlen : ((p : Int) - s.beg).toNat < s.bam1_cvg.length := by
    rw [hm, List.length_replicate]; omega
  rw [plbuf1_mask cols hnd s p hb hlen]
  have hrep : s.bam1_cvg.getD ((p : Int) - s.beg).toNat false = false := by
    rw [hm, List.getD_eq_getElem?_getD, List.getElem?_replicate]
    split <;> rfl
  rw [hrep]
  by_cases hr : reported cols p = true
  · simp [hr, he]
  · rw [if_neg hr]
    cases hme : meets s.min_mapq s.min_depth_bam1 cols p with
    | false => rfl
    | true => exact absurd (reported_of_meets hme) hr

theorem in_tagged_roi_after_pass1 (cols : List Column) (hnd : once cols) (s : pileup_data_t)
    (n : Nat) (hm : s.bam1_cvg = List.replicate n false) (hn : s.end_ - s.beg ≤ (n : Int))
    (p : Nat) :
    in_tagged_roi p (bam_plbuf pileup_func_1 cols s)
      = (decide (s.beg ≤ (p : Int)) && decide ((p : Int) < s.end_) &&
          meets s.min_mapq s.min_depth_bam1 cols p) := by
  have hfr := plbuf1_frame cols s
  have e1 : (bam_plbuf pileup_func_1 cols s).beg = s.beg := by rw [hfr]
  have e2 : (bam_plbuf pileup_func_1 cols s).end_ = s.end_ := by rw [hfr]
  unfold in_tagged_roi
  rw [e1, e2]
  by_cases hb : s.beg ≤ (p : Int)
  · by_cases he : (p : Int) < s.end_
    · rw [mask_after_pass1 cols hnd s n hm hn p hb he]
    · simp [he]
  · simp [hb]

theorem clamp_roi_frame (d : pileup_data_t) :
    clamp_roi d = { d with beg := (clamp_roi d).beg, end_ := (clamp_roi d).end_ } := by
  unfold clamp_roi; simp only; split <;> split <;> rfl

theorem load_ref_frame (env : Env) (id : Int) (d : pileup_data_t) :
    load_ref env id d = { d with
      ref_seq := (load_ref env id d).ref_seq
      ref_len := (load_ref env id d).ref_len
      bp_class := (load_ref env id d).bp_class
      ref_id := (load_ref env id d).ref_id } := by
  unfold load_ref; split <;> rfl

theorem clamp_roi_beg (d : pileup_data_t) :
    (clamp_roi d).beg = if d.beg = 0 then d.beg + 1 else d.beg := by
  unfold clamp_roi; simp only; split <;> split <;> rfl

theorem clamp_roi_end (d : pileup_data_t) :
    (clamp_roi d).end_ = if d.end_ = d.ref_len then d.end_ - 1 else d.end_ := by
  unfold clamp_roi; simp only; split <;> split <;> simp_all

theorem roi_start_beg (env : Env) (d : pileup_data_t) (r : roi_t) (id : Int) :
    (roi_start env d r id).beg = roi_beg r := by
  unfold roi_start setup_roi
  have h : (load_ref env id (begin_roi { d with beg := r.start, end_ := r.stop })).beg = r.start - 1 := by
    rw [load_ref_frame]; rfl
  rw [clamp_roi_beg, h]
  unfold roi_beg; split <;> simp_all

theorem roi_start_end_le (env : Env) (d : pileup_data_t) (r : roi_t) (id : Int) :
    (roi_start env d r id).end_ ≤ r.stop := by
  unfold roi_start setup_roi
  have h : (load_ref env id (begin_roi { d with beg := r.start, end_ := r.stop })).end_ = r.stop := by
    rw [load_ref_frame]; rfl
  rw [clamp_roi_end, h]
  split <;> omega

theorem roi_start_mask (env : Env) (d : pileup_data_t) (r : roi_t) (id : Int) :
    (roi_start env d r id).bam1_cvg = List.replicate (r.stop - (r.start - 1)).toNat false := by
  unfold roi_start setup_roi
  rw [clamp_roi_frame, load_ref_frame]; rfl

theorem roi_start_covd (env : Env) (d : pileup_data_t) (r : roi_t) (id : Int) :
    (roi_start env d r id).covd_bases = 0 := by
  unfold roi_start setup_roi
  rw [clamp_roi_frame, load_ref_frame]; rfl

theorem roi_start_thresholds (env : Env) (d : pileup_data_t) (r : roi_t) (id : Int) :
    (roi_start env d r id).min_mapq = d.min_mapq ∧
    (roi_start env d r id).min_depth_bam1 = d.min_depth_bam1 ∧
    (roi_start env d r id).min_depth_bam2 = d.min_depth_bam2 := by
  unfold roi_start setup_roi
  rw [clamp_roi_frame, load_ref_frame]; exact ⟨rfl, rfl, rfl⟩

theorem roi_start_totals (env : Env) (d : pileup_data_t) (r : roi_t) (id : Int) :
    (roi_start env d r id).tot_covd_bases = d.tot_covd_bases ∧
    (roi_start env d r id).tot_base_cnt = d.tot_base_cnt := by
  unfold roi_start setup_roi
  rw [clamp_roi_frame, load_ref_frame]; exact ⟨rfl, rfl⟩

theorem roi_start_base_cnt (env : Env) (d : pileup_data_t) (r : roi_t) (id : Int) :
    (roi_start env d r id).base_cnt = { d.base_cnt with AT := 0, CG := 0, CpG := 0 } := by
  unfold roi_start setup_roi
  rw [clamp_roi_frame, load_ref_frame]; rfl

/-- The final record of a valid ROI is the classification step at the
positions `hits` of the pileup on bam2, started after the pileup on bam1. -/
theorem process_roi_data (env : Env) (d : pileup_data_t) (r : roi_t) (id : Int)
    (hid : env.hdr_hash r.ref_name = some id) (hle : r.start ≤ r.stop) :
    (process_roi env d r).1 =
      count_all (hits (pass1 env id (roi_start env d r id))
          (env.plp2 id (roi_start env d r id).beg (roi_start env d r id).end_))
        (pass1 env id (roi_start env d r id)) := by
  rw [process_roi_valid env d r id hid hle]
  simp only
  have hfr := plbuf1_frame (env.plp1 id (roi_start env d r id).beg (roi_start env d r id).end_)
    (roi_start env d r id)
  have e1 : (pass1 env id (roi_start env d r id)).beg = (roi_start env d r id).beg := by
    unfold pass1; rw [hfr]
  have e2 : (pass1 env id (roi_start env d r id)).end_ = (roi_start env d r id).end_ := by
    unfold pass1; rw [hfr]
  show pass2 env id (pass1 env id (roi_start env d r id)) = _
  unfold pass2
  rw [plbuf2_eq_count_all, e1, e2]

theorem process_roi_row (env : Env) (d : pileup_data_t) (r : roi_t) (id : Int)
    (hid : env.hdr_hash r.ref_name = some id) (hle : r.start ≤ r.stop) :
    (process_roi env d r).2 = some (row_of r (r.stop - (r.start - 1)) (process_roi env d r).1) := by
  rw [process_roi_valid env d r id hid hle]

theorem pass1_frame (env : Env) (id : Int) (s : pileup_data_t) :
    pass1 env id s = { s with bam1_cvg := (pass1 env id s).bam1_cvg } := by
  unfold pass1; exact plbuf1_frame _ _

theorem hits_range (d : pileup_data_t) (cols : List Column) (p : Nat) (hp : p ∈ hits d cols) :
    d.beg ≤ (p : Int) ∧ (p : Int) < d.end_ := by
  unfold hits at hp
  rw [List.mem_map] at hp
  obtain ⟨c, hc, rfl⟩ := hp
  rw [List.mem_filter] at hc
  have h := hc.2
  unfold in_tagged_roi at h
  simp only [Bool.and_eq_true, decide_eq_true_eq] at h
  exact ⟨h.1.1.1, h.1.1.2⟩

theorem hits_nodup (d : pileup_data_t) (cols : List Column) (h : once cols) :
    (hits d cols).Nodup := by
  unfold hits
  unfold once at h
  exact (List.Nodup.sublist (List.Sublist.map _ (List.filter_sublist _)) h)

theorem nodup_range_length (ps : List Nat) (hnd : ps.Nodup) (b e : Int)
    (h : ∀ p ∈ ps, b ≤ (p : Int) ∧ (p : Int) < e) :
    ps.length ≤ e.toNat - b.toNat := by
  have hsub : ps.toFinset ⊆ Finset.Ico b.toNat e.toNat := by
    intro p hp
    rw [List.mem_toFinset] at hp
    have := h p hp
    rw [Finset.mem_Ico]
    omega
  have hc := Finset.card_le_card hsub
  rw [List.toFinset_card_of_nodup hnd, Nat.card_Ico] at hc
  exact hc

theorem process_roi_covd (env : Env) (d : pileup_data_t) (r : roi_t) (id : Int)
    (hid : env.hdr_hash r.ref_name = some id) (hle : r.start ≤ r.stop) :
    (process_roi env d r).1.covd_bases =
      ((hits (pass1 env id (roi_start env d r id))
          (env.plp2 id (roi_start env d r id).beg (roi_start env d r id).end_)).length : Nat) := by
  rw [process_roi_data env d r id hid hle, count_all_covd]
  have h : (pass1 env id (roi_start env d r id)).covd_bases = 0 := by
    rw [pass1_frame]; exact roi_start_covd env d r id
  rw [h]; simp

theorem meets_iff_mem {q m : Int} {cols : List Column} {p : Nat} :
    meets q m cols p = true ↔ ∃ c ∈ cols, c.pos = p ∧ mapq_n q c.pl ≥ m := by
  simp [meets]

theorem meets_iff_depth {q m : Int} {cols : List Column} {p : Nat} (h : once cols) (hm : 1 ≤ m) :
    meets q m cols p = true ↔ m ≤ depth q cols p := by
  rw [meets_iff_mem]
  unfold depth
  cases hf : cols.find? (fun c => decide (c.pos = p)) with
  | none =>
    rw [List.find?_eq_none] at hf
    constructor
    · rintro ⟨c, hc, hp, _⟩
      exact absurd (by simpa using hp) (hf c hc)
    · intro h0; simp only at h0; omega
  | some c =>
    have hc := List.mem_of_find?_eq_some hf
    have hp : c.pos = p := by simpa using List.find?_some hf
    simp only
    rw [← List.countP_eq_length_filter, ← mapq_n_eq_countP]
    constructor
    · rintro ⟨c', hc', hp', hge⟩
      have : c' = c := List.inj_on_of_nodup_map h hc' hc (hp'.trans hp.symm)
      rw [← this]; exact hge
    · intro hge
      exact ⟨c, hc, hp, hge⟩

theorem mem_hits_iff (d : pileup_data_t) (cols : List Column) (p : Nat) :
    p ∈ hits d cols ↔ in_tagged_roi p d = true ∧ meets d.min_mapq d.min_depth_bam2 cols p = true := by
  unfold hits
  rw [List.mem_map, meets_iff_mem]
  constructor
  · rintro ⟨c, hc, rfl⟩
    rw [List.mem_filter] at hc
    simp only [Bool.and_eq_true, decide_eq_true_eq] at hc
    exact ⟨hc.2.1, c, hc.1, rfl, hc.2.2⟩
  · rintro ⟨h1, c, hc, rfl, hge⟩
    refine ⟨c, ?_, rfl⟩
    rw [List.mem_filter]
    simp only [Bool.and_eq_true, decide_eq_true_eq]
    exact ⟨hc, h1, hge⟩

/-! ## One ROI from a consistent state -/

theorem roi_start_eq (env : Env) (d : pileup_data_t) (r : roi_t) (id : Int)
    (hc : cache_ok env d) :
    roi_start env d r id =
      { d with
        beg := roi_beg r
        end_ := roi_end env id r
        covd_bases := 0
        base_cnt := { d.base_cnt with AT := 0, CG := 0, CpG := 0 }
        bam1_cvg := List.replicate (r.stop - (r.start - 1)).toNat false
        ref_seq := some (env.fai_fetch id)
        ref_len := chrom_len env id
        ref_id := id
        bp_class := if d.ref_seq = none ∨ id ≠ d.ref_id
          then List.replicate (env.fai_fetch id).length .UNKNOWN else d.bp_class } :=
  setup_roi_eq env d r id hc

theorem roi_start_end (env : Env) (d : pileup_data_t) (r : roi_t) (id : Int)
    (hc : cache_ok env d) : (roi_start env d r id).end_ = roi_end env id r := by
  rw [roi_start_eq env d r id hc]

theorem tag_replicate (n p : Nat) :
    (List.replicate n bp_class_t.UNKNOWN).getD p .UNKNOWN = .UNKNOWN := by
  rw [List.getD_eq_getElem?_getD, List.getElem?_replicate]
  split <;> rfl

theorem roi_start_tag (env : Env) (d : pileup_data_t) (r : roi_t) (id : Int)
    (hc : cache_ok env d) (p : Nat) : tag (roi_start env d r id) p = start_tag d id p := by
  rw [roi_start_eq env d r id hc]
  unfold tag start_tag
  simp only
  split
  · exact tag_replicate _ _
  · rfl

theorem roi_start_loaded (env : Env) (d : pileup_data_t) (r : roi_t) (id : Int)
    (hc : cache_ok env d) : loaded env (roi_start env d r id) id := by
  rw [roi_start_eq env d r id hc]
  refine ⟨rfl, rfl, rfl, ?_⟩
  simp only
  split
  · simp
  · rename_i h
    rw [not_or, not_not] at h
    rcases hc with hc | hc
    · exact absurd hc h.1
    · rw [h.2]; exact hc.2.2.2

theorem class_at_loaded (env : Env) (d : pileup_data_t) (id : Int)
    (h : d.ref_seq = some (env.fai_fetch id)) (p : Nat) : class_at d p = ref_class env id p := by
  unfold class_at ref_at ref_class
  rw [h]; rfl

theorem start_tag_ok (env : Env) (q m1 m2 : Int) (d : pileup_data_t) (id : Int)
    (hs : state_ok env q m1 m2 d) (p : Nat) :
    start_tag d id p = .UNKNOWN ∨ start_tag d id p = ref_class env id p := by
  unfold start_tag
  split
  · exact Or.inl rfl
  · rename_i h
    rw [not_or, not_not] at h
    rw [h.2]
    exact hs.2.2.2.2 p

theorem process_roi_eq_count (env : Env) (q m1 m2 : Int) (d : pileup_data_t) (r : roi_t) (id : Int)
    (hs : state_ok env q m1 m2 d) (hr : roi_on env id r) (h1 : once (roi_plp1 env id r)) :
    (process_roi env d r).1 =
      count_all (roi_hits env q m1 m2 id r) (pass1 env id (roi_start env d r id)) := by
  obtain ⟨hq, hm1, hm2, hc, _⟩ := hs
  obtain ⟨hid, _, hle, _⟩ := hr
  rw [process_roi_data env d r id hid hle]
  congr 1
  have hb := roi_start_beg env d r id
  have he := roi_start_end env d r id hc
  obtain ⟨t1, t2, t3⟩ := roi_start_thresholds env d r id
  have hfr := pass1_frame env id (roi_start env d r id)
  have e3 : (pass1 env id (roi_start env d r id)).min_mapq = q := by rw [hfr]; exact t1.trans hq
  have e4 : (pass1 env id (roi_start env d r id)).min_depth_bam2 = m2 := by
    rw [hfr]; exact t3.trans hm2
  have hbe : (roi_start env d r id).end_ - (roi_start env d r id).beg
      ≤ ((r.stop - (r.start - 1)).toNat : Int) := by
    have he' := roi_start_end_le env d r id
    have hg := roi_beg_ge r
    omega
  unfold hits roi_hits roi_plp2
  rw [hb, he, e3, e4]
  congr 1
  apply List.filter_congr
  intro c _
  have hin := in_tagged_roi_after_pass1
    (env.plp1 id (roi_start env d r id).beg (roi_start env d r id).end_)
    (by rw [hb, he]; exact h1)
    (roi_start env d r id) _ (roi_start_mask env d r id) hbe c.pos
  unfold pass1
  rw [hin, hb, he, t1, t2, hq, hm1]
  rfl

theorem mem_roi_hits (env : Env) (q m1 m2 : Int) (id : Int) (r : roi_t) (p : Nat) :
    p ∈ roi_hits env q m1 m2 id r ↔ jointly_covered env q m1 m2 id r p = true := by
  unfold roi_hits jointly_covered
  rw [List.mem_map]
  simp only [Bool.and_eq_true, decide_eq_true_eq]
  rw [@meets_iff_mem q m2 (roi_plp2 env id r) p]
  constructor
  · rintro ⟨c, hc, rfl⟩
    rw [List.mem_filter] at hc
    simp only [Bool.and_eq_true, decide_eq_true_eq] at hc
    exact ⟨hc.2.1, c, hc.1, rfl, hc.2.2⟩
  · rintro ⟨h, c, hc, rfl, hge⟩
    refine ⟨c, ?_, rfl⟩
    rw [List.mem_filter]
    simp only [Bool.and_eq_true, decide_eq_true_eq]
    exact ⟨hc, h, hge⟩

theorem roi_hits_nodup (env : Env) (q m1 m2 : Int) (id : Int) (r : roi_t)
    (h2 : once (roi_plp2 env id r)) : (roi_hits env q m1 m2 id r).Nodup := by
  unfold roi_hits
  unfold once at h2
  exact (List.Nodup.sublist (List.Sublist.map _ (List.filter_sublist _)) h2)

theorem roi_end_le_len (env : Env) (id : Int) (r : roi_t) (h : r.stop ≤ chrom_len env id) :
    roi_end env id r ≤ chrom_len env id - 1 ∨ roi_end env id r < chrom_len env id := by
  unfold roi_end; split <;> omega

theorem roi_hits_bounds (env : Env) (q m1 m2 : Int) (id : Int) (r : roi_t)
    (hr : roi_on env id r) (p : Nat) (hp : p ∈ roi_hits env q m1 m2 id r) :
    1 ≤ p ∧ p + 1 < (env.fai_fetch id).length := by
  rw [mem_roi_hits] at hp
  unfold jointly_covered at hp
  simp only [Bool.and_eq_true, decide_eq_true_eq] at hp
  obtain ⟨⟨⟨hb, he⟩, _⟩, _⟩ := hp
  obtain ⟨_, h1, _, h3⟩ := hr
  unfold roi_beg at hb
  unfold roi_end at he
  unfold chrom_len at h3 he
  split at hb <;> split at he <;> omega

theorem pass1_tag (env : Env) (d : pileup_data_t) (r : roi_t) (id : Int)
    (hc : cache_ok env d) (p : Nat) :
    tag (pass1 env id (roi_start env d r id)) p = start_tag d id p := by
  rw [← roi_start_tag env d r id hc p]
  unfold tag
  rw [pass1_frame]

theorem pass1_loaded (env : Env) (d : pileup_data_t) (r : roi_t) (id : Int)
    (hc : cache_ok env d) : loaded env (pass1 env id (roi_start env d r id)) id := by
  have h := roi_start_loaded env d r id hc
  rw [pass1_frame]
  exact h

theorem pass1_eff_class (env : Env) (q m1 m2 : Int) (d : pileup_data_t) (r : roi_t) (id : Int)
    (hs : state_ok env q m1 m2 d) (p : Nat) :
    eff_class (pass1 env id (roi_start env d r id)) p = ref_class env id p := by
  have hc := hs.2.2.2.1
  unfold eff_class
  rw [pass1_tag env d r id hc, class_at_loaded env _ id (pass1_loaded env d r id hc).1]
  rcases start_tag_ok env q m1 m2 d id hs p with h | h
  · rw [if_pos h]
  · split
    · rfl
    · exact h

theorem roi_hits_lt (env : Env) (q m1 m2 : Int) (d : pileup_data_t) (r : roi_t) (id : Int)
    (hc : cache_ok env d) (hr : roi_on env id r) :
    ∀ p ∈ roi_hits env q m1 m2 id r, p < (pass1 env id (roi_start env d r id)).bp_class.length := by
  intro p hp
  rw [(pass1_loaded env d r id hc).2.2.2]
  have := roi_hits_bounds env q m1 m2 id r hr p hp
  omega

theorem roi_fin_covd (env : Env) (q m1 m2 : Int) (d : pileup_data_t) (r : roi_t) (id : Int)
    (hs : state_ok env q m1 m2 d) (hr : roi_on env id r) (h1 : once (roi_plp1 env id r)) :
    (process_roi env d r).1.covd_bases = ((roi_hits env q m1 m2 id r).length : Nat) := by
  rw [process_roi_eq_count env q m1 m2 d r id hs hr h1, count_all_covd]
  have h : (pass1 env id (roi_start env d r id)).covd_bases = 0 := by
    rw [pass1_frame]; exact roi_start_covd env d r id
  rw [h]; simp

theorem roi_fin_base_cnt (env : Env) (q m1 m2 : Int) (d : pileup_data_t) (r : roi_t) (id : Int)
    (hs : state_ok env q m1 m2 d) (hr : roi_on env id r) (h1 : once (roi_plp1 env id r))
    (x : bp_class_t) :
    (process_roi env d r).1.base_cnt.get x =
      base_cnt_t.get { d.base_cnt with AT := 0, CG := 0, CpG := 0 } x +
        ((roi_hits env q m1 m2 id r).countP (fun p => decide (ref_class env id p = x)) : Nat) := by
  rw [process_roi_eq_count env q m1 m2 d r id hs hr h1,
    count_all_base_cnt _ _ (roi_hits_lt env q m1 m2 d r id hs.2.2.2.1 hr)]
  have h : (pass1 env id (roi_start env d r id)).base_cnt
      = { d.base_cnt with AT := 0, CG := 0, CpG := 0 } := by
    rw [pass1_frame]; exact roi_start_base_cnt env d r id
  rw [h]
  congr 2
  apply List.countP_congr
  intro p _
  rw [pass1_eff_class env q m1 m2 d r id hs p]

theorem roi_fin_tot (env : Env) (q m1 m2 : Int) (d : pileup_data_t) (r : roi_t) (id : Int)
    (hs : state_ok env q m1 m2 d) (hr : roi_on env id r) (h1 : once (roi_plp1 env id r))
    (h2 : once (roi_plp2 env id r)) :
    (process_roi env d r).1.tot_covd_bases =
      d.tot_covd_bases +
        ((roi_hits env q m1 m2 id r).countP (fun p => decide (start_tag d id p = .UNKNOWN)) : Nat) := by
  rw [process_roi_eq_count env q m1 m2 d r id hs hr h1,
    count_all_tot _ (roi_hits_nodup env q m1 m2 id r h2) _
      (roi_hits_lt env q m1 m2 d r id hs.2.2.2.1 hr)]
  have h : (pass1 env id (roi_start env d r id)).tot_covd_bases = d.tot_covd_bases := by
    rw [pass1_frame]; exact (roi_start_totals env d r id).1
  rw [h]
  congr 2
  apply List.countP_congr
  intro p _
  rw [pass1_tag env d r id hs.2.2.2.1 p]

theorem roi_fin_tot_cnt (env : Env) (q m1 m2 : Int) (d : pileup_data_t) (r : roi_t) (id : Int)
    (hs : state_ok env q m1 m2 d) (hr : roi_on env id r) (h1 : once (roi_plp1 env id r))
    (h2 : once (roi_plp2 env id r)) (x : bp_class_t) :
    (process_roi env d r).1.tot_base_cnt.get x =
      d.tot_base_cnt.get x +
        ((roi_hits env q m1 m2 id r).countP
          (fun p => decide (start_tag d id p = .UNKNOWN) && decide (ref_class env id p = x)) : Nat) := by
  rw [process_roi_eq_count env q m1 m2 d r id hs hr h1,
    count_all_tot_cnt _ (roi_hits_nodup env q m1 m2 id r h2) _
      (roi_hits_lt env q m1 m2 d r id hs.2.2.2.1 hr)]
  have h : (pass1 env id (roi_start env d r id)).tot_base_cnt = d.tot_base_cnt := by
    rw [pass1_frame]; exact (roi_start_totals env d r id).2
  rw [h]
  congr 2
  apply List.countP_congr
  intro p _
  rw [pass1_tag env d r id hs.2.2.2.1 p,
    class_at_loaded env _ id (pass1_loaded env d r id hs.2.2.2.1).1]

theorem roi_fin_tag (env : Env) (q m1 m2 : Int) (d : pileup_data_t) (r : roi_t) (id : Int)
    (hs : state_ok env q m1 m2 d) (hr : roi_on env id r) (h1 : once (roi_plp1 env id r))
    (p : Nat) :
    tag (process_roi env d r).1 p =
      if p ∈ roi_hits env q m1 m2 id r then ref_class env id p else start_tag d id p := by
  rw [process_roi_eq_count env q m1 m2 d r id hs hr h1,
    count_all_tag _ _ (roi_hits_lt env q m1 m2 d r id hs.2.2.2.1 hr),
    pass1_eff_class env q m1 m2 d r id hs p, pass1_tag env d r id hs.2.2.2.1 p]

theorem roi_fin_loaded (env : Env) (q m1 m2 : Int) (d : pileup_data_t) (r : roi_t) (id : Int)
    (hs : state_ok env q m1 m2 d) (hr : roi_on env id r) (h1 : once (roi_plp1 env id r)) :
    loaded env (process_roi env d r).1 id := by
  have hl := pass1_loaded env d r id hs.2.2.2.1
  rw [process_roi_eq_count env q m1 m2 d r id hs hr h1]
  have hfr := count_all_frame (roi_hits env q m1 m2 id r) (pass1 env id (roi_start env d r id))
  have hlen := count_all_length (roi_hits env q m1 m2 id r) (pass1 env id (roi_start env d r id))
  refine ⟨?_, ?_, ?_, ?_⟩
  · rw [hfr]; exact hl.1
  · rw [hfr]; exact hl.2.1
  · rw [hfr]; exact hl.2.2.1
  · rw [hlen]; exact hl.2.2.2

theorem roi_fin_ok (env : Env) (q m1 m2 : Int) (d : pileup_data_t) (r : roi_t) (id : Int)
    (hs : state_ok env q m1 m2 d) (hr : roi_on env id r) (h1 : once (roi_plp1 env id r)) :
    state_ok env q m1 m2 (process_roi env d r).1 := by
  have hl := roi_fin_loaded env q m1 m2 d r id hs hr h1
  have ht := roi_fin_tag env q m1 m2 d r id hs hr h1
  obtain ⟨t1, t2, t3⟩ := roi_start_thresholds env d r id
  refine ⟨?_, ?_, ?_, Or.inr ?_, ?_⟩
  · rw [process_roi_eq_count env q m1 m2 d r id hs hr h1, count_all_frame, pass1_frame]
    exact t1.trans hs.1
  · rw [process_roi_eq_count env q m1 m2 d r id hs hr h1, count_all_frame, pass1_frame]
    exact t2.trans hs.2.1
  · rw [process_roi_eq_count env q m1 m2 d r id hs hr h1, count_all_frame, pass1_frame]
    exact t3.trans hs.2.2.1
  · rw [hl.2.1]; exact hl
  · intro p
    rw [ht p, hl.2.1]
    split
    · exact Or.inr rfl
    · exact start_tag_ok env q m1 m2 d id hs p

/-! ## The loop over a list of ROIs -/

theorem run_rois_cons (env : Env) (d : pileup_data_t) (r : roi_t) (rs : List roi_t) :
    run_rois env d (r :: rs) = run_rois env (process_roi env d r).1 rs := rfl

theorem roi_loop_some (env : Env) (rois : List roi_t) (d : pileup_data_t) (out : List out_line) :
    roi_loop env (rois.map some) d out =
      (0, run_rois env d rois,
        out ++ (run_rows env d rois).map out_line.roi ++
          [out_line.totals (run_rois env d rois).tot_covd_bases
            (run_rois env d rois).tot_base_cnt.AT (run_rois env d rois).tot_base_cnt.CG
            (run_rois env d rois).tot_base_cnt.CpG]) := by
  induction rois generalizing d out with
  | nil => simp [roi_loop, run_rois, run_rows]
  | cons r rs ih =>
    simp only [List.map_cons, roi_loop]
    rw [ih, run_rois_cons]
    simp only [run_rows, List.map_append, List.append_assoc]
    congr 3
    cases (process_roi env d r).2 <;> simp

theorem init_data_ok (env : Env) (stack : pileup_data_t) (m1 m2 q : Int) :
    state_ok env q m1 m2 (init_data stack m1 m2 q) := by
  refine ⟨rfl, rfl, rfl, Or.inl rfl, fun p => Or.inl ?_⟩
  simp [tag, init_data]

theorem roi_on_id {env : Env} {id : Int} {r : roi_t} (h : roi_on env id r) : roi_id env r = id := by
  unfold roi_id; rw [h.1]; rfl

/-! ## Totals count distinct positions -/

theorem card_union_image (S : Finset (Int × Nat)) (id : Int) (H : List Nat) (hnd : H.Nodup) :
    (S ∪ H.toFinset.image (fun p => (id, p))).card
      = S.card + H.countP (fun p => decide ((id, p) ∉ S)) := by
  induction H with
  | nil => simp
  | cons p ps ih =>
    rw [List.nodup_cons] at hnd
    have ih' := ih hnd.2
    rw [List.toFinset_cons, Finset.image_insert, Finset.union_insert, List.countP_cons]
    by_cases h : (id, p) ∈ S
    · rw [Finset.insert_eq_of_mem (Finset.mem_union_left _ h), ih']
      simp [h]
    · have hn : (id, p) ∉ S ∪ ps.toFinset.image (fun p => (id, p)) := by
        rw [Finset.mem_union, not_or]
        refine ⟨h, ?_⟩
        rw [Finset.mem_image]
        rintro ⟨p', hp', he⟩
        rw [List.mem_toFinset] at hp'
        have : p' = p := by simpa using he
        exact hnd.1 (this ▸ hp')
      rw [Finset.card_insert_of_not_mem hn, ih']
      simp [h]
      ring

theorem covered_positions_eq (env : Env) (q m1 m2 : Int) (id : Int) (r : roi_t)
    (hr : roi_on env id r) :
    covered_positions env q m1 m2 id r = (roi_hits env q m1 m2 id r).toFinset := by
  ext p
  unfold covered_positions
  rw [Finset.mem_filter, Finset.mem_range, List.mem_toFinset, mem_roi_hits]
  constructor
  · exact fun h => h.2
  · intro h
    refine ⟨?_, h⟩
    have := roi_hits_bounds env q m1 m2 id r hr p ((mem_roi_hits env q m1 m2 id r p).2 h)
    omega

theorem covered_pairs_cons (env : Env) (q m1 m2 : Int) (r : roi_t) (rs : List roi_t) :
    covered_pairs env q m1 m2 (r :: rs) =
      (covered_positions env q m1 m2 (roi_id env r) r).image (fun p => (roi_id env r, p))
        ∪ covered_pairs env q m1 m2 rs := by
  unfold covered_pairs
  rw [List.toFinset_cons, Finset.biUnion_insert]

theorem covered_pairs_nil (env : Env) (q m1 m2 : Int) :
    covered_pairs env q m1 m2 [] = ∅ := by
  simp [covered_pairs]

theorem start_tag_unknown_iff (d : pileup_data_t) (S : Finset (Int × Nat)) (id : Int)
    (hS2 : d.ref_seq ≠ none → ∀ p, (tag d p ≠ .UNKNOWN ↔ (d.ref_id, p) ∈ S))
    (hnew : (d.ref_seq = none ∨ id ≠ d.ref_id) → ∀ p, (id, p) ∉ S) (p : Nat) :
    start_tag d id p = .UNKNOWN ↔ (id, p) ∉ S := by
  unfold start_tag
  by_cases h : d.ref_seq = none ∨ id ≠ d.ref_id
  · rw [if_pos h]
    exact ⟨fun _ => hnew h p, fun _ => rfl⟩
  · rw [if_neg h]
    rw [not_or, not_not] at h
    rw [h.2, ← hS2 h.1 p, not_not]

/-- Invariant of the loop on a list in which the ROIs of a chromosome are
consecutive: the total is the number of distinct covered (chromosome,
position) pairs. -/
theorem run_tot_card (env : Env) (q m1 m2 : Int) (rois : List roi_t) :
    ∀ (d : pileup_data_t) (S : Finset (Int × Nat)),
      state_ok env q m1 m2 d →
      (∀ r ∈ rois, roi_good env r) →
      d.tot_covd_bases = (S.card : Nat) →
      (d.ref_seq ≠ none → ∀ p, (tag d p ≠ .UNKNOWN ↔ (d.ref_id, p) ∈ S)) →
      grouped (rois.map (roi_id env)) →
      (d.ref_seq ≠ none → d.ref_id ∈ rois.map (roi_id env) →
        (rois.map (roi_id env)).head? = some d.ref_id) →
      (∀ cp ∈ S, (d.ref_seq ≠ none ∧ cp.1 = d.ref_id) ∨ cp.1 ∉ rois.map (roi_id env)) →
      (run_rois env d rois).tot_covd_bases = ((S ∪ covered_pairs env q m1 m2 rois).card : Nat) := by
  induction rois with
  | nil =>
    intro d S _ _ h1 _ _ _ _
    rw [covered_pairs_nil, Finset.union_empty]
    exact h1
  | cons r rs ih =>
    intro d S hs hv h1 hS2 hG hG2 hS3
    obtain ⟨hr, ho1, ho2⟩ := hv r (List.mem_cons_self _ _)
    have hnew : (d.ref_seq = none ∨ roi_id env r ≠ d.ref_id) → ∀ p, (roi_id env r, p) ∉ S := by
      intro hre p hmem
      rcases hS3 _ hmem with ⟨hn, he⟩ | hni
      · rcases hre with hre | hre
        · exact hn hre
        · exact hre he
      · exact hni (by simp)
    have hst := start_tag_unknown_iff d S (roi_id env r) hS2 hnew
    have hl := roi_fin_loaded env q m1 m2 d r _ hs hr ho1
    have hsome : (process_roi env d r).1.ref_seq ≠ none := by rw [hl.1]; simp
    rw [run_rois_cons, covered_pairs_cons, covered_positions_eq env q m1 m2 _ r hr,
      ← Finset.union_assoc]
    apply ih
    · exact roi_fin_ok env q m1 m2 d r _ hs hr ho1
    · exact fun r' hr' => hv r' (List.mem_cons_of_mem _ hr')
    · rw [roi_fin_tot env q m1 m2 d r _ hs hr ho1 ho2, h1,
        card_union_image S _ _ (roi_hits_nodup env q m1 m2 _ r ho2)]
      push_cast
      congr 2
      apply List.countP_congr
      intro p _
      simp only [decide_eq_true_eq]
      exact hst p
    · intro _ p
      rw [roi_fin_tag env q m1 m2 d r _ hs hr ho1 p, hl.2.1, Finset.mem_union, Finset.mem_image]
      by_cases hp : p ∈ roi_hits env q m1 m2 (roi_id env r) r
      · rw [if_pos hp]
        constructor
        · intro _
          exact Or.inr ⟨p, List.mem_toFinset.2 hp, rfl⟩
        · intro _
          exact classify_ne_UNKNOWN _ _ _
      · rw [if_neg hp]
        constructor
        · intro h
          left
          by_contra hc
          exact h ((hst p).2 hc)
        · rintro (h | ⟨p', hp', he⟩) hu
          · exact (hst p).1 hu h
          · have : p' = p := by simpa using he
            exact hp (this ▸ List.mem_toFinset.1 hp')
    · exact hG.2
    · intro _ hmem
      rw [hl.2.1] at hmem ⊢
      exact hG.1 hmem
    · intro cp hcp
      rw [hl.2.1]
      rw [Finset.mem_union] at hcp
      rcases hcp with hcp | hcp
      · rcases hS3 cp hcp with ⟨hn, he⟩ | hni
        · by_cases hid : d.ref_id = roi_id env r
          · exact Or.inl ⟨hsome, he.trans hid⟩
          · right
            intro hmem
            have hin : d.ref_id ∈ (r :: rs).map (roi_id env) := by
              rw [List.map_cons]; exact List.mem_cons_of_mem _ (he ▸ hmem)
            have := hG2 hn hin
            simp only [List.map_cons, List.head?_cons, Option.some.injEq] at this
            exact hid this.symm
        · right
          intro hmem
          exact hni (by rw [List.map_cons]; exact List.mem_cons_of_mem _ hmem)
      · rw [Finset.mem_image] at hcp
        obtain ⟨p, _, rfl⟩ := hcp
        exact Or.inl ⟨hsome, rfl⟩

theorem grouped_const {α : Type} [DecidableEq α] (a : α) (l : List α) (h : ∀ x ∈ l, x = a) :
    grouped l := by
  induction l with
  | nil => trivial
  | cons c cs ih =>
    refine ⟨?_, ih (fun x hx => h x (List.mem_cons_of_mem _ hx))⟩
    intro _
    cases cs with
    | nil => simp_all
    | cons c' cs' =>
      have h1 := h c (List.mem_cons_self _ _)
      have h2 := h c' (List.mem_cons_of_mem _ (List.mem_cons_self _ _))
      simp [h1, h2]

theorem main_data (env : Env) (stack : pileup_data_t) (m1 m2 q : Int) (rois : List roi_t) :
    (main env stack m1 m2 q (rois.map some)).2.1 = run_rois env (init_data stack m1 m2 q) rois := by
  unfold main; rw [roi_loop_some]

theorem main_last (env : Env) (stack : pileup_data_t) (m1 m2 q : Int) (rois : List roi_t) :
    (main env stack m1 m2 q (rois.map some)).2.2.getLast? =
      some (out_line.totals (run_rois env (init_data stack m1 m2 q) rois).tot_covd_bases
        (run_rois env (init_data stack m1 m2 q) rois).tot_base_cnt.AT
        (run_rois env (init_data stack m1 m2 q) rois).tot_base_cnt.CG
        (run_rois env (init_data stack m1 m2 q) rois).tot_base_cnt.CpG) := by
  unfold main; rw [roi_loop_some]
  exact List.getLast?_concat _

/-- From the initial record, on a list grouped by chromosome, the final total
is the number of distinct covered pairs. -/
theorem main_tot_card (env : Env) (stack : pileup_data_t) (m1 m2 q : Int) (rois : List roi_t)
    (hv : ∀ r ∈ rois, roi_good env r) (hg : grouped (rois.map (roi_id env))) :
    (run_rois env (init_data stack m1 m2 q) rois).tot_covd_bases
      = ((covered_pairs env q m1 m2 rois).card : Nat) := by
  have h := run_tot_card env q m1 m2 rois (init_data stack m1 m2 q) ∅
    (init_data_ok env stack m1 m2 q) hv (by simp [init_data])
    (fun h => absurd rfl h) hg (fun h => absurd rfl h) (by simp)
  rw [h, Finset.empty_union]

theorem covered_pairs_one_chrom (env : Env) (q m1 m2 : Int) (id : Int) (rois : List roi_t)
    (hv : ∀ r ∈ rois, roi_on env id r) :
    covered_pairs env q m1 m2 rois =
      ((Finset.range (env.fai_fetch id).length).filter
        (fun p => ∃ r ∈ rois, jointly_covered env q m1 m2 id r p = true)).image
        (fun p => (id, p)) := by
  ext ⟨c, p⟩
  unfold covered_pairs covered_positions
  simp only [Finset.mem_biUnion, List.mem_toFinset, Finset.mem_image, Finset.mem_filter,
    Finset.mem_range, Prod.mk.injEq]
  constructor
  · rintro ⟨r, hr, p', ⟨hlt, hj⟩, hc, hp⟩
    have hid := roi_on_id (hv r hr)
    rw [hid] at hj hlt hc
    exact ⟨p', ⟨hlt, r, hr, hj⟩, hc, hp⟩
  · rintro ⟨p', ⟨hlt, r, hr, hj⟩, hc, hp⟩
    have hid := roi_on_id (hv r hr)
    refine ⟨r, hr, p', ⟨?_, ?_⟩, ?_, hp⟩
    · rw [hid]; exact hlt
    · rw [hid]; exact hj
    · rw [hid]; exact hc

/-! ## Rows and totals of pairwise disjoint ROIs -/

theorem process_roi_row_spec (env : Env) (q m1 m2 : Int) (d : pileup_data_t) (r : roi_t)
    (hs : state_ok env q m1 m2 d) (hg : roi_good env r) :
    (process_roi env d r).2 = some (roi_row_spec env q m1 m2 r) := by
  obtain ⟨hr, ho1, _⟩ := hg
  rw [process_roi_row env d r _ hr.1 hr.2.2.1]
  have hcov := roi_fin_covd env q m1 m2 d r _ hs hr ho1
  have hcnt := roi_fin_base_cnt env q m1 m2 d r _ hs hr ho1
  have hl := roi_fin_loaded env q m1 m2 d r _ hs hr ho1
  have hbeg : (process_roi env d r).1.beg = roi_beg r := by
    rw [process_roi_eq_count env q m1 m2 d r _ hs hr ho1, count_all_frame, pass1_frame]
    exact roi_start_beg env d r _
  have hend : (process_roi env d r).1.end_ = roi_end env (roi_id env r) r := by
    rw [process_roi_eq_count env q m1 m2 d r _ hs hr ho1, count_all_frame, pass1_frame]
    exact roi_start_end env d r _ hs.2.2.2.1
  have hAT := hcnt .AT
  have hCG := hcnt .CG
  have hCpG := hcnt .CpG
  simp only [base_cnt_t.get, zero_add] at hAT hCG hCpG
  unfold row_of roi_row_spec roi_class_count
  rw [hcov, hbeg, hend, hAT, hCG, hCpG]

theorem roi_fin_tot_fresh (env : Env) (q m1 m2 : Int) (d : pileup_data_t) (r : roi_t)
    (hs : state_ok env q m1 m2 d) (hg : roi_good env r)
    (hu : ∀ p ∈ roi_hits env q m1 m2 (roi_id env r) r, start_tag d (roi_id env r) p = .UNKNOWN) :
    (process_roi env d r).1.tot_covd_bases =
        d.tot_covd_bases + ((roi_hits env q m1 m2 (roi_id env r) r).length : Nat) ∧
    ∀ x, (process_roi env d r).1.tot_base_cnt.get x =
        d.tot_base_cnt.get x + (roi_class_count env q m1 m2 r x : Nat) := by
  obtain ⟨hr, ho1, ho2⟩ := hg
  constructor
  · rw [roi_fin_tot env q m1 m2 d r _ hs hr ho1 ho2]
    congr 2
    rw [List.countP_eq_length]
    intro p hp
    simp [hu p hp]
  · intro x
    rw [roi_fin_tot_cnt env q m1 m2 d r _ hs hr ho1 ho2 x]
    congr 2
    unfold roi_class_count
    apply List.countP_congr
    intro p hp
    simp [hu p hp]

theorem roi_hits_in_roi (env : Env) (q m1 m2 : Int) (id : Int) (r : roi_t) (p : Nat)
    (hp : p ∈ roi_hits env q m1 m2 id r) : r.start - 1 ≤ (p : Int) ∧ (p : Int) < r.stop := by
  rw [mem_roi_hits] at hp
  unfold jointly_covered at hp
  simp only [Bool.and_eq_true, decide_eq_true_eq] at hp
  have h1 := roi_beg_ge r
  have h2 := roi_end_le env id r
  omega

theorem run_disjoint (env : Env) (q m1 m2 : Int) (rois : List roi_t) :
    ∀ d : pileup_data_t,
      state_ok env q m1 m2 d →
      (∀ r ∈ rois, roi_good env r) →
      rois.Pairwise (roi_disjoint env) →
      (d.ref_seq ≠ none → ∀ r ∈ rois, roi_id env r = d.ref_id →
        ∀ p : Nat, r.start - 1 ≤ (p : Int) → (p : Int) < r.stop → tag d p = .UNKNOWN) →
      run_rows env d rois = rois.map (roi_row_spec env q m1 m2) ∧
      (run_rois env d rois).tot_covd_bases =
        d.tot_covd_bases + ((rois.map (roi_row_spec env q m1 m2)).map roi_row.covd_bases).sum ∧
      ∀ x, (run_rois env d rois).tot_base_cnt.get x =
        d.tot_base_cnt.get x + (rois.map (fun r => (roi_class_count env q m1 m2 r x : Int))).sum := by
  induction rois with
  | nil =>
    intro d _ _ _ _
    simp [run_rows, run_rois]
  | cons r rs ih =>
    intro d hs hv hd hU
    have hg := hv r (List.mem_cons_self _ _)
    obtain ⟨hr, ho1, ho2⟩ := hg
    rw [List.pairwise_cons] at hd
    have hu : ∀ p ∈ roi_hits env q m1 m2 (roi_id env r) r,
        start_tag d (roi_id env r) p = .UNKNOWN := by
      intro p hp
      unfold start_tag
      split
      · rfl
      · rename_i h
        rw [not_or, not_not] at h
        have hin := roi_hits_in_roi env q m1 m2 _ r p hp
        exact hU h.1 r (List.mem_cons_self _ _) h.2 p hin.1 hin.2
    have hl := roi_fin_loaded env q m1 m2 d r _ hs hr ho1
    have hfresh := roi_fin_tot_fresh env q m1 m2 d r hs ⟨hr, ho1, ho2⟩ hu
    have hrow := process_roi_row_spec env q m1 m2 d r hs ⟨hr, ho1, ho2⟩
    have hU' : (process_roi env d r).1.ref_seq ≠ none → ∀ r' ∈ rs,
        roi_id env r' = (process_roi env d r).1.ref_id →
        ∀ p : Nat, r'.start - 1 ≤ (p : Int) → (p : Int) < r'.stop →
          tag (process_roi env d r).1 p = .UNKNOWN := by
      intro _ r' hr' hid p hp1 hp2
      rw [hl.2.1] at hid
      rw [roi_fin_tag env q m1 m2 d r _ hs hr ho1 p]
      split
      · rename_i hp
        have hin := roi_hits_in_roi env q m1 m2 _ r p hp
        rcases hd.1 r' hr' with h | h | h
        · exact absurd hid.symm h
        · omega
        · omega
      · unfold start_tag
        split
        · rfl
        · rename_i h
          rw [not_or, not_not] at h
          exact hU h.1 r' (List.mem_cons_of_mem _ hr') (hid.trans h.2) p hp1 hp2
    obtain ⟨i1, i2, i3⟩ := ih (process_roi env d r).1 (roi_fin_ok env q m1 m2 d r _ hs hr ho1)
      (fun r' hr' => hv r' (List.mem_cons_of_mem _ hr')) hd.2 hU'
    refine ⟨?_, ?_, ?_⟩
    · simp only [run_rows, hrow, i1, List.map_cons, Option.toList]
      rfl
    · rw [run_rois_cons, i2, hfresh.1]
      simp only [List.map_cons, List.sum_cons, roi_row_spec]
      ring
    · intro x
      rw [run_rois_cons, i3 x, hfresh.2 x]
      simp only [List.map_cons, List.sum_cons]
      ring

theorem out_rows_main (env : Env) (stack : pileup_data_t) (m1 m2 q : Int) (rois : List roi_t) :
    out_rows (main env stack m1 m2 q (rois.map some)).2.2
      = run_rows env (init_data stack m1 m2 q) rois := by
  unfold main; rw [roi_loop_some]
  simp only [out_rows, List.filterMap_append, List.filterMap_cons, List.filterMap_nil,
    List.nil_append, List.append_nil, List.filterMap_map]
  induction run_rows env (init_data stack m1 m2 q) rois with
  | nil => rfl
  | cons a l ih => simp only [List.filterMap_cons, Function.comp]; rw [ih]

theorem main_disjoint (env : Env) (stack : pileup_data_t) (m1 m2 q : Int) (rois : List roi_t)
    (hv : ∀ r ∈ rois, roi_good env r) (hd : rois.Pairwise (roi_disjoint env)) :
    out_rows (main env stack m1 m2 q (rois.map some)).2.2 = rois.map (roi_row_spec env q m1 m2) ∧
    (main env stack m1 m2 q (rois.map some)).2.1.tot_covd_bases =
      ((rois.map (roi_row_spec env q m1 m2)).map roi_row.covd_bases).sum ∧
    (main env stack m1 m2 q (rois.map some)).2.1.tot_base_cnt.AT =
      ((rois.map (roi_row_spec env q m1 m2)).map roi_row.AT).sum ∧
    (main env stack m1 m2 q (rois.map some)).2.1.tot_base_cnt.CG =
      ((rois.map (roi_row_spec env q m1 m2)).map roi_row.CG).sum ∧
    (main env stack m1 m2 q (rois.map some)).2.1.tot_base_cnt.CpG =
      ((rois.map (roi_row_spec env q m1 m2)).map roi_row.CpG).sum := by
  obtain ⟨h1, h2, h3⟩ := run_disjoint env q m1 m2 rois (init_data stack m1 m2 q)
    (init_data_ok env stack m1 m2 q) hv hd (fun h => absurd rfl h)
  rw [out_rows_main, main_data]
  refine ⟨h1, ?_, ?_, ?_, ?_⟩
  · rw [h2]; simp [init_data]
  · have := h3 .AT
    simp only [base_cnt_t.get] at this
    rw [this, List.map_map]
    have h0 : (init_data stack m1 m2 q).tot_base_cnt.AT = 0 := rfl
    rw [h0, zero_add]
    rfl
  · have := h3 .CG
    simp only [base_cnt_t.get] at this
    rw [this, List.map_map]
    have h0 : (init_data stack m1 m2 q).tot_base_cnt.CG = 0 := rfl
    rw [h0, zero_add]
    rfl
  · have := h3 .CpG
    simp only [base_cnt_t.get] at this
    rw [this, List.map_map]
    have h0 : (init_data stack m1 m2 q).tot_base_cnt.CpG = 0 := rfl
    rw [h0, zero_add]
    rfl

theorem set_replicate_self {α : Type} (n i : Nat) (a : α) :
    (List.replicate n a).set i a = List.replicate n a := by
  apply List.ext_getElem
  · simp
  · intro j h1 h2
    rw [List.getElem_set]
    split <;> simp

theorem plbuf1_uncovered (cols : List Column) (s : pileup_data_t) (n : Nat)
    (hm : s.bam1_cvg = List.replicate n false)
    (hlow : ∀ c ∈ cols, s.beg ≤ (c.pos : Int) → (c.pos : Int) < s.end_ →
      mapq_n s.min_mapq c.pl < s.min_depth_bam1) :
    bam_plbuf pileup_func_1 cols s = s := by
  induction cols with
  | nil => rfl
  | cons c cs ih =>
    have hstep : pileup_func_1 c.pos c.pl s = s := by
      unfold pileup_func_1
      split
      · rename_i h
        have hl := hlow c (List.mem_cons_self _ _) h.1 h.2
        have hd : decide (mapq_n s.min_mapq c.pl ≥ s.min_depth_bam1) = false := by
          rw [decide_eq_false_iff_not]; omega
        rw [hd, hm, set_replicate_self, ← hm]
      · rfl
    show bam_plbuf pileup_func_1 cs (pileup_func_1 c.pos c.pl s) = s
    rw [hstep]
    exact ih (fun c' hc' => hlow c' (List.mem_cons_of_mem _ hc'))

theorem hits_uncovered (s : pileup_data_t) (n : Nat) (hm : s.bam1_cvg = List.replicate n false)
    (cols : List Column) : hits s cols = [] := by
  unfold hits
  rw [List.map_eq_nil_iff, List.filter_eq_nil_iff]
  intro c _
  unfold in_tagged_roi
  rw [hm, List.getD_eq_getElem?_getD, List.getElem?_replicate]
  split <;> simp

/-- An ROI in which no column of bam1 reaches the threshold ends in the state in
which its pileups started. -/
theorem process_roi_uncovered (env : Env) (d : pileup_data_t) (r : roi_t) (id : Int)
    (hid : env.hdr_hash r.ref_name = some id) (hle : r.start ≤ r.stop)
    (hlow : ∀ c ∈ env.plp1 id (roi_start env d r id).beg (roi_start env d r id).end_,
      (roi_start env d r id).beg ≤ (c.pos : Int) → (c.pos : Int) < (roi_start env d r id).end_ →
      mapq_n d.min_mapq c.pl < d.min_depth_bam1) :
    (process_roi env d r).1 = roi_start env d r id := by
  obtain ⟨t1, t2, _⟩ := roi_start_thresholds env d r id
  have hp1 : pass1 env id (roi_start env d r id) = roi_start env d r id := by
    unfold pass1
    apply plbuf1_uncovered _ _ _ (roi_start_mask env d r id)
    rw [t1, t2]
    exact hlow
  rw [process_roi_data env d r id hid hle, hp1,
    hits_uncovered _ _ (roi_start_mask env d r id)]
  rfl

theorem roi_start_bp_class (env : Env) (d : pileup_data_t) (r : roi_t) (id : Int) :
    (roi_start env d r id).bp_class =
      if d.ref_seq = none ∨ id ≠ d.ref_id
      then List.replicate (env.fai_fetch id).length .UNKNOWN else d.bp_class := by
  unfold roi_start setup_roi
  rw [clamp_roi_frame]
  unfold load_ref begin_roi
  simp only
  split <;> rfl

/-- C9, amended (Scenario B): a valid ROI in which no column of bam1 inside the
edited range reaches `min_depth_bam1` ends, whatever bam2 contains, with
`covd_bases = 0` and the AT, CG and CpG counters 0, leaves `tot_covd_bases` and
every entry of `tot_base_cnt` as they were before the ROI, and leaves every
tag as it was when the pileups of the ROI started: as before the ROI when the
ROI lies on the loaded chromosome, UNKNOWN after a load. -/
theorem uncovered_roi_frame (env : Env) (d : pileup_data_t) (r : roi_t) (id : Int)
    (hid : env.hdr_hash r.ref_name = some id) (hle : r.start ≤ r.stop)
    (hlow : ∀ c ∈ env.plp1 id (roi_start env d r id).beg (roi_start env d r id).end_,
      (roi_start env d r id).beg ≤ (c.pos : Int) → (c.pos : Int) < (roi_start env d r id).end_ →
      mapq_n d.min_mapq c.pl < d.min_depth_bam1) :
    (process_roi env d r).1.covd_bases = 0 ∧
    (process_roi env d r).1.base_cnt.AT = 0 ∧
    (process_roi env d r).1.base_cnt.CG = 0 ∧
    (process_roi env d r).1.base_cnt.CpG = 0 ∧
    (process_roi env d r).1.tot_covd_bases = d.tot_covd_bases ∧
    (process_roi env d r).1.tot_base_cnt = d.tot_base_cnt ∧
    (process_roi env d r).1.bp_class =
      (if d.ref_seq = none ∨ id ≠ d.ref_id
        then List.replicate (env.fai_fetch id).length .UNKNOWN else d.bp_class) := by
  rw [process_roi_uncovered env d r id hid hle hlow]
  have hb := roi_start_base_cnt env d r id
  refine ⟨roi_start_covd env d r id, ?_, ?_, ?_, (roi_start_totals env d r id).1,
    (roi_start_totals env d r id).2, roi_start_bp_class env d r id⟩
  · rw [hb]
  · rw [hb]
  · rw [hb]

/-! ## Scenario A -/

/-- C8 (Scenario A): with the reference `ACGTT`, the single ROI 1..5 and both
pileups reporting each of the positions 1, 2, 3 once with at least the required
number of qualifying reads, the engine edits the ROI to `[1,4)`, tags position 1
and 2 as CpG and position 3 as AT, and ends with `covd_bases = 3`, AT = 1,
CpG = 2, CG = 0, both in the per-ROI counters and in the running totals. -/
theorem scenario_A (env : Env) (stack : pileup_data_t) (m1 m2 q : Int) (name gene : String)
    (id : Int) (hid : env.hdr_hash name = some id)
    (href : env.fai_fetch id = ['A', 'C', 'G', 'T', 'T'])
    (h1 : once (env.plp1 id 1 4)) (h2 : once (env.plp2 id 1 4))
    (hc1 : ∀ p : Nat, 1 ≤ p → p ≤ 3 → meets q m1 (env.plp1 id 1 4) p = true)
    (hc2 : ∀ p : Nat, 1 ≤ p → p ≤ 3 → meets q m2 (env.plp2 id 1 4) p = true) :
    (main env stack m1 m2 q [some ⟨name, 1, 5, gene⟩]).2.1.beg = 1 ∧
    (main env stack m1 m2 q [some ⟨name, 1, 5, gene⟩]).2.1.end_ = 4 ∧
    tag (main env stack m1 m2 q [some ⟨name, 1, 5, gene⟩]).2.1 1 = .CpG ∧
    tag (main env stack m1 m2 q [some ⟨name, 1, 5, gene⟩]).2.1 2 = .CpG ∧
    tag (main env stack m1 m2 q [some ⟨name, 1, 5, gene⟩]).2.1 3 = .AT ∧
    (main env stack m1 m2 q [some ⟨name, 1, 5, gene⟩]).2.1.covd_bases = 3 ∧
    (main env stack m1 m2 q [some ⟨name, 1, 5, gene⟩]).2.1.base_cnt.AT = 1 ∧
    (main env stack m1 m2 q [some ⟨name, 1, 5, gene⟩]).2.1.base_cnt.CpG = 2 ∧
    (main env stack m1 m2 q [some ⟨name, 1, 5, gene⟩]).2.1.base_cnt.CG = 0 ∧
    (main env stack m1 m2 q [some ⟨name, 1, 5, gene⟩]).2.1.tot_covd_bases = 3 ∧
    (main env stack m1 m2 q [some ⟨name, 1, 5, gene⟩]).2.1.tot_base_cnt.AT = 1 ∧
    (main env stack m1 m2 q [some ⟨name, 1, 5, gene⟩]).2.1.tot_base_cnt.CpG = 2 ∧
    (main env stack m1 m2 q [some ⟨name, 1, 5, gene⟩]).2.1.tot_base_cnt.CG = 0 := by
  have hm := main_data env stack m1 m2 q [⟨name, 1, 5, gene⟩]
  simp only [List.map_cons, List.map_nil] at hm
  rw [hm]
  simp only [run_rois, List.foldl_cons, List.foldl_nil]
  generalize hr : (⟨name, 1, 5, gene⟩ : roi_t) = r
  have hname : r.ref_name = name := by rw [← hr]
  have hstart : r.start = 1 := by rw [← hr]
  have hstop : r.stop = 5 := by rw [← hr]
  have hlen : chrom_len env id = 5 := by unfold chrom_len; rw [href]; rfl
  have hon : roi_on env id r := by
    refine ⟨by rw [hname]; exact hid, ?_, ?_, ?_⟩ <;> omega
  have hrid : roi_id env r = id := roi_on_id hon
  have hbeg : roi_beg r = 1 := by unfold roi_beg; rw [hstart]; rfl
  have hend : roi_end env id r = 4 := by unfold roi_end; rw [hstop, hlen]; rfl
  have hp1 : roi_plp1 env id r = env.plp1 id 1 4 := by unfold roi_plp1; rw [hbeg, hend]
  have hp2 : roi_plp2 env id r = env.plp2 id 1 4 := by unfold roi_plp2; rw [hbeg, hend]
  have ho1 : once (roi_plp1 env id r) := by rw [hp1]; exact h1
  have ho2 : once (roi_plp2 env id r) := by rw [hp2]; exact h2
  have hs := init_data_ok env stack m1 m2 q
  have hgood : roi_good env r := by unfold roi_good; rw [hrid]; exact ⟨hon, ho1, ho2⟩
  -- the counted positions are 1, 2, 3 in some order
  have hmem : ∀ p, p ∈ roi_hits env q m1 m2 id r ↔ p ∈ [1, 2, 3] := by
    intro p
    rw [mem_roi_hits]
    unfold jointly_covered
    rw [hbeg, hend, hp1, hp2]
    simp only [Bool.and_eq_true, decide_eq_true_eq, List.mem_cons, List.mem_singleton,
      List.mem_nil_iff, or_false]
    constructor
    · rintro ⟨⟨⟨a, b⟩, _⟩, _⟩
      omega
    · intro h
      have h13 : 1 ≤ p ∧ p ≤ 3 := by omega
      exact ⟨⟨⟨by omega, by omega⟩, hc1 p h13.1 h13.2⟩, hc2 p h13.1 h13.2⟩
  have hperm : (roi_hits env q m1 m2 id r).Perm [1, 2, 3] :=
    (List.perm_ext_iff_of_nodup (roi_hits_nodup env q m1 m2 id r ho2) (by decide)).2 hmem
  have hcls : ∀ x, (roi_hits env q m1 m2 id r).countP (fun p => decide (ref_class env id p = x))
      = ([1, 2, 3] : List Nat).countP (fun p => decide (ref_class env id p = x)) :=
    fun x => hperm.countP_eq _
  have hc1' : ref_class env id 1 = .CpG := by unfold ref_class; rw [href]; decide
  have hc2' : ref_class env id 2 = .CpG := by unfold ref_class; rw [href]; decide
  have hc3' : ref_class env id 3 = .AT := by unfold ref_class; rw [href]; decide
  have hcnt := roi_fin_base_cnt env q m1 m2 _ r id hs hon ho1
  have htag := roi_fin_tag env q m1 m2 _ r id hs hon ho1
  have hfresh := roi_fin_tot_fresh env q m1 m2 (init_data stack m1 m2 q) r hs hgood
    (fun p _ => if_pos (Or.inl rfl))
  rw [hrid] at hfresh
  have hrow := process_roi_row_spec env q m1 m2 (init_data stack m1 m2 q) r hs hgood
  have hbe : (process_roi env (init_data stack m1 m2 q) r).1.beg = 1
      ∧ (process_roi env (init_data stack m1 m2 q) r).1.end_ = 4 := by
    rw [process_roi_eq_count env q m1 m2 _ r id hs hon ho1, count_all_frame, pass1_frame]
    exact ⟨(roi_start_beg env _ r id).trans hbeg, (roi_start_end env _ r id hs.2.2.2.1).trans hend⟩
  have hAT := hcnt .AT
  have hCG := hcnt .CG
  have hCpG := hcnt .CpG
  have tAT := hfresh.2 .AT
  have tCG := hfresh.2 .CG
  have tCpG := hfresh.2 .CpG
  unfold roi_class_count at tAT tCG tCpG
  rw [hrid] at tAT tCG tCpG
  rw [hcls] at hAT hCG hCpG tAT tCG tCpG
  simp only [base_cnt_t.get, List.countP_cons, List.countP_nil, hc1', hc2', hc3'] at hAT hCG hCpG tAT tCG tCpG
  have t0 : (init_data stack m1 m2 q).tot_covd_bases = 0 := rfl
  have t1 : (init_data stack m1 m2 q).tot_base_cnt.AT = 0 := rfl
  have t2 : (init_data stack m1 m2 q).tot_base_cnt.CG = 0 := rfl
  have t3 : (init_data stack m1 m2 q).tot_base_cnt.CpG = 0 := rfl
  refine ⟨hbe.1, hbe.2, ?_, ?_, ?_, ?_, ?_, ?_, ?_, ?_, ?_, ?_, ?_⟩
  · rw [htag 1, if_pos ((hmem 1).2 (by decide)), hc1']
  · rw [htag 2, if_pos ((hmem 2).2 (by decide)), hc2']
  · rw [htag 3, if_pos ((hmem 3).2 (by decide)), hc3']
  · rw [roi_fin_covd env q m1 m2 _ r id hs hon ho1, hperm.length_eq]; rfl
  · rw [hAT]; decide
  · rw [hCpG]; decide
  · rw [hCG]; decide
  · rw [hfresh.1, t0, hperm.length_eq]; rfl
  · rw [tAT, t1]; decide
  · rw [tCpG, t3]; decide
  · rw [tCG, t2]; decide

/-! ## Boundary safety -/

theorem count_all_loaded (env : Env) (ps : List Nat) (d : pileup_data_t) (id : Int)
    (h : loaded env d id) : loaded env (count_all ps d) id := by
  have hfr := count_all_frame ps d
  have hlen := count_all_length ps d
  refine ⟨?_, ?_, ?_, ?_⟩
  · rw [hfr]; exact h.1
  · rw [hfr]; exact h.2.1
  · rw [hfr]; exact h.2.2.1
  · rw [hlen]; exact h.2.2.2

theorem process_roi_cache_ok (env : Env) (d : pileup_data_t) (r : roi_t) (hc : cache_ok env d) :
    cache_ok env (process_roi env d r).1 := by
  cases hid : env.hdr_hash r.ref_name with
  | none =>
    rw [process_roi_skip_unknown env d r hid]
    exact hc
  | some id =>
    by_cases hle : r.start ≤ r.stop
    · rw [process_roi_data env d r id hid hle]
      have hl := count_all_loaded env
        (hits (pass1 env id (roi_start env d r id))
          (env.plp2 id (roi_start env d r id).beg (roi_start env d r id).end_))
        _ id (pass1_loaded env d r id hc)
      right
      rw [hl.2.1]
      exact hl
    · rw [process_roi_skip_inverted env d r (by omega)]
      exact hc

theorem run_rois_cache_ok (env : Env) (rois : List roi_t) (d : pileup_data_t)
    (hc : cache_ok env d) : cache_ok env (run_rois env d rois) := by
  induction rois generalizing d with
  | nil => exact hc
  | cons r rs ih =>
    rw [run_rois_cons]
    exact ih _ (process_roi_cache_ok env d r hc)

/-- C7 (boundary safety): in any run, for an ROI with `1 ≤ start ≤ stop ≤ ref_len`
on a chromosome of length `ref_len`, for any columns `pre` the pileup on bam2
has delivered so far and any further column `c` at position `pos`: if `pos`
reaches the classification step of `pileup_func_2` then it satisfies `1 ≤ pos ≤ ref_len - 2`; the cache holds the sequence and the tags of
that chromosome, and the indices `pos-1`, `pos`, `pos+1` do not wrap and lie
inside `[0, ref_len)`. -/
theorem boundary_safety (env : Env) (stack : pileup_data_t) (m1 m2 q : Int)
    (before : List roi_t) (r : roi_t) (id : Int) (hr : roi_on env id r)
    (hint : chrom_len env id < 2147483648)
    (pre : List Column) (c : Column)
    (hreach : in_tagged_roi c.pos (bam_plbuf pileup_func_2 pre
        (pass1 env id (roi_start env (run_rois env (init_data stack m1 m2 q) before) r id))) = true ∧
      mapq_n (bam_plbuf pileup_func_2 pre
        (pass1 env id (roi_start env (run_rois env (init_data stack m1 m2 q) before) r id))).min_mapq c.pl
        ≥ (bam_plbuf pileup_func_2 pre
        (pass1 env id (roi_start env (run_rois env (init_data stack m1 m2 q) before) r id))).min_depth_bam2) :
    (bam_plbuf pileup_func_2 pre
        (pass1 env id (roi_start env (run_rois env (init_data stack m1 m2 q) before) r id))).ref_seq
      = some (env.fai_fetch id) ∧
    (bam_plbuf pileup_func_2 pre
        (pass1 env id (roi_start env (run_rois env (init_data stack m1 m2 q) before) r id))).ref_len
      = chrom_len env id ∧
    (bam_plbuf pileup_func_2 pre
        (pass1 env id (roi_start env (run_rois env (init_data stack m1 m2 q) before) r id))).bp_class.length
      = (env.fai_fetch id).length ∧
    1 ≤ c.pos ∧ (c.pos : Int) ≤ chrom_len env id - 2 ∧
    pos_prev c.pos = c.pos - 1 ∧ pos_next c.pos = c.pos + 1 ∧
    c.pos + 1 < (env.fai_fetch id).length := by
  have hc := run_rois_cache_ok env before (init_data stack m1 m2 q) (Or.inl rfl)
  generalize run_rois env (init_data stack m1 m2 q) before = d at hc hreach ⊢
  have hl := pass1_loaded env d r id hc
  have hb := roi_start_beg env d r id
  have he := roi_start_end env d r id hc
  rw [plbuf2_eq_count_all] at hreach ⊢
  generalize hits (pass1 env id (roi_start env d r id)) pre = ps at hreach ⊢
  have hfr := count_all_frame ps (pass1 env id (roi_start env d r id))
  have hlen := count_all_length ps (pass1 env id (roi_start env d r id))
  have e1 : (count_all ps (pass1 env id (roi_start env d r id))).beg = roi_beg r := by
    rw [hfr, pass1_frame]; exact hb
  have e2 : (count_all ps (pass1 env id (roi_start env d r id))).end_ = roi_end env id r := by
    rw [hfr, pass1_frame]; exact he
  have e3 : (count_all ps (pass1 env id (roi_start env d r id))).ref_seq = some (env.fai_fetch id) := by
    rw [hfr]; exact hl.1
  have e4 : (count_all ps (pass1 env id (roi_start env d r id))).ref_len = chrom_len env id := by
    rw [hfr]; exact hl.2.2.1
  have hin := hreach.1
  unfold in_tagged_roi at hin
  rw [e1, e2] at hin
  simp only [Bool.and_eq_true, decide_eq_true_eq] at hin
  obtain ⟨⟨hge, hlt⟩, _⟩ := hin
  obtain ⟨_, h1, _, h3⟩ := hr
  have hbeg : 1 ≤ roi_beg r := by unfold roi_beg; split <;> omega
  have hend : roi_end env id r ≤ chrom_len env id - 1 := by unfold roi_end; split <;> omega
  have hcl : chrom_len env id = ((env.fai_fetch id).length : Nat) := rfl
  refine ⟨e3, e4, hlen.trans hl.2.2.2, by omega, by omega, ?_, ?_, by omega⟩
  · unfold pos_prev; omega
  · unfold pos_next; omega

/-! ## The position classifier -/

theorem toNat_ofNat_small (n : Nat) (h : n < 55296) : (Char.ofNat n).toNat = n := by
  have hv : n.isValidChar := Or.inl h
  unfold Char.ofNat
  rw [dif_pos hv]
  simp [Char.ofNatAux, Char.toNat, UInt32.toNat, BitVec.ofNatLt]

theorem char_eq_iff (c x : Char) : c = x ↔ c.toNat = x.toNat := by
  constructor
  · intro h; rw [h]
  · intro h
    rw [← Char.ofNat_toNat c, ← Char.ofNat_toNat x, h]

theorem toUpper_toNat (c : Char) :
    c.toUpper.toNat = if 97 ≤ c.toNat ∧ c.toNat ≤ 122 then c.toNat - 32 else c.toNat := by
  unfold Char.toUpper
  simp only [ge_iff_le]
  split
  · rw [toNat_ofNat_small _ (by omega)]
  · rfl

theorem toLower_toNat (c : Char) :
    c.toLower.toNat = if 65 ≤ c.toNat ∧ c.toNat ≤ 90 then c.toNat + 32 else c.toNat := by
  unfold Char.toLower
  simp only [ge_iff_le]
  split
  · rw [toNat_ofNat_small _ (by omega)]
  · rfl

theorem isUpper_iff (c : Char) : c.isUpper = true ↔ 65 ≤ c.toNat ∧ c.toNat ≤ 90 := by
  unfold Char.isUpper Char.toNat
  simp only [Bool.and_eq_true, decide_eq_true_eq, ge_iff_le, UInt32.le_def, BitVec.le_def]
  exact Iff.rfl

theorem toUpper_eq_iff (c x : Char) (hx : 65 ≤ x.toNat ∧ x.toNat ≤ 90) :
    c.toUpper = x ↔ c = x ∨ c = Char.ofNat (x.toNat + 32) := by
  rw [char_eq_iff, char_eq_iff c x, char_eq_iff c (Char.ofNat _), toUpper_toNat,
    toNat_ofNat_small _ (by omega)]
  split <;> omega

theorem letter_A (c : Char) : c.toUpper = 'A' ↔ c = 'a' ∨ c = 'A' := by
  rw [toUpper_eq_iff c 'A' (by decide), or_comm]; rfl

theorem letter_T (c : Char) : c.toUpper = 'T' ↔ c = 't' ∨ c = 'T' := by
  rw [toUpper_eq_iff c 'T' (by decide), or_comm]; rfl

theorem letter_C (c : Char) : c.toUpper = 'C' ↔ c = 'c' ∨ c = 'C' := by
  rw [toUpper_eq_iff c 'C' (by decide), or_comm]; rfl

theorem letter_G (c : Char) : c.toUpper = 'G' ↔ c = 'g' ∨ c = 'G' := by
  rw [toUpper_eq_iff c 'G' (by decide), or_comm]; rfl

theorem classify_eq_spec (b p n : Char) : classify b p n = classify_spec b p n := by
  unfold classify classify_spec
  simp only [letter_A, letter_T, letter_C, letter_G, or_assoc]

theorem other_case_toUpper (c : Char) : (other_case c).toUpper = c.toUpper := by
  rw [char_eq_iff]
  unfold other_case
  by_cases h : c.isUpper = true
  · rw [if_pos h, toUpper_toNat, toLower_toNat, toUpper_toNat]
    rw [isUpper_iff] at h
    rw [if_pos h, if_pos (by omega), if_neg (by omega)]
    omega
  · rw [if_neg h, toUpper_toNat, toUpper_toNat]
    rw [isUpper_iff] at h
    split_ifs <;> omega

theorem classify_spec_upper (b p n : Char) :
    classify_spec b p n = classify_spec b.toUpper p.toUpper n.toUpper := by
  have hu : ∀ c : Char, c.toUpper.toUpper = c.toUpper := by
    intro c
    rw [char_eq_iff, toUpper_toNat, toUpper_toNat]
    split_ifs <;> omega
  unfold classify_spec
  simp only [hu]

/-- C6: the class computed in `pileup_func_2` is the one of the reference
definition: AT for a/A/t/T; otherwise CpG for c/C followed by g/G or g/G
preceded by c/C; otherwise CG for c/C/g/G; otherwise IUB.  Hence a C followed
by G and a G preceded by C are CpG, never CG, and the class does not change
when any of the three characters is replaced by its other-case letter. -/
theorem classifier_correct :
    (∀ tmp pos, class_at tmp pos =
      classify (ref_at tmp pos) (ref_at tmp (pos_prev pos)) (ref_at tmp (pos_next pos))) ∧
    (∀ b p n, classify b p n = classify_spec b p n) ∧
    (∀ b p n, (b = 'a' ∨ b = 'A' ∨ b = 't' ∨ b = 'T') → classify b p n = .AT) ∧
    (∀ b p n, (b = 'c' ∨ b = 'C') → (n = 'g' ∨ n = 'G') → classify b p n = .CpG) ∧
    (∀ b p n, (b = 'g' ∨ b = 'G') → (p = 'c' ∨ p = 'C') → classify b p n = .CpG) ∧
    (∀ b p n, (b = 'c' ∨ b = 'C') → ¬ (n = 'g' ∨ n = 'G') → classify b p n = .CG) ∧
    (∀ b p n, (b = 'g' ∨ b = 'G') → ¬ (p = 'c' ∨ p = 'C') → classify b p n = .CG) ∧
    (∀ b p n, ¬ (b = 'a' ∨ b = 'A' ∨ b = 't' ∨ b = 'T' ∨ b = 'c' ∨ b = 'C' ∨ b = 'g' ∨ b = 'G') →
      classify b p n = .IUB) ∧
    (∀ b p n, classify (other_case b) p n = classify b p n) ∧
    (∀ b p n, classify b (other_case p) n = classify b p n) ∧
    (∀ b p n, classify b p (other_case n) = classify b p n) := by
  refine ⟨fun _ _ => rfl, classify_eq_spec, ?_, ?_, ?_, ?_, ?_, ?_, ?_, ?_, ?_⟩
  · intro b p n h
    unfold classify; rw [if_pos h]
  · intro b p n hb hn
    unfold classify
    rw [if_neg (by rcases hb with rfl | rfl <;> decide), if_pos (Or.inl ⟨hb, hn⟩)]
  · intro b p n hb hp
    unfold classify
    rw [if_neg (by rcases hb with rfl | rfl <;> decide), if_pos (Or.inr ⟨hb, hp⟩)]
  · intro b p n hb hn
    unfold classify
    rw [if_neg (by rcases hb with rfl | rfl <;> decide),
      if_neg (by
        rintro (⟨_, h⟩ | ⟨h, _⟩)
        · exact hn h
        · rcases hb with rfl | rfl <;> rcases h with h | h <;> exact absurd h (by decide)),
      if_pos (by rcases hb with rfl | rfl <;> simp)]
  · intro b p n hb hp
    unfold classify
    rw [if_neg (by rcases hb with rfl | rfl <;> decide),
      if_neg (by
        rintro (⟨h, _⟩ | ⟨_, h⟩)
        · rcases hb with rfl | rfl <;> rcases h with h | h <;> exact absurd h (by decide)
        · exact hp h),
      if_pos (by rcases hb with rfl | rfl <;> simp)]
  · intro b p n h
    unfold classify
    rw [if_neg (by tauto), if_neg (by tauto), if_neg (by tauto)]
  · intro b p n
    rw [classify_eq_spec, classify_eq_spec, classify_spec_upper, other_case_toUpper,
      ← classify_spec_upper]
  · intro b p n
    rw [classify_eq_spec, classify_eq_spec, classify_spec_upper, other_case_toUpper,
      ← classify_spec_upper]
  · intro b p n
    rw [classify_eq_spec, classify_eq_spec, classify_spec_upper, other_case_toUpper,
      ← classify_spec_upper]

/-! ## Reconciliation of the per-ROI counters -/

theorem countP_classes (f : Nat → bp_class_t) (hf : ∀ p, f p ≠ .UNKNOWN) (ps : List Nat) :
    ps.countP (fun p => decide (f p = .AT)) + ps.countP (fun p => decide (f p = .CG)) +
      ps.countP (fun p => decide (f p = .CpG)) + ps.countP (fun p => decide (f p = .IUB))
      = ps.length := by
  induction ps with
  | nil => rfl
  | cons p ps ih =>
    simp only [List.countP_cons, List.length_cons]
    have := hf p
    cases h : f p <;> simp_all <;> omega

/-- What the code guarantees in place of C4: when the row of a valid ROI is
emitted, `covd_bases` plus the value `base_cnt[IUB]` had when the ROI started
is the sum of the four class counters. -/
theorem reconciliation_up_to_stale_iub (env : Env) (q m1 m2 : Int) (d : pileup_data_t) (r : roi_t)
    (id : Int) (hs : state_ok env q m1 m2 d) (hr : roi_on env id r)
    (h1 : once (roi_plp1 env id r)) :
    (process_roi env d r).1.covd_bases + d.base_cnt.IUB =
      (process_roi env d r).1.base_cnt.AT + (process_roi env d r).1.base_cnt.CG +
        (process_roi env d r).1.base_cnt.CpG + (process_roi env d r).1.base_cnt.IUB := by
  have hcnt := roi_fin_base_cnt env q m1 m2 d r id hs hr h1
  have hAT := hcnt .AT
  have hCG := hcnt .CG
  have hCpG := hcnt .CpG
  have hIUB := hcnt .IUB
  simp only [base_cnt_t.get, zero_add] at hAT hCG hCpG hIUB
  have hsum := countP_classes (ref_class env id) (fun p => classify_ne_UNKNOWN _ _ _)
    (roi_hits env q m1 m2 id r)
  rw [roi_fin_covd env q m1 m2 d r id hs hr h1, hAT, hCG, hCpG, hIUB, ← hsum]
  push_cast
  ring

/-! ## Skipped and malformed records -/

theorem process_roi_skipped (env : Env) (d : pileup_data_t) (r : roi_t)
    (h : env.hdr_hash r.ref_name = none ∨ r.start > r.stop) :
    process_roi env d r = ({ d with beg := r.start, end_ := r.stop }, none) := by
  rcases h with h | h
  · exact process_roi_skip_unknown env d r h
  · exact process_roi_skip_inverted env d r h

theorem roi_loop_range_irrelevant (env : Env) (lines : List (Option roi_t)) (d : pileup_data_t)
    (out : List out_line) (b e : Int) :
    (roi_loop env lines { d with beg := b, end_ := e } out).1 = (roi_loop env lines d out).1 ∧
    (roi_loop env lines { d with beg := b, end_ := e } out).2.2 = (roi_loop env lines d out).2.2 ∧
    ∃ b' e', (roi_loop env lines { d with beg := b, end_ := e } out).2.1
      = { (roi_loop env lines d out).2.1 with beg := b', end_ := e' } := by
  cases lines with
  | nil => exact ⟨rfl, rfl, b, e, rfl⟩
  | cons l rest =>
    cases l with
    | none => exact ⟨rfl, rfl, b, e, rfl⟩
    | some r =>
      exact ⟨rfl, rfl, (roi_loop env (some r :: rest) d out).2.1.beg,
        (roi_loop env (some r :: rest) d out).2.1.end_, rfl⟩

/-- C11 (skip policy): a record with four fields whose chromosome is not in the
header of bam1, or whose start is greater than its stop, produces no row and
changes nothing in the record but the two coordinates `sscanf` stored: the
totals and the chromosome cache are unchanged.  The run goes on: with the
record anywhere in the input, the exit code and every line of the output are
those of the run on the input without the record, and so is the final record
up to `beg` and `end`. -/
theorem skip_policy (env : Env) (stack : pileup_data_t) (m1 m2 q : Int) (r : roi_t)
    (h : env.hdr_hash r.ref_name = none ∨ r.start > r.stop) :
    (∀ d, (process_roi env d r).2 = none ∧
      (process_roi env d r).1 = { d with beg := r.start, end_ := r.stop } ∧
      (process_roi env d r).1.tot_covd_bases = d.tot_covd_bases ∧
      (process_roi env d r).1.tot_base_cnt = d.tot_base_cnt ∧
      (process_roi env d r).1.ref_id = d.ref_id ∧
      (process_roi env d r).1.ref_seq = d.ref_seq ∧
      (process_roi env d r).1.ref_len = d.ref_len ∧
      (process_roi env d r).1.bp_class = d.bp_class) ∧
    (∀ pre rest : List (Option roi_t),
      (main env stack m1 m2 q (pre ++ some r :: rest)).1 = (main env stack m1 m2 q (pre ++ rest)).1 ∧
      (main env stack m1 m2 q (pre ++ some r :: rest)).2.2
        = (main env stack m1 m2 q (pre ++ rest)).2.2 ∧
      ∃ b e, (main env stack m1 m2 q (pre ++ some r :: rest)).2.1
        = { (main env stack m1 m2 q (pre ++ rest)).2.1 with beg := b, end_ := e }) := by
  constructor
  · intro d
    rw [process_roi_skipped env d r h]
    exact ⟨rfl, rfl, rfl, rfl, rfl, rfl, rfl, rfl⟩
  · intro pre rest
    unfold main
    generalize init_data stack m1 m2 q = d
    generalize [out_line.note, out_line.header] = out
    induction pre generalizing d out with
    | nil =>
      simp only [List.nil_append, roi_loop, process_roi_skipped env d r h, Option.map_none',
        Option.toList, List.append_nil]
      exact roi_loop_range_irrelevant env rest d out _ _
    | cons l pre ih =>
      cases l with
      | none => exact ⟨rfl, rfl, d.beg, d.end_, rfl⟩
      | some r' =>
        simp only [List.cons_append, roi_loop]
        exact ih _ _

theorem roi_loop_malformed (env : Env) (pre : List roi_t) (rest : List (Option roi_t))
    (d : pileup_data_t) (out : List out_line) :
    roi_loop env (pre.map some ++ none :: rest) d out =
      (1, run_rois env d pre, out ++ (run_rows env d pre).map out_line.roi) := by
  induction pre generalizing d out with
  | nil => simp [roi_loop, run_rois, run_rows]
  | cons r rs ih =>
    have h : roi_loop env ((r :: rs).map some ++ none :: rest) d out
        = roi_loop env (rs.map some ++ none :: rest) (process_roi env d r).1
          (out ++ ((process_roi env d r).2.map out_line.roi).toList) := rfl
    rw [h, ih, run_rois_cons]
    simp only [run_rows, List.map_append, List.append_assoc]
    congr 3
    cases (process_roi env d r).2 <;> simp

/-- C12 (malformed record is fatal): when the records `pre` have four fields and
the next line has not, the run returns 1 there whatever follows, and the output
is the two header lines and the rows of the ROIs of `pre` that are not skipped,
without a totals row: it is the output of the run on `pre` alone without its
last line.  A run whose lines all have four fields returns 0 and ends with the
totals row. -/
theorem malformed_fatal (env : Env) (stack : pileup_data_t) (m1 m2 q : Int) (pre : List roi_t)
    (rest : List (Option roi_t)) :
    (main env stack m1 m2 q (pre.map some ++ none :: rest)).1 = 1 ∧
    (main env stack m1 m2 q (pre.map some ++ none :: rest)).2.2 =
      [out_line.note, out_line.header] ++
        (run_rows env (init_data stack m1 m2 q) pre).map out_line.roi ∧
    (∀ a b c e, out_line.totals a b c e ∉ (main env stack m1 m2 q (pre.map some ++ none :: rest)).2.2) ∧
    (main env stack m1 m2 q (pre.map some)).1 = 0 ∧
    (main env stack m1 m2 q (pre.map some)).2.2 =
      (main env stack m1 m2 q (pre.map some ++ none :: rest)).2.2 ++
        [out_line.totals (run_rois env (init_data stack m1 m2 q) pre).tot_covd_bases
          (run_rois env (init_data stack m1 m2 q) pre).tot_base_cnt.AT
          (run_rois env (init_data stack m1 m2 q) pre).tot_base_cnt.CG
          (run_rois env (init_data stack m1 m2 q) pre).tot_base_cnt.CpG] := by
  unfold main
  rw [roi_loop_malformed, roi_loop_some]
  refine ⟨rfl, rfl, ?_, rfl, rfl⟩
  intro a b c e hmem
  simp at hmem

/-! ## Coordinates and length in the row -/

theorem process_roi_fin_range (env : Env) (d : pileup_data_t) (r : roi_t) (id : Int)
    (hid : env.hdr_hash r.ref_name = some id) (hle : r.start ≤ r.stop) (hc : cache_ok env d) :
    (process_roi env d r).1.beg = roi_beg r ∧ (process_roi env d r).1.end_ = roi_end env id r := by
  rw [process_roi_data env d r id hid hle, count_all_frame, pass1_frame]
  exact ⟨roi_start_beg env d r id, roi_start_end env d r id hc⟩

/-- C13 (coordinate round trip): in any run, the row of a valid ROI with
`1 < start ≤ stop < ref_len` shows the chromosome name, the start and the stop
of the input record, and its Length is `stop - start + 1`. -/
theorem coordinate_round_trip (env : Env) (stack : pileup_data_t) (m1 m2 q : Int)
    (before : List roi_t) (r : roi_t) (id : Int)
    (hid : env.hdr_hash r.ref_name = some id) (h1 : 1 < r.start) (hle : r.start ≤ r.stop)
    (h2 : r.stop < chrom_len env id) :
    ∃ row, (process_roi env (run_rois env (init_data stack m1 m2 q) before) r).2 = some row ∧
      row.gene_name = r.gene_name ∧ row.ref_name = r.ref_name ∧
      row.start = r.start ∧ row.stop = r.stop ∧ row.bases = r.stop - r.start + 1 := by
  have hc := run_rois_cache_ok env before (init_data stack m1 m2 q) (Or.inl rfl)
  obtain ⟨hb, he⟩ := process_roi_fin_range env _ r id hid hle hc
  refine ⟨_, process_roi_row env _ r id hid hle, rfl, rfl, ?_, ?_, ?_⟩
  · show (process_roi env _ r).1.beg + 1 = r.start
    rw [hb]; unfold roi_beg; rw [if_neg (by omega)]; omega
  · show (process_roi env _ r).1.end_ = r.stop
    rw [he]; unfold roi_end; rw [if_neg (by omega)]
  · show r.stop - (r.start - 1) = r.stop - r.start + 1
    omega

/-! ## The coverage mask -/

theorem meets_iff_reported_depth {q m : Int} {cols : List Column} {p : Nat} (h : once cols) :
    meets q m cols p = true ↔ reported cols p = true ∧ m ≤ depth q cols p := by
  rw [meets_iff_mem, reported_iff_mem]
  unfold depth
  cases hf : cols.find? (fun c => decide (c.pos = p)) with
  | none =>
    rw [List.find?_eq_none] at hf
    constructor
    · rintro ⟨c, hc, hp, _⟩
      exact absurd (by simpa using hp) (hf c hc)
    · rintro ⟨hr, _⟩
      rw [List.mem_map] at hr
      obtain ⟨c, hc, hp⟩ := hr
      exact absurd (by simpa using hp) (hf c hc)
  | some c =>
    have hc := List.mem_of_find?_eq_some hf
    have hp : c.pos = p := by simpa using List.find?_some hf
    simp only
    rw [← List.countP_eq_length_filter, ← mapq_n_eq_countP]
    constructor
    · rintro ⟨c', hc', hp', hge⟩
      have : c' = c := List.inj_on_of_nodup_map h hc' hc (hp'.trans hp.symm)
      rw [← this]
      exact ⟨List.mem_map.2 ⟨c', hc', hp'⟩, hge⟩
    · rintro ⟨_, hge⟩
      exact ⟨c, hc, hp, hge⟩

/-- C16, amended: after the pileup on bam1 of a valid ROI, with a pileup that
reports each position at most once and for every value of `min_depth_bam1`,
the entry `bam1_cvg[p - beg]` of a position `p` of the edited range is true iff
the pileup delivers a column for `p` and the depth at `p` is at least
`min_depth_bam1`.  A position without a column is never marked; for
`min_depth_bam1 ≥ 1` the entry is true iff the depth is at least
`min_depth_bam1`. -/
theorem mask_semantics (env : Env) (d : pileup_data_t) (r : roi_t) (id : Int)
    (hle : r.start ≤ r.stop) (h1 : ∀ b e : Int, once (env.plp1 id b e)) (p : Nat)
    (hb : (roi_start env d r id).beg ≤ (p : Int)) (he : (p : Int) < (roi_start env d r id).end_) :
    ((pass1 env id (roi_start env d r id)).bam1_cvg.getD
        ((p : Int) - (roi_start env d r id).beg).toNat false = true ↔
      reported (env.plp1 id (roi_start env d r id).beg (roi_start env d r id).end_) p = true ∧
      d.min_depth_bam1 ≤ depth d.min_mapq
        (env.plp1 id (roi_start env d r id).beg (roi_start env d r id).end_) p) ∧
    (reported (env.plp1 id (roi_start env d r id).beg (roi_start env d r id).end_) p = false →
      (pass1 env id (roi_start env d r id)).bam1_cvg.getD
        ((p : Int) - (roi_start env d r id).beg).toNat false = false) ∧
    (1 ≤ d.min_depth_bam1 →
      ((pass1 env id (roi_start env d r id)).bam1_cvg.getD
        ((p : Int) - (roi_start env d r id).beg).toNat false = true ↔
      d.min_depth_bam1 ≤ depth d.min_mapq
        (env.plp1 id (roi_start env d r id).beg (roi_start env d r id).end_) p)) := by
  obtain ⟨t1, t2, _⟩ := roi_start_thresholds env d r id
  have hbe : (roi_start env d r id).end_ - (roi_start env d r id).beg
      ≤ ((r.stop - (r.start - 1)).toNat : Int) := by
    have hb' := roi_start_beg env d r id
    have he' := roi_start_end_le env d r id
    have hg := roi_beg_ge r
    omega
  have hm := mask_after_pass1
    (env.plp1 id (roi_start env d r id).beg (roi_start env d r id).end_) (h1 _ _)
    (roi_start env d r id) _ (roi_start_mask env d r id) hbe p hb he
  rw [t1, t2] at hm
  unfold pass1
  rw [hm]
  refine ⟨meets_iff_reported_depth (h1 _ _), ?_, fun h => meets_iff_depth (h1 _ _) h⟩
  intro hr
  rw [Bool.eq_false_iff]
  intro hme
  rw [reported_of_meets hme] at hr
  exact absurd hr (by simp)

theorem plbuf2_frame (cols : List Column) (d : pileup_data_t) :
    bam_plbuf pileup_func_2 cols d = { d with
      covd_bases := (bam_plbuf pileup_func_2 cols d).covd_bases
      base_cnt := (bam_plbuf pileup_func_2 cols d).base_cnt
      tot_covd_bases := (bam_plbuf pileup_func_2 cols d).tot_covd_bases
      tot_base_cnt := (bam_plbuf pileup_func_2 cols d).tot_base_cnt
      bp_class := (bam_plbuf pileup_func_2 cols d).bp_class } := by
  rw [plbuf2_eq_count_all]
  exact count_all_frame _ _

theorem plbuf2_length (cols : List Column) (d : pileup_data_t) :
    (bam_plbuf pileup_func_2 cols d).bp_class.length = d.bp_class.length := by
  rw [plbuf2_eq_count_all]
  exact count_all_length _ _

/-- C18 (indexing stays in bounds): in any run, for a valid ROI (`start ≤ stop`,
in particular with `1 ≤ start`), the mask has `bases = stop - (start - 1)` entries, allocated
before the edit at the chromosome tips.  For any columns delivered so far and
any further column at `pos`, the index `pos - beg` that `pileup_func_1` writes
and the index that `pileup_func_2` reads (both under `beg ≤ pos < end`) satisfy
`0 ≤ pos - beg < bases`; and when `stop ≤ ref_len`, a position that passes the
outer condition of `pileup_func_2` is an index of `bp_class`, of `ref_len`
entries. -/
theorem mask_index_in_bounds (env : Env) (stack : pileup_data_t) (m1 m2 q : Int)
    (before : List roi_t) (r : roi_t) (id : Int)
    (hle : r.start ≤ r.stop) :
    (roi_start env (run_rois env (init_data stack m1 m2 q) before) r id).bam1_cvg.length
      = (r.stop - (r.start - 1)).toNat ∧
    0 < r.stop - (r.start - 1) ∧
    (∀ (pre : List Column) (c : Column),
      (c.pos : Int) ≥ (bam_plbuf pileup_func_1 pre
        (roi_start env (run_rois env (init_data stack m1 m2 q) before) r id)).beg →
      (c.pos : Int) < (bam_plbuf pileup_func_1 pre
        (roi_start env (run_rois env (init_data stack m1 m2 q) before) r id)).end_ →
      0 ≤ (c.pos : Int) - (bam_plbuf pileup_func_1 pre
        (roi_start env (run_rois env (init_data stack m1 m2 q) before) r id)).beg ∧
      (c.pos : Int) - (bam_plbuf pileup_func_1 pre
        (roi_start env (run_rois env (init_data stack m1 m2 q) before) r id)).beg
        < r.stop - (r.start - 1) ∧
      ((c.pos : Int) - (bam_plbuf pileup_func_1 pre
        (roi_start env (run_rois env (init_data stack m1 m2 q) before) r id)).beg).toNat
        < (bam_plbuf pileup_func_1 pre
          (roi_start env (run_rois env (init_data stack m1 m2 q) before) r id)).bam1_cvg.length) ∧
    (∀ (pre1 pre2 : List Column) (c : Column),
      (c.pos : Int) ≥ (bam_plbuf pileup_func_2 pre2 (bam_plbuf pileup_func_1 pre1
        (roi_start env (run_rois env (init_data stack m1 m2 q) before) r id))).beg →
      (c.pos : Int) < (bam_plbuf pileup_func_2 pre2 (bam_plbuf pileup_func_1 pre1
        (roi_start env (run_rois env (init_data stack m1 m2 q) before) r id))).end_ →
      0 ≤ (c.pos : Int) - (bam_plbuf pileup_func_2 pre2 (bam_plbuf pileup_func_1 pre1
        (roi_start env (run_rois env (init_data stack m1 m2 q) before) r id))).beg ∧
      (c.pos : Int) - (bam_plbuf pileup_func_2 pre2 (bam_plbuf pileup_func_1 pre1
        (roi_start env (run_rois env (init_data stack m1 m2 q) before) r id))).beg
        < r.stop - (r.start - 1) ∧
      ((c.pos : Int) - (bam_plbuf pileup_func_2 pre2 (bam_plbuf pileup_func_1 pre1
        (roi_start env (run_rois env (init_data stack m1 m2 q) before) r id))).beg).toNat
        < (bam_plbuf pileup_func_2 pre2 (bam_plbuf pileup_func_1 pre1
          (roi_start env (run_rois env (init_data stack m1 m2 q) before) r id))).bam1_cvg.length) ∧
    (r.stop ≤ chrom_len env id → ∀ (pre1 pre2 : List Column) (c : Column),
      in_tagged_roi c.pos (bam_plbuf pileup_func_2 pre2 (bam_plbuf pileup_func_1 pre1
        (roi_start env (run_rois env (init_data stack m1 m2 q) before) r id))) = true →
      (bam_plbuf pileup_func_2 pre2 (bam_plbuf pileup_func_1 pre1
        (roi_start env (run_rois env (init_data stack m1 m2 q) before) r id))).ref_len
        = chrom_len env id ∧
      (bam_plbuf pileup_func_2 pre2 (bam_plbuf pileup_func_1 pre1
        (roi_start env (run_rois env (init_data stack m1 m2 q) before) r id))).bp_class.length
        = (env.fai_fetch id).length ∧
      (c.pos : Int) < chrom_len env id ∧
      c.pos < (bam_plbuf pileup_func_2 pre2 (bam_plbuf pileup_func_1 pre1
        (roi_start env (run_rois env (init_data stack m1 m2 q) before) r id))).bp_class.length) := by
  have hc := run_rois_cache_ok env before (init_data stack m1 m2 q) (Or.inl rfl)
  generalize run_rois env (init_data stack m1 m2 q) before = d at hc ⊢
  have hb := roi_start_beg env d r id
  have hel := roi_start_end_le env d r id
  have hg := roi_beg_ge r
  have hmask := roi_start_mask env d r id
  have hlen0 : (roi_start env d r id).bam1_cvg.length = (r.stop - (r.start - 1)).toNat := by
    rw [hmask, List.length_replicate]
  have key1 : ∀ pre : List Column,
      (bam_plbuf pileup_func_1 pre (roi_start env d r id)).beg = (roi_start env d r id).beg ∧
      (bam_plbuf pileup_func_1 pre (roi_start env d r id)).end_ = (roi_start env d r id).end_ ∧
      (bam_plbuf pileup_func_1 pre (roi_start env d r id)).bam1_cvg.length
        = (r.stop - (r.start - 1)).toNat := by
    intro pre
    have hfr := plbuf1_frame pre (roi_start env d r id)
    refine ⟨by rw [hfr], by rw [hfr], ?_⟩
    rw [plbuf1_length, hlen0]
  have key2 : ∀ pre1 pre2 : List Column,
      (bam_plbuf pileup_func_2 pre2 (bam_plbuf pileup_func_1 pre1 (roi_start env d r id))).beg
        = (roi_start env d r id).beg ∧
      (bam_plbuf pileup_func_2 pre2 (bam_plbuf pileup_func_1 pre1 (roi_start env d r id))).end_
        = (roi_start env d r id).end_ ∧
      (bam_plbuf pileup_func_2 pre2
        (bam_plbuf pileup_func_1 pre1 (roi_start env d r id))).bam1_cvg.length
        = (r.stop - (r.start - 1)).toNat := by
    intro pre1 pre2
    obtain ⟨a, b, c⟩ := key1 pre1
    have hfr := plbuf2_frame pre2 (bam_plbuf pileup_func_1 pre1 (roi_start env d r id))
    refine ⟨?_, ?_, ?_⟩
    · rw [hfr]; exact a
    · rw [hfr]; exact b
    · rw [hfr]; exact c
  refine ⟨hlen0, by omega, ?_, ?_, ?_⟩
  · intro pre c h1' h2'
    obtain ⟨a, b, l⟩ := key1 pre
    rw [a] at h1' ⊢
    rw [b] at h2'
    rw [l]
    omega
  · intro pre1 pre2 c h1' h2'
    obtain ⟨a, b, l⟩ := key2 pre1 pre2
    rw [a] at h1' ⊢
    rw [b] at h2'
    rw [l]
    omega
  · intro hstop pre1 pre2 c hin
    obtain ⟨a, b, _⟩ := key2 pre1 pre2
    have hl := roi_start_loaded env d r id hc
    have he := roi_start_end env d r id hc
    have hfr2 := plbuf2_frame pre2 (bam_plbuf pileup_func_1 pre1 (roi_start env d r id))
    have hfr1 := plbuf1_frame pre1 (roi_start env d r id)
    have e4 : (bam_plbuf pileup_func_2 pre2
        (bam_plbuf pileup_func_1 pre1 (roi_start env d r id))).ref_len = chrom_len env id := by
      rw [hfr2]
      show (bam_plbuf pileup_func_1 pre1 (roi_start env d r id)).ref_len = _
      rw [hfr1]; exact hl.2.2.1
    have e5 : (bam_plbuf pileup_func_2 pre2
        (bam_plbuf pileup_func_1 pre1 (roi_start env d r id))).bp_class.length
        = (env.fai_fetch id).length := by
      rw [plbuf2_length]
      have : (bam_plbuf pileup_func_1 pre1 (roi_start env d r id)).bp_class
          = (roi_start env d r id).bp_class := by rw [hfr1]
      rw [this]; exact hl.2.2.2
    unfold in_tagged_roi at hin
    rw [a, b] at hin
    simp only [Bool.and_eq_true, decide_eq_true_eq] at hin
    obtain ⟨⟨_, hlt⟩, _⟩ := hin
    have hend : roi_end env id r ≤ chrom_len env id := by unfold roi_end; split <;> omega
    have hcl : chrom_len env id = ((env.fai_fetch id).length : Nat) := rfl
    refine ⟨e4, e5, by omega, ?_⟩
    rw [e5]; omega

/-! ## The tags of the chromosome cache -/

theorem countP_set {α : Type} (f : α → Bool) (l : List α) (i : Nat) (v dflt : α)
    (h : i < l.length) :
    (l.set i v).countP f + (if f (l.getD i dflt) then 1 else 0)
      = l.countP f + (if f v then 1 else 0) := by
  induction l generalizing i with
  | nil => simp at h
  | cons a l ih =>
    cases i with
    | zero =>
      simp only [List.set_cons_zero, List.countP_cons, List.getD_cons_zero]
      omega
    | succ i =>
      simp only [List.set_cons_succ, List.countP_cons, List.getD_cons_succ]
      have := ih i (by simpa using h)
      omega

theorem count_base_tagged (p : Nat) (d : pileup_data_t) (hp : p < d.bp_class.length) :
    tagged_count (count_base p d) = tagged_count d + (if tag d p = .UNKNOWN then 1 else 0) := by
  unfold tagged_count count_base tag
  simp only
  split
  · rename_i h
    have hs := countP_set (fun t => decide (t ≠ bp_class_t.UNKNOWN)) d.bp_class p
      (class_at d p) .UNKNOWN hp
    rw [h] at hs
    simp only [ne_eq, not_true_eq_false, decide_False, Bool.false_eq_true, if_false, add_zero,
      class_at_ne_UNKNOWN d p, not_false_eq_true, decide_True, if_true] at hs
    simp only [ne_eq]
    rw [hs]
  · simp

theorem count_base_class_count (p : Nat) (d : pileup_data_t) (hp : p < d.bp_class.length)
    (x : bp_class_t) (hx : x ≠ .UNKNOWN) :
    (count_base p d).bp_class.count x =
      d.bp_class.count x + (if tag d p = .UNKNOWN ∧ class_at d p = x then 1 else 0) := by
  by_cases h : tag d p = .UNKNOWN
  · have hb : (count_base p d).bp_class = d.bp_class.set p (class_at d p) := by
      unfold tag at h
      unfold count_base
      simp only [h, if_true]
    have hs := countP_set (fun t => t == x) d.bp_class p (class_at d p) .UNKNOWN hp
    unfold tag at h
    rw [h] at hs
    have hne : (bp_class_t.UNKNOWN == x) = false := by
      rw [beq_eq_false_iff_ne]; exact fun h => hx h.symm
    simp only [hne, Bool.false_eq_true, if_false, add_zero, beq_iff_eq] at hs
    unfold List.count
    rw [hb, hs]
    unfold tag
    simp only [h, true_and]
  · have hb : (count_base p d).bp_class = d.bp_class := by
      unfold tag at h
      unfold count_base
      simp only [h, if_false]
    rw [hb]
    simp only [h, false_and, if_false, add_zero]

theorem count_all_tagged (ps : List Nat) (d : pileup_data_t)
    (hb : ∀ p ∈ ps, p < d.bp_class.length) :
    (tagged_count (count_all ps d) : Int) - (count_all ps d).tot_covd_bases
      = (tagged_count d : Int) - d.tot_covd_bases := by
  induction ps generalizing d with
  | nil => rfl
  | cons p ps ih =>
    have hp := hb p (List.mem_cons_self _ _)
    have hb' : ∀ q ∈ ps, q < (count_base p d).bp_class.length := by
      intro q hq; rw [count_base_length]; exact hb q (List.mem_cons_of_mem _ hq)
    rw [count_all_cons, ih _ hb', count_base_tagged p d hp, count_base_tot]
    split <;> simp

theorem count_all_class_count (ps : List Nat) (d : pileup_data_t)
    (hb : ∀ p ∈ ps, p < d.bp_class.length) (x : bp_class_t) (hx : x ≠ .UNKNOWN) :
    ((count_all ps d).bp_class.count x : Int) - (count_all ps d).tot_base_cnt.get x
      = (d.bp_class.count x : Int) - d.tot_base_cnt.get x := by
  induction ps generalizing d with
  | nil => rfl
  | cons p ps ih =>
    have hp := hb p (List.mem_cons_self _ _)
    have hb' : ∀ q ∈ ps, q < (count_base p d).bp_class.length := by
      intro q hq; rw [count_base_length]; exact hb q (List.mem_cons_of_mem _ hq)
    rw [count_all_cons, ih _ hb', count_base_class_count p d hp x hx, count_base_tot_cnt]
    by_cases h : tag d p = .UNKNOWN
    · rw [if_pos h, incr_get _ _ _ (class_at_ne_UNKNOWN d p)]
      by_cases h2 : class_at d p = x
      · simp [h, h2]
      · simp [h, h2]
    · simp [h]

theorem roi_hit_list_bounds (env : Env) (d : pileup_data_t) (r : roi_t) (id : Int)
    (hc : cache_ok env d) (hr : roi_on env id r) (p : Nat) (hp : p ∈ roi_hit_list env d r id) :
    1 ≤ p ∧ p + 1 < (env.fai_fetch id).length ∧
      p < (pass1 env id (roi_start env d r id)).bp_class.length := by
  have hrange := hits_range _ _ p hp
  have hfr := pass1_frame env id (roi_start env d r id)
  have e1 : (pass1 env id (roi_start env d r id)).beg = roi_beg r := by
    rw [hfr]; exact roi_start_beg env d r id
  have e2 : (pass1 env id (roi_start env d r id)).end_ = roi_end env id r := by
    rw [hfr]; exact roi_start_end env d r id hc
  rw [e1, e2] at hrange
  obtain ⟨_, h1, _, h3⟩ := hr
  have hbeg : 1 ≤ roi_beg r := by unfold roi_beg; split <;> omega
  have hend : roi_end env id r ≤ chrom_len env id - 1 := by unfold roi_end; split <;> omega
  have hcl : chrom_len env id = ((env.fai_fetch id).length : Nat) := rfl
  rw [(pass1_loaded env d r id hc).2.2.2]
  omega

theorem process_roi_hit_list (env : Env) (d : pileup_data_t) (r : roi_t) (id : Int)
    (hr : roi_on env id r) :
    (process_roi env d r).1 =
      count_all (roi_hit_list env d r id) (pass1 env id (roi_start env d r id)) :=
  process_roi_data env d r id hr.1 hr.2.2.1

theorem gen_tag (env : Env) (q m1 m2 : Int) (d : pileup_data_t) (r : roi_t) (id : Int)
    (hs : state_ok env q m1 m2 d) (hr : roi_on env id r) (p : Nat) :
    tag (process_roi env d r).1 p =
      if p ∈ roi_hit_list env d r id then ref_class env id p else start_tag d id p := by
  have hc := hs.2.2.2.1
  rw [process_roi_hit_list env d r id hr,
    count_all_tag _ _ (fun p hp => (roi_hit_list_bounds env d r id hc hr p hp).2.2),
    pass1_eff_class env q m1 m2 d r id hs p, pass1_tag env d r id hc p]

theorem gen_loaded (env : Env) (d : pileup_data_t) (r : roi_t) (id : Int)
    (hc : cache_ok env d) (hr : roi_on env id r) : loaded env (process_roi env d r).1 id := by
  rw [process_roi_hit_list env d r id hr]
  exact count_all_loaded env _ _ id (pass1_loaded env d r id hc)

theorem gen_ok (env : Env) (q m1 m2 : Int) (d : pileup_data_t) (r : roi_t) (id : Int)
    (hs : state_ok env q m1 m2 d) (hr : roi_on env id r) :
    state_ok env q m1 m2 (process_roi env d r).1 := by
  have hl := gen_loaded env d r id hs.2.2.2.1 hr
  have ht := gen_tag env q m1 m2 d r id hs hr
  obtain ⟨t1, t2, t3⟩ := roi_start_thresholds env d r id
  refine ⟨?_, ?_, ?_, Or.inr ?_, ?_⟩
  · rw [process_roi_hit_list env d r id hr, count_all_frame, pass1_frame]
    exact t1.trans hs.1
  · rw [process_roi_hit_list env d r id hr, count_all_frame, pass1_frame]
    exact t2.trans hs.2.1
  · rw [process_roi_hit_list env d r id hr, count_all_frame, pass1_frame]
    exact t3.trans hs.2.2.1
  · rw [hl.2.1]; exact hl
  · intro p
    rw [ht p, hl.2.1]
    split
    · exact Or.inr rfl
    · exact start_tag_ok env q m1 m2 d id hs p

theorem run_rois_ok (env : Env) (q m1 m2 : Int) (rois : List roi_t) (d : pileup_data_t)
    (hs : state_ok env q m1 m2 d) (hv : ∀ r ∈ rois, roi_on env (roi_id env r) r) :
    state_ok env q m1 m2 (run_rois env d rois) := by
  induction rois generalizing d with
  | nil => exact hs
  | cons r rs ih =>
    rw [run_rois_cons]
    exact ih _ (gen_ok env q m1 m2 d r _ hs (hv r (List.mem_cons_self _ _)))
      (fun r' hr' => hv r' (List.mem_cons_of_mem _ hr'))

theorem tagged_count_replicate (n : Nat) :
    (List.replicate n bp_class_t.UNKNOWN).countP (fun t => decide (t ≠ .UNKNOWN)) = 0 := by
  rw [List.countP_eq_zero]
  intro a ha
  rw [List.mem_replicate] at ha
  simp [ha.2]

theorem count_replicate_unknown (n : Nat) (x : bp_class_t) (hx : x ≠ .UNKNOWN) :
    (List.replicate n bp_class_t.UNKNOWN).count x = 0 := by
  rw [List.count_eq_zero]
  intro ha
  rw [List.mem_replicate] at ha
  exact hx ha.2

theorem pass1_bp_class (env : Env) (d : pileup_data_t) (r : roi_t) (id : Int) :
    (pass1 env id (roi_start env d r id)).bp_class =
      if d.ref_seq = none ∨ id ≠ d.ref_id
      then List.replicate (env.fai_fetch id).length .UNKNOWN else d.bp_class := by
  rw [← roi_start_bp_class env d r id, pass1_frame]

theorem pass1_totals (env : Env) (d : pileup_data_t) (r : roi_t) (id : Int) :
    (pass1 env id (roi_start env d r id)).tot_covd_bases = d.tot_covd_bases ∧
    (pass1 env id (roi_start env d r id)).tot_base_cnt = d.tot_base_cnt := by
  rw [pass1_frame]
  exact roi_start_totals env d r id

/-- One ROI on the loaded chromosome: tags that are set stay, and the number of
set tags grows with the totals. -/
theorem gen_same_chrom (env : Env) (q m1 m2 : Int) (d : pileup_data_t) (r : roi_t) (id : Int)
    (hs : state_ok env q m1 m2 d) (hr : roi_on env id r)
    (hl : d.ref_seq ≠ none) (hi : d.ref_id = id) :
    (∀ pos, tag d pos ≠ .UNKNOWN → tag (process_roi env d r).1 pos = tag d pos) ∧
    (tagged_count (process_roi env d r).1 : Int) - (process_roi env d r).1.tot_covd_bases
      = (tagged_count d : Int) - d.tot_covd_bases ∧
    ∀ x, x ≠ .UNKNOWN →
      ((process_roi env d r).1.bp_class.count x : Int) - (process_roi env d r).1.tot_base_cnt.get x
        = (d.bp_class.count x : Int) - d.tot_base_cnt.get x := by
  have hc := hs.2.2.2.1
  have hno : ¬ (d.ref_seq = none ∨ id ≠ d.ref_id) := by
    rw [not_or, not_not]; exact ⟨hl, hi.symm⟩
  have hbp := pass1_bp_class env d r id
  rw [if_neg hno] at hbp
  obtain ⟨ht1, ht2⟩ := pass1_totals env d r id
  have hb := fun p hp => (roi_hit_list_bounds env d r id hc hr p hp).2.2
  refine ⟨?_, ?_, ?_⟩
  · intro pos hpos
    rw [gen_tag env q m1 m2 d r id hs hr pos]
    have hst : start_tag d id pos = tag d pos := by unfold start_tag; rw [if_neg hno]
    split
    · rcases hs.2.2.2.2 pos with h | h
      · exact absurd h hpos
      · rw [h, hi]
    · exact hst
  · rw [process_roi_hit_list env d r id hr, count_all_tagged _ _ hb, ht1]
    unfold tagged_count
    rw [hbp]
  · intro x hx
    rw [process_roi_hit_list env d r id hr, count_all_class_count _ _ hb x hx, ht2, hbp]

/-- One ROI that loads its chromosome: afterwards the number of set tags is the
growth of the total. -/
theorem gen_reload (env : Env) (q m1 m2 : Int) (d : pileup_data_t) (r : roi_t) (id : Int)
    (hs : state_ok env q m1 m2 d) (hr : roi_on env id r)
    (hre : d.ref_seq = none ∨ id ≠ d.ref_id) :
    (tagged_count (process_roi env d r).1 : Int)
      = (process_roi env d r).1.tot_covd_bases - d.tot_covd_bases ∧
    ∀ x, x ≠ .UNKNOWN →
      ((process_roi env d r).1.bp_class.count x : Int)
        = (process_roi env d r).1.tot_base_cnt.get x - d.tot_base_cnt.get x := by
  have hc := hs.2.2.2.1
  have hbp := pass1_bp_class env d r id
  rw [if_pos hre] at hbp
  obtain ⟨ht1, ht2⟩ := pass1_totals env d r id
  have hb := fun p hp => (roi_hit_list_bounds env d r id hc hr p hp).2.2
  constructor
  · have h := count_all_tagged (roi_hit_list env d r id) _ hb
    rw [← process_roi_hit_list env d r id hr, ht1] at h
    have h0 : tagged_count (pass1 env id (roi_start env d r id)) = 0 := by
      unfold tagged_count; rw [hbp]; exact tagged_count_replicate _
    rw [h0] at h
    push_cast at h
    omega
  · intro x hx
    have h := count_all_class_count (roi_hit_list env d r id) _ hb x hx
    rw [← process_roi_hit_list env d r id hr, ht2, hbp, count_replicate_unknown _ x hx] at h
    push_cast at h
    omega

theorem run_same_chrom (env : Env) (q m1 m2 : Int) (id : Int) (rois : List roi_t)
    (hv : ∀ r ∈ rois, roi_on env id r) (d : pileup_data_t)
    (hs : state_ok env q m1 m2 d) (hl : d.ref_seq ≠ none) (hi : d.ref_id = id) :
    state_ok env q m1 m2 (run_rois env d rois) ∧
    loaded env (run_rois env d rois) id ∧
    (∀ pos, tag d pos ≠ .UNKNOWN → tag (run_rois env d rois) pos = tag d pos) ∧
    (tagged_count (run_rois env d rois) : Int) - (run_rois env d rois).tot_covd_bases
      = (tagged_count d : Int) - d.tot_covd_bases ∧
    ∀ x, x ≠ .UNKNOWN →
      ((run_rois env d rois).bp_class.count x : Int) - (run_rois env d rois).tot_base_cnt.get x
        = (d.bp_class.count x : Int) - d.tot_base_cnt.get x := by
  induction rois generalizing d with
  | nil =>
    refine ⟨hs, ?_, fun _ _ => rfl, rfl, fun _ _ => rfl⟩
    rcases hs.2.2.2.1 with h | h
    · exact absurd h hl
    · rw [hi] at h; exact h
  | cons r rs ih =>
    have hr := hv r (List.mem_cons_self _ _)
    have hl' := gen_loaded env d r id hs.2.2.2.1 hr
    obtain ⟨g1, g2, g3⟩ := gen_same_chrom env q m1 m2 d r id hs hr hl hi
    obtain ⟨i1, i2, i3, i4, i5⟩ := ih (fun r' hr' => hv r' (List.mem_cons_of_mem _ hr'))
      (process_roi env d r).1 (gen_ok env q m1 m2 d r id hs hr)
      (by rw [hl'.1]; simp) hl'.2.1
    rw [run_rois_cons]
    refine ⟨i1, i2, ?_, by rw [i4, g2], fun x hx => by rw [i5 x hx, g3 x hx]⟩
    intro pos hpos
    have := g1 pos hpos
    rw [i3 pos (by rw [this]; exact hpos), this]

theorem count_base_step (tmp : pileup_data_t) (pos : Nat) (hp : pos < tmp.bp_class.length) :
    (tag tmp pos = .UNKNOWN →
      tag (count_base pos tmp) pos = class_at tmp pos ∧ class_at tmp pos ≠ .UNKNOWN ∧
      (∀ p, p ≠ pos → tag (count_base pos tmp) p = tag tmp p) ∧
      (count_base pos tmp).tot_covd_bases = tmp.tot_covd_bases + 1 ∧
      (count_base pos tmp).tot_base_cnt = tmp.tot_base_cnt.incr (class_at tmp pos)) ∧
    (tag tmp pos ≠ .UNKNOWN →
      (count_base pos tmp).bp_class = tmp.bp_class ∧
      (count_base pos tmp).tot_covd_bases = tmp.tot_covd_bases ∧
      (count_base pos tmp).tot_base_cnt = tmp.tot_base_cnt) := by
  constructor
  · intro h
    refine ⟨?_, class_at_ne_UNKNOWN tmp pos, ?_, ?_, ?_⟩
    · rw [count_base_tag pos tmp hp pos, if_pos rfl]
      unfold eff_class; rw [if_pos h]
    · intro p hne
      rw [count_base_tag pos tmp hp p, if_neg hne]
    · rw [count_base_tot, if_pos h]
    · rw [count_base_tot_cnt, if_pos h]
  · intro h
    refine ⟨?_, ?_, ?_⟩
    · unfold tag at h
      unfold count_base
      simp only [h, if_false]
    · rw [count_base_tot, if_neg h, add_zero]
    · rw [count_base_tot_cnt, if_neg h]

theorem pileup_func_2_cases (pos : Nat) (pl : List bam_pileup1_t) (tmp : pileup_data_t) :
    pileup_func_2 pos pl tmp = count_base pos tmp ∨ pileup_func_2 pos pl tmp = tmp := by
  unfold pileup_func_2
  split
  · split
    · exact Or.inl rfl
    · exact Or.inr rfl
  · exact Or.inr rfl

/-- C15 (tag invariant of the chromosome cache).  A callback of the pileup on
bam1 leaves tags and totals alone; a callback of the pileup on bam2 either
changes nothing or runs the classification step at its position `pos`, which
for an untagged `pos` sets the tag to the class the classifier gives for
`ref_seq[pos]`, `ref_seq[pos-1]`, `ref_seq[pos+1]`, leaves every other tag and
adds exactly 1 to `tot_covd_bases` and to `tot_base_cnt[class]`, and for a
tagged `pos` changes no tag and no total.  Over a run of ROIs on the loaded
chromosome, a tag that is set is never modified, every set tag is the
classifier's result, and the number of set tags grows by as much as
`tot_covd_bases` (for each class, as `tot_base_cnt[class]`); from the ROI that
loads the chromosome on, the number of set tags is the growth of
`tot_covd_bases`. -/
theorem tag_invariant (env : Env) (stack : pileup_data_t) (m1 m2 q : Int)
    (before : List roi_t) (id : Int) (rois : List roi_t)
    (hbefore : ∀ r ∈ before, roi_on env (roi_id env r) r) (hv : ∀ r ∈ rois, roi_on env id r)
    (d : pileup_data_t) (hd : d = run_rois env (init_data stack m1 m2 q) before) :
    (∀ tmp pos pl, (pileup_func_1 pos pl tmp).bp_class = tmp.bp_class ∧
      (pileup_func_1 pos pl tmp).tot_covd_bases = tmp.tot_covd_bases ∧
      (pileup_func_1 pos pl tmp).tot_base_cnt = tmp.tot_base_cnt) ∧
    (∀ tmp pos pl, pileup_func_2 pos pl tmp = count_base pos tmp ∨ pileup_func_2 pos pl tmp = tmp) ∧
    (∀ tmp pos, pos < tmp.bp_class.length →
      (tag tmp pos = .UNKNOWN →
        tag (count_base pos tmp) pos = class_at tmp pos ∧ class_at tmp pos ≠ .UNKNOWN ∧
        (∀ p, p ≠ pos → tag (count_base pos tmp) p = tag tmp p) ∧
        (count_base pos tmp).tot_covd_bases = tmp.tot_covd_bases + 1 ∧
        (count_base pos tmp).tot_base_cnt = tmp.tot_base_cnt.incr (class_at tmp pos)) ∧
      (tag tmp pos ≠ .UNKNOWN →
        (count_base pos tmp).bp_class = tmp.bp_class ∧
        (count_base pos tmp).tot_covd_bases = tmp.tot_covd_bases ∧
        (count_base pos tmp).tot_base_cnt = tmp.tot_base_cnt)) ∧
    (d.ref_seq ≠ none → d.ref_id = id →
      (∀ pos, tag d pos ≠ .UNKNOWN → tag (run_rois env d rois) pos = tag d pos) ∧
      (∀ pos, tag (run_rois env d rois) pos = .UNKNOWN ∨
        tag (run_rois env d rois) pos = class_at (run_rois env d rois) pos) ∧
      (tagged_count (run_rois env d rois) : Int) - tagged_count d
        = (run_rois env d rois).tot_covd_bases - d.tot_covd_bases ∧
      (∀ x, x ≠ .UNKNOWN →
        ((run_rois env d rois).bp_class.count x : Int) - d.bp_class.count x
          = (run_rois env d rois).tot_base_cnt.get x - d.tot_base_cnt.get x)) ∧
    ((d.ref_seq = none ∨ id ≠ d.ref_id) → ∀ r, roi_on env id r →
      (tagged_count (run_rois env d (r :: rois)) : Int)
        = (run_rois env d (r :: rois)).tot_covd_bases - d.tot_covd_bases ∧
      (∀ x, x ≠ .UNKNOWN →
        ((run_rois env d (r :: rois)).bp_class.count x : Int)
          = (run_rois env d (r :: rois)).tot_base_cnt.get x - d.tot_base_cnt.get x)) := by
  have hs : state_ok env q m1 m2 d := by
    rw [hd]
    exact run_rois_ok env q m1 m2 before _ (init_data_ok env stack m1 m2 q) hbefore
  refine ⟨?_, fun tmp pos pl => pileup_func_2_cases pos pl tmp, count_base_step, ?_, ?_⟩
  · intro tmp pos pl
    rw [pileup_func_1_frame pos pl tmp]
    exact ⟨rfl, rfl, rfl⟩
  · intro hl hi
    obtain ⟨r1, r2, r3, r4, r5⟩ := run_same_chrom env q m1 m2 id rois hv d hs hl hi
    refine ⟨r3, ?_, by omega, fun x hx => by have := r5 x hx; omega⟩
    intro pos
    rw [class_at_loaded env _ id r2.1]
    have := r1.2.2.2.2 pos
    rw [r2.2.1] at this
    exact this
  · intro hre r hr
    obtain ⟨g1, g2⟩ := gen_reload env q m1 m2 d r id hs hr hre
    have hl' := gen_loaded env d r id hs.2.2.2.1 hr
    obtain ⟨_, _, _, r4, r5⟩ := run_same_chrom env q m1 m2 id rois hv (process_roi env d r).1
      (gen_ok env q m1 m2 d r id hs hr) (by rw [hl'.1]; simp) hl'.2.1
    rw [run_rois_cons]
    refine ⟨by omega, fun x hx => ?_⟩
    have h5 := r5 x hx
    have h2 := g2 x hx
    omega

/-! ## The row of an ROI does not depend on the history -/

theorem plbuf1_mask_congr (cols : List Column) (s s' : pileup_data_t)
    (hb : s.beg = s'.beg) (he : s.end_ = s'.end_) (hq : s.min_mapq = s'.min_mapq)
    (hm : s.min_depth_bam1 = s'.min_depth_bam1) (hc : s.bam1_cvg = s'.bam1_cvg) :
    (bam_plbuf pileup_func_1 cols s).bam1_cvg = (bam_plbuf pileup_func_1 cols s').bam1_cvg := by
  induction cols generalizing s s' with
  | nil => exact hc
  | cons c cs ih =>
    show (bam_plbuf pileup_func_1 cs (pileup_func_1 c.pos c.pl s)).bam1_cvg
      = (bam_plbuf pileup_func_1 cs (pileup_func_1 c.pos c.pl s')).bam1_cvg
    have f := pileup_func_1_frame c.pos c.pl s
    have f' := pileup_func_1_frame c.pos c.pl s'
    apply ih
    · rw [f, f']; exact hb
    · rw [f, f']; exact he
    · rw [f, f']; exact hq
    · rw [f, f']; exact hm
    · unfold pileup_func_1
      rw [hb, he, hq, hm, hc]
      split
      · rfl
      · exact hc

theorem hits_congr (cols : List Column) (s s' : pileup_data_t)
    (hb : s.beg = s'.beg) (he : s.end_ = s'.end_) (hq : s.min_mapq = s'.min_mapq)
    (hm : s.min_depth_bam2 = s'.min_depth_bam2) (hc : s.bam1_cvg = s'.bam1_cvg) :
    hits s cols = hits s' cols := by
  unfold hits in_tagged_roi
  rw [hb, he, hq, hm, hc]

theorem roi_hit_list_congr (env : Env) (q m1 m2 : Int) (d d' : pileup_data_t) (r : roi_t)
    (id : Int) (hs : state_ok env q m1 m2 d) (hs' : state_ok env q m1 m2 d') :
    roi_hit_list env d r id = roi_hit_list env d' r id := by
  obtain ⟨hq, hm1, hm2, hc, _⟩ := hs
  obtain ⟨hq', hm1', hm2', hc', _⟩ := hs'
  have b := roi_start_beg env d r id
  have b' := roi_start_beg env d' r id
  have e := roi_start_end env d r id hc
  have e' := roi_start_end env d' r id hc'
  obtain ⟨t1, t2, t3⟩ := roi_start_thresholds env d r id
  obtain ⟨t1', t2', t3'⟩ := roi_start_thresholds env d' r id
  have k := roi_start_mask env d r id
  have k' := roi_start_mask env d' r id
  have f := pass1_frame env id (roi_start env d r id)
  have f' := pass1_frame env id (roi_start env d' r id)
  unfold roi_hit_list
  rw [b, b', e, e']
  apply hits_congr
  · rw [f, f']; exact b.trans b'.symm
  · rw [f, f']; exact e.trans e'.symm
  · rw [f, f']; exact (t1.trans hq).trans (t1'.trans hq').symm
  · rw [f, f']; exact (t3.trans hm2).trans (t3'.trans hm2').symm
  · unfold pass1
    rw [b, b', e, e']
    apply plbuf1_mask_congr
    · exact b.trans b'.symm
    · exact e.trans e'.symm
    · exact (t1.trans hq).trans (t1'.trans hq').symm
    · exact (t2.trans hm1).trans (t2'.trans hm1').symm
    · exact k.trans k'.symm

theorem gen_row (env : Env) (q m1 m2 : Int) (d : pileup_data_t) (r : roi_t) (id : Int)
    (hs : state_ok env q m1 m2 d) (hr : roi_on env id r) :
    (process_roi env d r).2 = some
      { gene_name := r.gene_name
        ref_name := r.ref_name
        start := roi_beg r + 1
        stop := roi_end env id r
        bases := r.stop - (r.start - 1)
        covd_bases := ((roi_hit_list env d r id).length : Nat)
        AT := ((roi_hit_list env d r id).countP (fun p => decide (ref_class env id p = .AT)) : Nat)
        CG := ((roi_hit_list env d r id).countP (fun p => decide (ref_class env id p = .CG)) : Nat)
        CpG := ((roi_hit_list env d r id).countP (fun p => decide (ref_class env id p = .CpG)) : Nat) } := by
  have hc := hs.2.2.2.1
  rw [process_roi_row env d r id hr.1 hr.2.2.1]
  obtain ⟨hb, he⟩ := process_roi_fin_range env d r id hr.1 hr.2.2.1 hc
  have hcov : (process_roi env d r).1.covd_bases = ((roi_hit_list env d r id).length : Nat) :=
    process_roi_covd env d r id hr.1 hr.2.2.1
  have hcnt : ∀ x, (process_roi env d r).1.base_cnt.get x =
      base_cnt_t.get { d.base_cnt with AT := 0, CG := 0, CpG := 0 } x +
        ((roi_hit_list env d r id).countP (fun p => decide (ref_class env id p = x)) : Nat) := by
    intro x
    rw [process_roi_hit_list env d r id hr,
      count_all_base_cnt _ _ (fun p hp => (roi_hit_list_bounds env d r id hc hr p hp).2.2)]
    have h : (pass1 env id (roi_start env d r id)).base_cnt
        = { d.base_cnt with AT := 0, CG := 0, CpG := 0 } := by
      rw [pass1_frame]; exact roi_start_base_cnt env d r id
    rw [h]
    congr 2
    apply List.countP_congr
    intro p _
    rw [pass1_eff_class env q m1 m2 d r id hs p]
  have hAT := hcnt .AT
  have hCG := hcnt .CG
  have hCpG := hcnt .CpG
  simp only [base_cnt_t.get, zero_add] at hAT hCG hCpG
  unfold row_of
  rw [hcov, hb, he, hAT, hCG, hCpG]

theorem run_rows_snoc (env : Env) (l : List roi_t) (r : roi_t) (d : pileup_data_t) :
    run_rows env d (l ++ [r])
      = run_rows env d l ++ (process_roi env (run_rois env d l) r).2.toList := by
  induction l generalizing d with
  | nil => simp [run_rows, run_rois]
  | cons a l ih =>
    have h1 : run_rows env d (a :: l ++ [r])
        = (process_roi env d a).2.toList ++ run_rows env (process_roi env d a).1 (l ++ [r]) := rfl
    have h2 : run_rows env d (a :: l)
        = (process_roi env d a).2.toList ++ run_rows env (process_roi env d a).1 l := rfl
    rw [h1, h2, ih, run_rois_cons, List.append_assoc]

/-- C17 (history independence of the row): for valid ROIs `before` and a valid ROI
`r`, the row emitted for `r` after `before`, in particular its values Covered,
ATs_Covered, CGs_Covered and CpGs_Covered, is the row emitted when `r` is the
only ROI of the run; and every tag left by `before` is the class a fresh
classification of its position on the loaded chromosome gives. -/
theorem row_history_independent (env : Env) (stack : pileup_data_t) (m1 m2 q : Int)
    (before : List roi_t) (r : roi_t) (id : Int)
    (hbefore : ∀ r' ∈ before, roi_on env (roi_id env r') r') (hr : roi_on env id r) :
    (∃ row, (out_rows (main env stack m1 m2 q ((before ++ [r]).map some)).2.2).getLast? = some row ∧
      out_rows (main env stack m1 m2 q ([r].map some)).2.2 = [row]) ∧
    ∀ pos, tag (run_rois env (init_data stack m1 m2 q) before) pos = .UNKNOWN ∨
      tag (run_rois env (init_data stack m1 m2 q) before) pos
        = ref_class env (run_rois env (init_data stack m1 m2 q) before).ref_id pos := by
  have hs0 := init_data_ok env stack m1 m2 q
  have hs := run_rois_ok env q m1 m2 before _ hs0 hbefore
  constructor
  · have h1 := gen_row env q m1 m2 _ r id hs hr
    have h0 := gen_row env q m1 m2 _ r id hs0 hr
    rw [roi_hit_list_congr env q m1 m2 _ (init_data stack m1 m2 q) r id hs hs0] at h1
    have heq := h1.trans h0.symm
    generalize hrow : (process_roi env (init_data stack m1 m2 q) r).2 = orow at h0 heq
    cases orow with
    | none => exact absurd h0 (by simp)
    | some row =>
      refine ⟨row, ?_, ?_⟩
      · rw [out_rows_main]
        rw [run_rows_snoc, heq]
        exact List.getLast?_concat _
      · rw [out_rows_main]
        simp only [run_rows, hrow, Option.toList, List.append_nil]
  · exact hs.2.2.2.2

/-! ## Coverage in terms of depth -/

theorem jointly_eq_column (env : Env) (q m1 m2 : Int) (id : Int) (r : roi_t) (p : Nat)
    (h1 : once (roi_plp1 env id r)) (h2 : once (roi_plp2 env id r)) :
    jointly_covered env q m1 m2 id r p = column_covered env q m1 m2 id r p := by
  rw [Bool.eq_iff_iff]
  unfold jointly_covered column_covered depth_covered
  simp only [Bool.and_eq_true, decide_eq_true_eq]
  rw [meets_iff_reported_depth h1, meets_iff_reported_depth h2]
  tauto

theorem jointly_eq_depth (env : Env) (q m1 m2 : Int) (id : Int) (r : roi_t) (p : Nat)
    (h1 : once (roi_plp1 env id r)) (h2 : once (roi_plp2 env id r))
    (hm1 : 1 ≤ m1) (hm2 : 1 ≤ m2) :
    jointly_covered env q m1 m2 id r p = depth_covered env q m1 m2 id r p := by
  rw [Bool.eq_iff_iff]
  unfold jointly_covered depth_covered
  simp only [Bool.and_eq_true, decide_eq_true_eq]
  rw [meets_iff_depth h1 hm1, meets_iff_depth h2 hm2]

theorem covered_pairs_eq_pairs_where (env : Env) (q m1 m2 : Int) (rois : List roi_t) :
    covered_pairs env q m1 m2 rois = pairs_where env (jointly_covered env q m1 m2) rois := rfl

theorem pairs_where_congr (env : Env) (cov cov' : Int → roi_t → Nat → Bool) (rois : List roi_t)
    (h : ∀ r ∈ rois, ∀ p, cov (roi_id env r) r p = cov' (roi_id env r) r p) :
    pairs_where env cov rois = pairs_where env cov' rois := by
  unfold pairs_where
  apply Finset.biUnion_congr rfl
  intro r hr
  rw [List.mem_toFinset] at hr
  congr 1
  apply Finset.filter_congr
  intro p _
  rw [h r hr p]

/-! ## Statements for ROIs inside their chromosome -/

/-- C1, amended (overlap dedup): for valid ROIs that all lie on the chromosome
`id` (`1 ≤ start ≤ stop ≤ ref_len`), with pileups that report each position at
most once per ROI, the value `tot_covd_bases` written in the final
`#NonOverlappingTotals` row is the number of distinct positions covered in at
least one ROI, where a position is covered in an ROI when it lies in the edited
range, both pileups deliver a column for it and its depth is at least the
threshold in both BAMs.  For thresholds `min_depth_bam1 ≥ 1` and
`min_depth_bam2 ≥ 1` this is the number of distinct positions that are jointly
covered as the specification words it.  A position shared by several ROIs adds
exactly 1. -/
theorem overlap_dedup (env : Env) (stack : pileup_data_t) (m1 m2 q : Int) (id : Int)
    (rois : List roi_t) (hv : ∀ r ∈ rois, roi_on env id r)
    (h1 : ∀ r ∈ rois, once (roi_plp1 env id r)) (h2 : ∀ r ∈ rois, once (roi_plp2 env id r)) :
    (∃ cAT cCG cCpG, (main env stack m1 m2 q (rois.map some)).2.2.getLast? =
      some (out_line.totals
        (((Finset.range (env.fai_fetch id).length).filter
          (fun p => ∃ r ∈ rois, column_covered env q m1 m2 id r p = true)).card : Nat)
        cAT cCG cCpG)) ∧
    (1 ≤ m1 → 1 ≤ m2 →
      ∃ cAT cCG cCpG, (main env stack m1 m2 q (rois.map some)).2.2.getLast? =
        some (out_line.totals
          (((Finset.range (env.fai_fetch id).length).filter
            (fun p => ∃ r ∈ rois, depth_covered env q m1 m2 id r p = true)).card : Nat)
          cAT cCG cCpG)) := by
  have hgood : ∀ r ∈ rois, roi_good env r := by
    intro r hr
    have hid := roi_on_id (hv r hr)
    unfold roi_good
    rw [hid]
    exact ⟨hv r hr, h1 r hr, h2 r hr⟩
  have hg : grouped (rois.map (roi_id env)) := by
    apply grouped_const id
    intro x hx
    rw [List.mem_map] at hx
    obtain ⟨r, hr, rfl⟩ := hx
    exact roi_on_id (hv r hr)
  have hinj : Function.Injective (fun p : Nat => (id, p)) := by
    intro a b hab
    simpa using hab
  have htot := main_tot_card env stack m1 m2 q rois hgood hg
  rw [covered_pairs_one_chrom env q m1 m2 id rois hv, Finset.card_image_of_injective _ hinj] at htot
  constructor
  · refine ⟨(run_rois env (init_data stack m1 m2 q) rois).tot_base_cnt.AT,
      (run_rois env (init_data stack m1 m2 q) rois).tot_base_cnt.CG,
      (run_rois env (init_data stack m1 m2 q) rois).tot_base_cnt.CpG, ?_⟩
    rw [main_last, htot]
    congr 4
    apply Finset.filter_congr
    intro p _
    constructor
    · rintro ⟨r, hr, hj⟩
      exact ⟨r, hr, by rw [← jointly_eq_column env q m1 m2 id r p (h1 r hr) (h2 r hr)]; exact hj⟩
    · rintro ⟨r, hr, hj⟩
      exact ⟨r, hr, by rw [jointly_eq_column env q m1 m2 id r p (h1 r hr) (h2 r hr)]; exact hj⟩
  · intro hm1 hm2
    refine ⟨(run_rois env (init_data stack m1 m2 q) rois).tot_base_cnt.AT,
      (run_rois env (init_data stack m1 m2 q) rois).tot_base_cnt.CG,
      (run_rois env (init_data stack m1 m2 q) rois).tot_base_cnt.CpG, ?_⟩
    rw [main_last, htot]
    congr 4
    apply Finset.filter_congr
    intro p _
    constructor
    · rintro ⟨r, hr, hj⟩
      exact ⟨r, hr, by
        rw [← jointly_eq_depth env q m1 m2 id r p (h1 r hr) (h2 r hr) hm1 hm2]; exact hj⟩
    · rintro ⟨r, hr, hj⟩
      exact ⟨r, hr, by
        rw [jointly_eq_depth env q m1 m2 id r p (h1 r hr) (h2 r hr) hm1 hm2]; exact hj⟩

theorem roi_hit_list_nodup (env : Env) (d : pileup_data_t) (r : roi_t) (id : Int)
    (hc : cache_ok env d) (h2 : once (roi_plp2 env id r)) : (roi_hit_list env d r id).Nodup := by
  unfold roi_hit_list
  apply hits_nodup
  rw [roi_start_beg env d r id, roi_start_end env d r id hc]
  exact h2

theorem roi_hit_list_length_le (env : Env) (d : pileup_data_t) (r : roi_t) (id : Int)
    (hc : cache_ok env d) (h2 : once (roi_plp2 env id r)) :
    (roi_hit_list env d r id).length ≤ (roi_end env id r).toNat - (roi_beg r).toNat := by
  apply nodup_range_length _ (roi_hit_list_nodup env d r id hc h2)
  intro p hp
  have := hits_range _ _ p hp
  have hfr := pass1_frame env id (roi_start env d r id)
  have e1 : (pass1 env id (roi_start env d r id)).beg = roi_beg r := by
    rw [hfr]; exact roi_start_beg env d r id
  have e2 : (pass1 env id (roi_start env d r id)).end_ = roi_end env id r := by
    rw [hfr]; exact roi_start_end env d r id hc
  rw [e1, e2] at this
  exact this

/-- C2 (two-sample intersection): in a run over valid ROIs inside their
chromosomes, for a valid ROI `r` with `1 ≤ start ≤ stop ≤ ref_len`, thresholds
`min_depth_bam1 ≥ 1` and `min_depth_bam2 ≥ 1` and pileups that report each
position at most once, the pileups start on the edited range (`beg` is
`start - 1` moved from 0 to 1, `end` is `stop` moved from `ref_len` to
`ref_len - 1`) and `covd_bases` after the two passes is the number of positions
`p` with `beg ≤ p < end` whose depth is at least `min_depth_bam1` in bam1 and at
least `min_depth_bam2` in bam2.  Positions outside the range or failing in bam1
are not counted, and the counter stays in the range of `int`. -/
theorem two_sample_intersection (env : Env) (stack : pileup_data_t) (m1 m2 q : Int)
    (before : List roi_t) (r : roi_t) (id : Int)
    (hbefore : ∀ r' ∈ before, roi_on env (roi_id env r') r') (hr : roi_on env id r)
    (hint : chrom_len env id < 2147483648) (hm1 : 1 ≤ m1) (hm2 : 1 ≤ m2)
    (h1 : once (roi_plp1 env id r)) (h2 : once (roi_plp2 env id r)) :
    (roi_start env (run_rois env (init_data stack m1 m2 q) before) r id).beg
      = (if r.start - 1 = 0 then 1 else r.start - 1) ∧
    (roi_start env (run_rois env (init_data stack m1 m2 q) before) r id).end_
      = (if r.stop = chrom_len env id then r.stop - 1 else r.stop) ∧
    (process_roi env (run_rois env (init_data stack m1 m2 q) before) r).1.covd_bases =
      ((Finset.range (roi_end env id r).toNat).filter (fun p : Nat =>
        roi_beg r ≤ (p : Int) ∧ (p : Int) < roi_end env id r ∧
        m1 ≤ depth q (env.plp1 id (roi_beg r) (roi_end env id r)) p ∧
        m2 ≤ depth q (env.plp2 id (roi_beg r) (roi_end env id r)) p)).card ∧
    (process_roi env (run_rois env (init_data stack m1 m2 q) before) r).1.covd_bases
      < 2147483648 := by
  have hs := run_rois_ok env q m1 m2 before _ (init_data_ok env stack m1 m2 q) hbefore
  generalize run_rois env (init_data stack m1 m2 q) before = d at hs ⊢
  have hc := hs.2.2.2.1
  have hcov := roi_fin_covd env q m1 m2 d r id hs hr h1
  have hnd := roi_hits_nodup env q m1 m2 id r h2
  have hcard : (roi_hits env q m1 m2 id r).length =
      ((Finset.range (roi_end env id r).toNat).filter (fun p : Nat =>
        roi_beg r ≤ (p : Int) ∧ (p : Int) < roi_end env id r ∧
        m1 ≤ depth q (env.plp1 id (roi_beg r) (roi_end env id r)) p ∧
        m2 ≤ depth q (env.plp2 id (roi_beg r) (roi_end env id r)) p)).card := by
    rw [← List.toFinset_card_of_nodup hnd]
    congr 1
    ext p
    rw [List.mem_toFinset, mem_roi_hits, jointly_eq_depth env q m1 m2 id r p h1 h2 hm1 hm2,
      Finset.mem_filter, Finset.mem_range]
    unfold depth_covered roi_plp1 roi_plp2
    simp only [Bool.and_eq_true, decide_eq_true_eq]
    constructor
    · rintro ⟨⟨⟨a, b⟩, c⟩, e⟩
      exact ⟨by omega, a, b, c, e⟩
    · rintro ⟨_, a, b, c, e⟩
      exact ⟨⟨⟨a, b⟩, c⟩, e⟩
  refine ⟨roi_start_beg env d r id, roi_start_end env d r id hc, ?_, ?_⟩
  · rw [hcov, hcard]
  · rw [hcov]
    have hle := nodup_range_length _ hnd (roi_beg r) (roi_end env id r) (fun p hp => by
      rw [mem_roi_hits] at hp
      unfold jointly_covered at hp
      simp only [Bool.and_eq_true, decide_eq_true_eq] at hp
      exact ⟨hp.1.1.1, hp.1.1.2⟩)
    have hend := roi_end_le env id r
    obtain ⟨_, _, _, h3⟩ := hr
    omega

/-- C5: in a run over valid ROIs inside their chromosomes, the row of a valid ROI
with `1 ≤ start ≤ stop ≤ ref_len` is emitted with `0 ≤ Covered ≤ Length`, where
Length is `stop - (start - 1)`, computed before the edit at the chromosome
tips, as soon as the pileup on bam2 reports each position at most once; both
values stay in the range of `int`. -/
theorem covered_le_length (env : Env) (stack : pileup_data_t) (m1 m2 q : Int)
    (before : List roi_t) (r : roi_t) (id : Int)
    (hbefore : ∀ r' ∈ before, roi_on env (roi_id env r') r') (hr : roi_on env id r)
    (hint : chrom_len env id < 2147483648) (h2 : once (roi_plp2 env id r)) :
    ∃ row, (process_roi env (run_rois env (init_data stack m1 m2 q) before) r).2 = some row ∧
      row.bases = r.stop - (r.start - 1) ∧ 0 ≤ row.covd_bases ∧ row.covd_bases ≤ row.bases ∧
      row.bases < 2147483648 := by
  have hs := run_rois_ok env q m1 m2 before _ (init_data_ok env stack m1 m2 q) hbefore
  generalize run_rois env (init_data stack m1 m2 q) before = d at hs ⊢
  have hc := hs.2.2.2.1
  have hcov : (process_roi env d r).1.covd_bases = ((roi_hit_list env d r id).length : Nat) :=
    process_roi_covd env d r id hr.1 hr.2.2.1
  have hle := roi_hit_list_length_le env d r id hc h2
  have hb := roi_beg_ge r
  have he := roi_end_le env id r
  obtain ⟨hid, h1, hle', h3⟩ := hr
  refine ⟨_, process_roi_row env d r id hid hle', rfl, ?_, ?_, ?_⟩
  · show 0 ≤ (process_roi env d r).1.covd_bases
    rw [hcov]; exact Int.natCast_nonneg _
  · show (process_roi env d r).1.covd_bases ≤ r.stop - (r.start - 1)
    rw [hcov]; omega
  · show r.stop - (r.start - 1) < 2147483648
    omega

/-- C14, amended: in a run over valid ROIs inside their chromosomes, the Length
written in the row of a valid ROI with `1 ≤ start ≤ stop ≤ ref_len` is the
length `stop - start + 1` of the ROI as given, computed before the edit at the
chromosome tips.  The interval shown in the row is the edited one, so for an
ROI that touches a tip the Length exceeds the number of bases of the interval
shown by one for each touched end. -/
theorem edge_length_not_shortened (env : Env) (stack : pileup_data_t) (m1 m2 q : Int)
    (before : List roi_t) (r : roi_t) (id : Int)
    (hbefore : ∀ r' ∈ before, roi_on env (roi_id env r') r') (hr : roi_on env id r)
    (hint : chrom_len env id < 2147483648) :
    ∃ row, (process_roi env (run_rois env (init_data stack m1 m2 q) before) r).2 = some row ∧
      row.bases = r.stop - r.start + 1 ∧
      0 < row.bases ∧ row.bases < 2147483648 ∧
      row.start = r.start + (if r.start = 1 then 1 else 0) ∧
      row.stop = r.stop - (if r.stop = chrom_len env id then 1 else 0) ∧
      row.bases = (row.stop - row.start + 1) + (if r.start = 1 then 1 else 0)
        + (if r.stop = chrom_len env id then 1 else 0) := by
  have hs := run_rois_ok env q m1 m2 before _ (init_data_ok env stack m1 m2 q) hbefore
  generalize run_rois env (init_data stack m1 m2 q) before = d at hs ⊢
  have hc := hs.2.2.2.1
  obtain ⟨hid, h1, hle, h3⟩ := hr
  obtain ⟨hb, he⟩ := process_roi_fin_range env d r id hid hle hc
  have e1 : (row_of r (r.stop - (r.start - 1)) (process_roi env d r).1).start
      = r.start + (if r.start = 1 then 1 else 0) := by
    show (process_roi env d r).1.beg + 1 = _
    rw [hb]; unfold roi_beg; split_ifs <;> omega
  have e2 : (row_of r (r.stop - (r.start - 1)) (process_roi env d r).1).stop
      = r.stop - (if r.stop = chrom_len env id then 1 else 0) := by
    show (process_roi env d r).1.end_ = _
    rw [he]; unfold roi_end; split_ifs <;> omega
  have e3 : (row_of r (r.stop - (r.start - 1)) (process_roi env d r).1).bases
      = r.stop - r.start + 1 := by
    show r.stop - (r.start - 1) = r.stop - r.start + 1
    omega
  refine ⟨_, process_roi_row env d r id hid hle, e3, ?_, ?_, e1, e2, ?_⟩
  · rw [e3]; omega
  · rw [e3]; omega
  · rw [e1, e2, e3]
    omega

/-! ## Evaluations on the example inputs -/

set_option maxRecDepth 20000

/-- C4 fails on the code: `base_cnt[IUB]` is not reset.  After the second of two
ROIs that both cover the base `N`, the row is emitted with `covd_bases = 2`
while the class counters are AT 0, CG 1, CpG 0 and IUB 2. -/
theorem iub_not_reset :
    (∀ r ∈ ex_rois_iub, roi_good ex_env r) ∧
    (run_rois ex_env (init_data ex_stack 6 8 20) ex_rois_iub).covd_bases = 2 ∧
    (run_rois ex_env (init_data ex_stack 6 8 20) ex_rois_iub).base_cnt = ⟨0, 1, 0, 2⟩ ∧
    (run_rois ex_env (init_data ex_stack 6 8 20) ex_rois_iub).covd_bases ≠
      (run_rois ex_env (init_data ex_stack 6 8 20) ex_rois_iub).base_cnt.AT +
      (run_rois ex_env (init_data ex_stack 6 8 20) ex_rois_iub).base_cnt.CG +
      (run_rois ex_env (init_data ex_stack 6 8 20) ex_rois_iub).base_cnt.CpG +
      (run_rois ex_env (init_data ex_stack 6 8 20) ex_rois_iub).base_cnt.IUB := by
  decide

/-- Witness for C7: position 1 of the ROI 1..5 on chromosome "1", after the
column of position 0. -/
theorem boundary_safety_witness :
    (bam_plbuf pileup_func_2 [ex_col 0 8 30] (pass1 ex_env 0
      (roi_start ex_env (run_rois ex_env (init_data ex_stack 6 8 20) []) ⟨"1", 1, 5, "geneA"⟩ 0))).ref_seq
      = some (ex_env.fai_fetch 0) ∧
    (bam_plbuf pileup_func_2 [ex_col 0 8 30] (pass1 ex_env 0
      (roi_start ex_env (run_rois ex_env (init_data ex_stack 6 8 20) []) ⟨"1", 1, 5, "geneA"⟩ 0))).ref_len
      = chrom_len ex_env 0 ∧
    (bam_plbuf pileup_func_2 [ex_col 0 8 30] (pass1 ex_env 0
      (roi_start ex_env (run_rois ex_env (init_data ex_stack 6 8 20) []) ⟨"1", 1, 5, "geneA"⟩ 0))).bp_class.length
      = (ex_env.fai_fetch 0).length ∧
    1 ≤ (ex_col 1 8 30).pos ∧ ((ex_col 1 8 30).pos : Int) ≤ chrom_len ex_env 0 - 2 ∧
    pos_prev (ex_col 1 8 30).pos = (ex_col 1 8 30).pos - 1 ∧
    pos_next (ex_col 1 8 30).pos = (ex_col 1 8 30).pos + 1 ∧
    (ex_col 1 8 30).pos + 1 < (ex_env.fai_fetch 0).length :=
  boundary_safety ex_env ex_stack 6 8 20 [] ⟨"1", 1, 5, "geneA"⟩ 0 (by decide) (by decide)
    [ex_col 0 8 30] (ex_col 1 8 30) (by decide)

/-- Witness for C8: Scenario A on the example collaborators. -/
theorem scenario_A_witness :
    (main ex_env ex_stack 6 8 20 [some ⟨"1", 1, 5, "geneA"⟩]).2.1.beg = 1 ∧
    (main ex_env ex_stack 6 8 20 [some ⟨"1", 1, 5, "geneA"⟩]).2.1.end_ = 4 ∧
    tag (main ex_env ex_stack 6 8 20 [some ⟨"1", 1, 5, "geneA"⟩]).2.1 1 = .CpG ∧
    tag (main ex_env ex_stack 6 8 20 [some ⟨"1", 1, 5, "geneA"⟩]).2.1 2 = .CpG ∧
    tag (main ex_env ex_stack 6 8 20 [some ⟨"1", 1, 5, "geneA"⟩]).2.1 3 = .AT ∧
    (main ex_env ex_stack 6 8 20 [some ⟨"1", 1, 5, "geneA"⟩]).2.1.covd_bases = 3 ∧
    (main ex_env ex_stack 6 8 20 [some ⟨"1", 1, 5, "geneA"⟩]).2.1.base_cnt.AT = 1 ∧
    (main ex_env ex_stack 6 8 20 [some ⟨"1", 1, 5, "geneA"⟩]).2.1.base_cnt.CpG = 2 ∧
    (main ex_env ex_stack 6 8 20 [some ⟨"1", 1, 5, "geneA"⟩]).2.1.base_cnt.CG = 0 ∧
    (main ex_env ex_stack 6 8 20 [some ⟨"1", 1, 5, "geneA"⟩]).2.1.tot_covd_bases = 3 ∧
    (main ex_env ex_stack 6 8 20 [some ⟨"1", 1, 5, "geneA"⟩]).2.1.tot_base_cnt.AT = 1 ∧
    (main ex_env ex_stack 6 8 20 [some ⟨"1", 1, 5, "geneA"⟩]).2.1.tot_base_cnt.CpG = 2 ∧
    (main ex_env ex_stack 6 8 20 [some ⟨"1", 1, 5, "geneA"⟩]).2.1.tot_base_cnt.CG = 0 :=
  scenario_A ex_env ex_stack 6 8 20 "1" "geneA" 0 (by decide) (by decide) (by decide) (by decide)
    (fun p h1 h3 => by interval_cases p <;> decide)
    (fun p h1 h3 => by interval_cases p <;> decide)

/-- Witness for the amended C9: an ROI of chromosome "2", where bam1 has depth 5,
processed from the initial record. -/
theorem uncovered_roi_frame_witness :
    (process_roi ex_env_low (init_data ex_stack 6 8 20) ⟨"2", 1, 6, "geneC"⟩).1.covd_bases = 0 ∧
    (process_roi ex_env_low (init_data ex_stack 6 8 20) ⟨"2", 1, 6, "geneC"⟩).1.base_cnt.AT = 0 ∧
    (process_roi ex_env_low (init_data ex_stack 6 8 20) ⟨"2", 1, 6, "geneC"⟩).1.base_cnt.CG = 0 ∧
    (process_roi ex_env_low (init_data ex_stack 6 8 20) ⟨"2", 1, 6, "geneC"⟩).1.base_cnt.CpG = 0 ∧
    (process_roi ex_env_low (init_data ex_stack 6 8 20) ⟨"2", 1, 6, "geneC"⟩).1.tot_covd_bases =
      (init_data ex_stack 6 8 20).tot_covd_bases ∧
    (process_roi ex_env_low (init_data ex_stack 6 8 20) ⟨"2", 1, 6, "geneC"⟩).1.tot_base_cnt =
      (init_data ex_stack 6 8 20).tot_base_cnt ∧
    (process_roi ex_env_low (init_data ex_stack 6 8 20) ⟨"2", 1, 6, "geneC"⟩).1.bp_class =
      (if (init_data ex_stack 6 8 20).ref_seq = none ∨ 1 ≠ (init_data ex_stack 6 8 20).ref_id
        then List.replicate (ex_env_low.fai_fetch 1).length .UNKNOWN
        else (init_data ex_stack 6 8 20).bp_class) :=
  uncovered_roi_frame ex_env_low (init_data ex_stack 6 8 20) ⟨"2", 1, 6, "geneC"⟩ 1
    (by decide) (by decide) (by decide)

/-- Counterexample to C9: an ROI of chromosome "2" in which bam1 has depth 5 < 6
everywhere follows an ROI of chromosome "1".  Its counters are 0 and the
totals stay 3, but the load of chromosome "2" resets the tags: the tag of
position 1 is CpG before the ROI and UNKNOWN after it. -/
theorem uncovered_reload_counterexample :
    (∀ c ∈ ex_env_low.plp1 1 1 5, mapq_n 20 c.pl < 6) ∧
    (run_rois ex_env_low (init_data ex_stack 6 8 20)
      [⟨"1", 1, 5, "geneA"⟩, ⟨"2", 1, 6, "geneC"⟩]).covd_bases = 0 ∧
    (run_rois ex_env_low (init_data ex_stack 6 8 20) [⟨"1", 1, 5, "geneA"⟩]).tot_covd_bases = 3 ∧
    (run_rois ex_env_low (init_data ex_stack 6 8 20)
      [⟨"1", 1, 5, "geneA"⟩, ⟨"2", 1, 6, "geneC"⟩]).tot_covd_bases = 3 ∧
    tag (run_rois ex_env_low (init_data ex_stack 6 8 20) [⟨"1", 1, 5, "geneA"⟩]) 1 = .CpG ∧
    tag (run_rois ex_env_low (init_data ex_stack 6 8 20)
      [⟨"1", 1, 5, "geneA"⟩, ⟨"2", 1, 6, "geneC"⟩]) 1 = .UNKNOWN ∧
    (run_rois ex_env_low (init_data ex_stack 6 8 20)
      [⟨"1", 1, 5, "geneA"⟩, ⟨"2", 1, 6, "geneC"⟩]).bp_class ≠
      (run_rois ex_env_low (init_data ex_stack 6 8 20) [⟨"1", 1, 5, "geneA"⟩]).bp_class := by
  decide

/-- Witness for C11: the record of the unknown chromosome "X" between two valid
records. -/
theorem skip_policy_witness :
    (main ex_env ex_stack 6 8 20 ([some ⟨"1", 1, 5, "geneA"⟩] ++ some ⟨"X", 1, 5, "geneX"⟩ ::
        [some ⟨"2", 1, 6, "geneC"⟩])).2.2
      = (main ex_env ex_stack 6 8 20 ([some ⟨"1", 1, 5, "geneA"⟩] ++ [some ⟨"2", 1, 6, "geneC"⟩])).2.2 :=
  ((skip_policy ex_env ex_stack 6 8 20 ⟨"X", 1, 5, "geneX"⟩ (Or.inl (by decide))).2
    [some ⟨"1", 1, 5, "geneA"⟩] [some ⟨"2", 1, 6, "geneC"⟩]).2.1

/-- Witness for C13: the ROI 2..4 of chromosome "1" after another ROI. -/
theorem coordinate_round_trip_witness :
    ∃ row, (process_roi ex_env (run_rois ex_env (init_data ex_stack 6 8 20) ex_rois_A)
        ⟨"1", 2, 4, "geneB"⟩).2 = some row ∧
      row.gene_name = "geneB" ∧ row.ref_name = "1" ∧
      row.start = 2 ∧ row.stop = 4 ∧ row.bases = 4 - 2 + 1 :=
  coordinate_round_trip ex_env ex_stack 6 8 20 ex_rois_A ⟨"1", 2, 4, "geneB"⟩ 0
    (by decide) (by decide) (by decide) (by decide)

/-- Counterexample to C14: the ROI 1..5 covers the chromosome `ACGTT` of length 5
and touches both tips.  Its row shows the interval 2-4 of 3 bases, and the
Length 5. -/
theorem edge_length_counterexample :
    (process_roi ex_env (init_data ex_stack 6 8 20) ⟨"1", 1, 5, "geneA"⟩).2 =
      some ⟨"geneA", "1", 2, 4, 5, 3, 1, 0, 2⟩ ∧
    (process_roi ex_env (init_data ex_stack 6 8 20) ⟨"1", 1, 5, "geneA"⟩).2.map roi_row.bases
      = some 5 ∧
    (process_roi ex_env (init_data ex_stack 6 8 20) ⟨"1", 1, 5, "geneA"⟩).2.map
      (fun row => row.stop - row.start + 1) = some 3 := by
  decide

/-- Witness for C15: the ROI 2..4 of chromosome "1" after the ROI 1..3 of the same
chromosome. -/
theorem tag_invariant_witness :
    (tagged_count (run_rois ex_env (run_rois ex_env (init_data ex_stack 6 8 20) ex_rois_A)
        [⟨"1", 2, 4, "geneB"⟩]) : Int)
      - tagged_count (run_rois ex_env (init_data ex_stack 6 8 20) ex_rois_A)
      = (run_rois ex_env (run_rois ex_env (init_data ex_stack 6 8 20) ex_rois_A)
          [⟨"1", 2, 4, "geneB"⟩]).tot_covd_bases
        - (run_rois ex_env (init_data ex_stack 6 8 20) ex_rois_A).tot_covd_bases :=
  ((tag_invariant ex_env ex_stack 6 8 20 ex_rois_A 0 [⟨"1", 2, 4, "geneB"⟩]
    (by decide) (by decide) (run_rois ex_env (init_data ex_stack 6 8 20) ex_rois_A) rfl).2.2.2.1
    (by decide) (by decide)).2.2.1

/-- Witness for the amended C16: position 2 of the ROI 1..5 of chromosome "1". -/
theorem mask_semantics_witness :
    ((pass1 ex_env 0 (roi_start ex_env (init_data ex_stack 6 8 20) ⟨"1", 1, 5, "geneA"⟩ 0)).bam1_cvg.getD
        (((2 : Nat) : Int) - (roi_start ex_env (init_data ex_stack 6 8 20) ⟨"1", 1, 5, "geneA"⟩ 0).beg).toNat
        false = true ↔
      (init_data ex_stack 6 8 20).min_depth_bam1 ≤ depth (init_data ex_stack 6 8 20).min_mapq
        (ex_env.plp1 0 (roi_start ex_env (init_data ex_stack 6 8 20) ⟨"1", 1, 5, "geneA"⟩ 0).beg
          (roi_start ex_env (init_data ex_stack 6 8 20) ⟨"1", 1, 5, "geneA"⟩ 0).end_) 2) :=
  (mask_semantics ex_env (init_data ex_stack 6 8 20) ⟨"1", 1, 5, "geneA"⟩ 0 (by decide)
    (fun _ _ => (by decide : once ex_cols)) 2 (by decide) (by decide)).2.2 (by decide)

/-- Counterexample to C16: with `min_depth_bam1 = 0` and a pileup on bam1 that
delivers columns for the positions 1 and 3 only, position 2 of the edited
range `[1,4)` has depth 0, which is at least the threshold, and its mask entry
is false after the pass. -/
theorem mask_zero_threshold_counterexample :
    once ex_cols_gap ∧
    (roi_start ex_env_gap (init_data ex_stack 0 8 20) ⟨"1", 1, 5, "geneA"⟩ 0).beg = 1 ∧
    (roi_start ex_env_gap (init_data ex_stack 0 8 20) ⟨"1", 1, 5, "geneA"⟩ 0).end_ = 4 ∧
    depth 20 (ex_env_gap.plp1 0 1 4) 2 = 0 ∧
    (init_data ex_stack 0 8 20).min_depth_bam1 ≤ depth 20 (ex_env_gap.plp1 0 1 4) 2 ∧
    (pass1 ex_env_gap 0 (roi_start ex_env_gap (init_data ex_stack 0 8 20) ⟨"1", 1, 5, "geneA"⟩ 0)).bam1_cvg
      = [true, false, true, false, false] ∧
    (pass1 ex_env_gap 0 (roi_start ex_env_gap (init_data ex_stack 0 8 20)
      ⟨"1", 1, 5, "geneA"⟩ 0)).bam1_cvg.getD (((2 : Nat) : Int) - 1).toNat false = false := by
  decide

/-- Witness for C17: the ROI 2..4 of chromosome "1" after an overlapping ROI and an
ROI of chromosome "2". -/
theorem row_history_independent_witness :
    ∃ row, (out_rows (main ex_env ex_stack 6 8 20
        ((([⟨"1", 1, 5, "geneA"⟩, ⟨"2", 1, 6, "geneC"⟩] : List roi_t) ++
          ([⟨"1", 2, 4, "geneB"⟩] : List roi_t)).map some)).2.2).getLast?
        = some row ∧
      out_rows (main ex_env ex_stack 6 8 20
        (([⟨"1", 2, 4, "geneB"⟩] : List roi_t).map some)).2.2 = [row] :=
  (row_history_independent ex_env ex_stack 6 8 20 [⟨"1", 1, 5, "geneA"⟩, ⟨"2", 1, 6, "geneC"⟩]
    ⟨"1", 2, 4, "geneB"⟩ 0 (by decide) (by decide)).1

/-- Witness for C18: the mask of the ROI 1..5 of chromosome "1" has 5 entries. -/
theorem mask_index_in_bounds_witness :
    (roi_start ex_env (run_rois ex_env (init_data ex_stack 6 8 20) []) ⟨"1", 1, 5, "geneA"⟩ 0).bam1_cvg.length
      = ((5 : Int) - (1 - 1)).toNat ∧ (0 : Int) < 5 - (1 - 1) :=
  have h := mask_index_in_bounds ex_env ex_stack 6 8 20 [] ⟨"1", 1, 5, "geneA"⟩ 0 (by decide)
  ⟨h.1, h.2.1⟩

/-- C1 as worded fails for a threshold of 0: on chromosome "1" (`ACGTT`) with
bam1 reporting the positions 1 and 3 only, thresholds `min_depth_bam1 = 0` and
`min_depth_bam2 = 8`, the ROI 1..5 has the range `[1,4)`; the depth is at least
the threshold in both BAMs at the positions 1, 2 and 3, yet the totals row
shows 2 covered bases, since no column is delivered for position 2. -/
theorem zero_threshold_total_counterexample :
    (∀ r ∈ ([⟨"1", 1, 5, "geneA"⟩] : List roi_t), roi_on ex_env_gap 0 r) ∧
    once (roi_plp1 ex_env_gap 0 ⟨"1", 1, 5, "geneA"⟩) ∧
    once (roi_plp2 ex_env_gap 0 ⟨"1", 1, 5, "geneA"⟩) ∧
    depth 20 (roi_plp1 ex_env_gap 0 ⟨"1", 1, 5, "geneA"⟩) 2 = 0 ∧
    depth 20 (roi_plp2 ex_env_gap 0 ⟨"1", 1, 5, "geneA"⟩) 2 = 8 ∧
    (main ex_env_gap ex_stack 0 8 20 [some ⟨"1", 1, 5, "geneA"⟩]).2.2.getLast? =
      some (out_line.totals 2 1 0 1) ∧
    ((Finset.range (ex_env_gap.fai_fetch 0).length).filter
      (fun p => ∃ r ∈ ([⟨"1", 1, 5, "geneA"⟩] : List roi_t),
        depth_covered ex_env_gap 20 0 8 0 r p = true)).card = 3 := by
  decide

/-- Witness for C1: the overlapping ROIs 1..5 and 2..4 of chromosome "1"; the
totals row shows 3 covered bases. -/
theorem overlap_dedup_witness :
    (∃ cAT cCG cCpG, (main ex_env ex_stack 6 8 20 (ex_rois_overlap.map some)).2.2.getLast? =
      some (out_line.totals
        (((Finset.range (ex_env.fai_fetch 0).length).filter
          (fun p => ∃ r ∈ ex_rois_overlap, column_covered ex_env 20 6 8 0 r p = true)).card : Nat)
        cAT cCG cCpG)) ∧
    (∃ cAT cCG cCpG, (main ex_env ex_stack 6 8 20 (ex_rois_overlap.map some)).2.2.getLast? =
      some (out_line.totals
        (((Finset.range (ex_env.fai_fetch 0).length).filter
          (fun p => ∃ r ∈ ex_rois_overlap, depth_covered ex_env 20 6 8 0 r p = true)).card : Nat)
        cAT cCG cCpG)) ∧
    (main ex_env ex_stack 6 8 20 (ex_rois_overlap.map some)).2.2.getLast? =
      some (out_line.totals 3 1 0 2) ∧
    ((Finset.range (ex_env.fai_fetch 0).length).filter
      (fun p => ∃ r ∈ ex_rois_overlap, depth_covered ex_env 20 6 8 0 r p = true)).card = 3 :=
  ⟨(overlap_dedup ex_env ex_stack 6 8 20 0 ex_rois_overlap (by decide) (by decide) (by decide)).1,
    (overlap_dedup ex_env ex_stack 6 8 20 0 ex_rois_overlap (by decide) (by decide) (by decide)).2
      (by decide) (by decide),
    by decide, by decide⟩

/-- Witness for C2: the ROI 1..5 of chromosome "1" after the ROI 1..3; the three
positions 1, 2 and 3 are counted. -/
theorem two_sample_intersection_witness :
    (roi_start ex_env (run_rois ex_env (init_data ex_stack 6 8 20) ex_rois_A)
      ⟨"1", 1, 5, "geneA"⟩ 0).beg = (if (1 : Int) - 1 = 0 then 1 else 1 - 1) ∧
    (roi_start ex_env (run_rois ex_env (init_data ex_stack 6 8 20) ex_rois_A)
      ⟨"1", 1, 5, "geneA"⟩ 0).end_ = (if (5 : Int) = chrom_len ex_env 0 then 5 - 1 else 5) ∧
    (process_roi ex_env (run_rois ex_env (init_data ex_stack 6 8 20) ex_rois_A)
      ⟨"1", 1, 5, "geneA"⟩).1.covd_bases =
      ((Finset.range (roi_end ex_env 0 ⟨"1", 1, 5, "geneA"⟩).toNat).filter (fun p : Nat =>
        roi_beg ⟨"1", 1, 5, "geneA"⟩ ≤ (p : Int) ∧ (p : Int) < roi_end ex_env 0 ⟨"1", 1, 5, "geneA"⟩ ∧
        (6 : Int) ≤ depth 20 (ex_env.plp1 0 (roi_beg ⟨"1", 1, 5, "geneA"⟩)
          (roi_end ex_env 0 ⟨"1", 1, 5, "geneA"⟩)) p ∧
        (8 : Int) ≤ depth 20 (ex_env.plp2 0 (roi_beg ⟨"1", 1, 5, "geneA"⟩)
          (roi_end ex_env 0 ⟨"1", 1, 5, "geneA"⟩)) p)).card ∧
    (process_roi ex_env (run_rois ex_env (init_data ex_stack 6 8 20) ex_rois_A)
      ⟨"1", 1, 5, "geneA"⟩).1.covd_bases < 2147483648 :=
  two_sample_intersection ex_env ex_stack 6 8 20 ex_rois_A ⟨"1", 1, 5, "geneA"⟩ 0
    (by decide) (by decide) (by decide) (by decide) (by decide) (by decide) (by decide)

/-- Witness for C5: the ROI 1..5 of chromosome "1" after the ROI 1..3. -/
theorem covered_le_length_witness :
    ∃ row, (process_roi ex_env (run_rois ex_env (init_data ex_stack 6 8 20) ex_rois_A)
        ⟨"1", 1, 5, "geneA"⟩).2 = some row ∧
      row.bases = 5 - (1 - 1) ∧ 0 ≤ row.covd_bases ∧ row.covd_bases ≤ row.bases ∧
      row.bases < 2147483648 :=
  covered_le_length ex_env ex_stack 6 8 20 ex_rois_A ⟨"1", 1, 5, "geneA"⟩ 0
    (by decide) (by decide) (by decide) (by decide)

/-- Witness for C14: the ROI 1..5 of chromosome "1", which touches both tips. -/
theorem edge_length_not_shortened_witness :
    ∃ row, (process_roi ex_env (run_rois ex_env (init_data ex_stack 6 8 20) []) ⟨"1", 1, 5, "geneA"⟩).2
        = some row ∧
      row.bases = 5 - 1 + 1 ∧
      0 < row.bases ∧ row.bases < 2147483648 ∧
      row.start = 1 + (if (1 : Int) = 1 then 1 else 0) ∧
      row.stop = 5 - (if (5 : Int) = chrom_len ex_env 0 then 1 else 0) ∧
      row.bases = (row.stop - row.start + 1) + (if (1 : Int) = 1 then 1 else 0)
        + (if (5 : Int) = chrom_len ex_env 0 then 1 else 0) :=
  edge_length_not_shortened ex_env ex_stack 6 8 20 [] ⟨"1", 1, 5, "geneA"⟩ 0
    (by decide) (by decide) (by decide)

end CalcRoiCovg
